import Mathlib

/-!
Atomics builtins over shared integer typed arrays.

A shallow embedding of `src/builtins/builtins-sharedarraybuffer-gen.cc`
(`SharedArrayBufferBuiltinsAssembler` and the `Atomics*` builtins) and the
properties of it that the specification states.

Conventions of the embedding.

* Machine words are natural numbers reduced modulo `2 ^ w` where the code
  truncates; a signed reading of a word is an `Int`.
* Memory is a map from byte addresses to bytes; a cell of `n` bytes is read and
  written in little-endian order.
* A builtin is a function from the state before the call to an outcome (a
  returned tagged value or an error) paired with the state after the call.
  The state carries the memory and the trace of the collaborator calls and
  atomic primitives the builtin has executed.
* Code the builtins call that is declared elsewhere in the repository
  (the numbering of `ElementsKind`, the coercions, the `CodeAssembler` atomic
  primitives, the runtime functions) is either a parameter or a definition
  whose doc comment says it is modelled from the specification.
-/

namespace V8

/-! ## Data model -/

/-- The element kinds a typed-array map can carry. -/
inductive ElementsKind
  | UINT8_ELEMENTS
  | INT8_ELEMENTS
  | UINT16_ELEMENTS
  | INT16_ELEMENTS
  | UINT32_ELEMENTS
  | INT32_ELEMENTS
  | FLOAT32_ELEMENTS
  | FLOAT64_ELEMENTS
  | UINT8_CLAMPED_ELEMENTS
  | BIGUINT64_ELEMENTS
  | BIGINT64_ELEMENTS
  deriving DecidableEq, Repr

/-- The numeric values of the `ElementsKind` enumerators.  The enum is declared
outside the translated sources, so its numbering is a parameter. -/
structure ElementsKindEnum where
  UINT8_ELEMENTS : Int
  INT8_ELEMENTS : Int
  UINT16_ELEMENTS : Int
  INT16_ELEMENTS : Int
  UINT32_ELEMENTS : Int
  INT32_ELEMENTS : Int
  FLOAT32_ELEMENTS : Int
  FLOAT64_ELEMENTS : Int
  UINT8_CLAMPED_ELEMENTS : Int
  BIGUINT64_ELEMENTS : Int
  BIGINT64_ELEMENTS : Int
  deriving DecidableEq, Repr

/-- The enumerator value of a kind under a numbering. -/
def ElementsKindEnum.value (c : ElementsKindEnum) : ElementsKind → Int
  | .UINT8_ELEMENTS => c.UINT8_ELEMENTS
  | .INT8_ELEMENTS => c.INT8_ELEMENTS
  | .UINT16_ELEMENTS => c.UINT16_ELEMENTS
  | .INT16_ELEMENTS => c.INT16_ELEMENTS
  | .UINT32_ELEMENTS => c.UINT32_ELEMENTS
  | .INT32_ELEMENTS => c.INT32_ELEMENTS
  | .FLOAT32_ELEMENTS => c.FLOAT32_ELEMENTS
  | .FLOAT64_ELEMENTS => c.FLOAT64_ELEMENTS
  | .UINT8_CLAMPED_ELEMENTS => c.UINT8_CLAMPED_ELEMENTS
  | .BIGUINT64_ELEMENTS => c.BIGUINT64_ELEMENTS
  | .BIGINT64_ELEMENTS => c.BIGINT64_ELEMENTS

/-- The `STATIC_ASSERT`s the builtins place on the numbering. -/
def ElementsKindEnum.StaticAsserts (c : ElementsKindEnum) : Prop :=
  c.INT8_ELEMENTS < c.FLOAT32_ELEMENTS ∧
  c.INT16_ELEMENTS < c.FLOAT32_ELEMENTS ∧
  c.INT32_ELEMENTS < c.FLOAT32_ELEMENTS ∧
  c.UINT8_ELEMENTS < c.FLOAT32_ELEMENTS ∧
  c.UINT16_ELEMENTS < c.FLOAT32_ELEMENTS ∧
  c.UINT32_ELEMENTS < c.FLOAT32_ELEMENTS ∧
  c.BIGINT64_ELEMENTS > c.UINT8_CLAMPED_ELEMENTS ∧
  c.BIGUINT64_ELEMENTS > c.UINT8_CLAMPED_ELEMENTS ∧
  c.BIGINT64_ELEMENTS > c.INT32_ELEMENTS ∧
  c.BIGUINT64_ELEMENTS > c.INT32_ELEMENTS

instance (c : ElementsKindEnum) : Decidable c.StaticAsserts := by
  unfold ElementsKindEnum.StaticAsserts; infer_instance

/-- The declaration order of the enum that the range tests of the builtins
rely on beyond their static assertions: the enumerators are pairwise distinct,
`FLOAT32_ELEMENTS`, `FLOAT64_ELEMENTS`, `UINT8_CLAMPED_ELEMENTS` are declared
in this order, and `INT32_ELEMENTS` is the last of the six narrow kinds. -/
def ElementsKindEnum.DeclarationOrder (c : ElementsKindEnum) : Prop :=
  Function.Injective c.value ∧
  c.FLOAT32_ELEMENTS ≤ c.FLOAT64_ELEMENTS ∧
  c.FLOAT64_ELEMENTS ≤ c.UINT8_CLAMPED_ELEMENTS ∧
  c.UINT8_ELEMENTS ≤ c.INT32_ELEMENTS ∧
  c.INT8_ELEMENTS ≤ c.INT32_ELEMENTS ∧
  c.UINT16_ELEMENTS ≤ c.INT32_ELEMENTS ∧
  c.INT16_ELEMENTS ≤ c.INT32_ELEMENTS ∧
  c.UINT32_ELEMENTS ≤ c.INT32_ELEMENTS

/-- A numbering the builtins are compiled against: the static assertions hold
and the enumerators are declared in the expected order. -/
def ElementsKindEnum.WellFormed (c : ElementsKindEnum) : Prop :=
  c.StaticAsserts ∧ c.DeclarationOrder

/-- The numbering of V8: the typed-array kinds follow the seventeen kinds of
ordinary objects. -/
def v8ElementsKinds : ElementsKindEnum where
  UINT8_ELEMENTS := 17
  INT8_ELEMENTS := 18
  UINT16_ELEMENTS := 19
  INT16_ELEMENTS := 20
  UINT32_ELEMENTS := 21
  INT32_ELEMENTS := 22
  FLOAT32_ELEMENTS := 23
  FLOAT64_ELEMENTS := 24
  UINT8_CLAMPED_ELEMENTS := 25
  BIGUINT64_ELEMENTS := 26
  BIGINT64_ELEMENTS := 27

/-- The array buffer behind a view: the `IsSharedBit` and `WasDetachedBit` of
its bit field and the raw pointer to its backing store. -/
structure JSArrayBuffer where
  is_shared : Bool
  was_detached : Bool
  backing_store : Nat
  deriving DecidableEq, Repr

/-- A typed-array object: the elements kind of its map, its buffer, its byte
offset into the buffer and its length in elements. -/
structure JSTypedArray where
  elements_kind : ElementsKind
  buffer : JSArrayBuffer
  byte_offset : Nat
  length : Nat
  deriving DecidableEq, Repr

/-- Tagged values the builtins receive and return: a small integer (the bound
on its magnitude, which depends on the target, is not modelled), a heap number
with its numeric value, a wide integer, a typed array, or any other object,
whose conversions to a number run external logic. -/
inductive Object
  | Smi (value : Int)
  | HeapNumber (value : ℚ)
  | BigInt (value : Int)
  | TypedArray (array : JSTypedArray)
  | JSReceiver (id : Nat)
  deriving DecidableEq, Repr

/-- Instance types the validation distinguishes. -/
inductive InstanceType
  | JS_TYPED_ARRAY_TYPE
  | HEAP_NUMBER_TYPE
  | BIGINT_TYPE
  | JS_OBJECT_TYPE
  deriving DecidableEq, Repr

/-- `TaggedIsSmi`. -/
def TaggedIsSmi : Object → Bool
  | .Smi _ => true
  | _ => false

/-- The instance type of the map of a heap object (`LoadMap`); a Smi has no
map. -/
def LoadMapInstanceType : Object → Option InstanceType
  | .Smi _ => none
  | .HeapNumber _ => some .HEAP_NUMBER_TYPE
  | .BigInt _ => some .BIGINT_TYPE
  | .TypedArray _ => some .JS_TYPED_ARRAY_TYPE
  | .JSReceiver _ => some .JS_OBJECT_TYPE

/-- `IsJSTypedArrayMap` applied to the map of an object. -/
def IsJSTypedArrayMap (o : Object) : Bool :=
  LoadMapInstanceType o == some .JS_TYPED_ARRAY_TYPE

/-- Errors a builtin can end in: the two validation errors, an exception
propagated from an operand coercion, and the two fatal conditions
(`Unreachable()` and a failed `CSA_ASSERT` of a debug build). -/
inductive Error
  | TypeError
  | RangeError
  | Thrown (exception : Nat)
  | Unreachable
  | AssertionFailed
  deriving DecidableEq, Repr

/-- Pointer width of the target and the conditional-compilation switches of
the builtins. -/
structure Target where
  Is64 : Bool
  debug : Bool
  mips_without_r6 : Bool
  exchange_calls_runtime : Bool
  binop_calls_runtime : Bool
  deriving DecidableEq, Repr

/-- Number of bits of a machine word. -/
def Target.wordBits (t : Target) : Nat := if t.Is64 then 64 else 32

/-! ## Validation -/

/-- `RawPtrAdd`: pointer addition on machine words. -/
def RawPtrAdd (t : Target) (p off : Nat) : Nat := (p + off) % 2 ^ t.wordBits

/-- `SharedArrayBufferBuiltinsAssembler::ValidateSharedTypedArray`: the
elements kind and the backing-store address (`*out_elements_kind`,
`*out_backing_store`) of a shared integer typed array, or a `TypeError`. -/
def ValidateSharedTypedArray (c : ElementsKindEnum) (t : Target)
    (maybe_array : Object) : Except Error (Int × Nat) :=
  -- Fail if it is not a heap object.
  if TaggedIsSmi maybe_array then .error .TypeError
  -- Fail if the array's instance type is not JSTypedArray.
  else if !IsJSTypedArrayMap maybe_array then .error .TypeError
  else
    match maybe_array with
    | .TypedArray array =>
      -- Fail if the array's JSArrayBuffer is not shared.
      if !array.buffer.is_shared then .error .TypeError
      else
        -- Fail if the array's element type is float32, float64 or clamped.
        let elements_kind := c.value array.elements_kind
        if elements_kind < c.FLOAT32_ELEMENTS then
          .ok (elements_kind,
            RawPtrAdd t array.buffer.backing_store array.byte_offset)
        else if elements_kind > c.UINT8_CLAMPED_ELEMENTS then
          .ok (elements_kind,
            RawPtrAdd t array.buffer.backing_store array.byte_offset)
        else .error .TypeError
    | _ => .error .TypeError

/-! ## Memory and state -/

/-- Byte-addressed memory. -/
abbrev Memory := Nat → Nat

/-- The cell of `n` bytes at address `a`, read in little-endian order. -/
def readBytes (m : Memory) (a : Nat) : Nat → Nat
  | 0 => 0
  | n + 1 => m a % 256 + 256 * readBytes m (a + 1) n

/-- Memory after the low `n` bytes of `v` are written at address `a` in
little-endian order. -/
def writeBytes (m : Memory) (a n v : Nat) : Memory :=
  fun b => if a ≤ b ∧ b < a + n then v / 256 ^ (b - a) % 256 else m b

/-- Identifiers of the runtime functions the builtins call out to. -/
inductive RuntimeFunctionId
  | kAtomicsLoad64
  | kAtomicsStore64
  | kAtomicsExchange
  | kAtomicsCompareExchange
  | kAtomicsAdd
  | kAtomicsSub
  | kAtomicsAnd
  | kAtomicsOr
  | kAtomicsXor
  deriving DecidableEq, Repr

/-- What a builtin has executed: the coercions it invoked, the runtime
functions it called with their arguments, and the atomic primitives it
performed with the address and byte size of the cell. -/
inductive Event
  | ToIndex (index : Object)
  | ToInteger (value : Object)
  | ToBigInt (value : Object)
  | CallRuntime (f : RuntimeFunctionId) (array : JSTypedArray)
      (index_number : Nat) (operands : List Object)
  | Atomic (address size : Nat)
  deriving DecidableEq, Repr

/-- The state a builtin runs in. -/
structure State where
  mem : Memory
  trace : List Event

/-- Record an event. -/
def State.log (s : State) (e : Event) : State :=
  { s with trace := s.trace ++ [e] }

/-- The logic outside the builtins that a coercion of a value other than a
primitive number or wide integer runs (user-defined conversions).  It sees and
may change the shared memory; it yields a result or fails. -/
structure External where
  toIndex : Object → Memory → Option Nat × Memory
  toInteger : Object → Memory → Except Nat Int × Memory
  toBigInt : Object → Memory → Except Nat Int × Memory

/-- The outcome of a builtin: what it returns or throws, and the state it
leaves. -/
abbrev Outcome := Except Error Object × State

/-! ## Coercions -/

/-- The largest index `ToIndex` accepts, `2^53 - 1`. -/
def kMaxSafeInteger : Int := 2 ^ 53 - 1

/-- Rounding of a number to an integer, towards zero. -/
def truncate (q : ℚ) : Int := Int.tdiv q.num q.den

/-- The index an integer denotes, when it is one. -/
def indexOfInteger (n : Int) : Option Nat :=
  if 0 ≤ n ∧ n ≤ kMaxSafeInteger then some n.toNat else none

/-- Modelled from the spec: `CodeStubAssembler::ToIndex(context, index,
&range_error)` is not in the translated sources.  The specification (§4.1)
has it convert the raw index following standard array-index coercion: the
value must round to a non-negative integer no larger than `2^53 - 1`; a
primitive number is rounded here, any other value runs external logic.  The
result `none` is the exit through the `range_error` label. -/
def ToIndex (E : External) (index : Object) (s : State) : Option Nat × State :=
  match index with
  | .Smi n => (indexOfInteger n, s.log (.ToIndex index))
  | .HeapNumber q => (indexOfInteger (truncate q), s.log (.ToIndex index))
  | _ =>
    let r := E.toIndex index s.mem
    (r.1, { mem := r.2, trace := s.trace ++ [.ToIndex index] })

/-- Modelled from the spec: `ToInteger_Inline(context, value)` is not in the
translated sources.  The specification (§4.2 step 3, §6 `toIntegerValue`) has
it coerce the operand to an integer value or fail; a Smi is its own integer
value, a heap number is rounded, any other value runs external logic. -/
def ToInteger_Inline (E : External) (value : Object) (s : State) :
    Except Error Int × State :=
  match value with
  | .Smi n => (.ok n, s.log (.ToInteger value))
  | .HeapNumber q => (.ok (truncate q), s.log (.ToInteger value))
  | _ =>
    let r := E.toInteger value s.mem
    (r.1.mapError Error.Thrown, { mem := r.2, trace := s.trace ++ [.ToInteger value] })

/-- Modelled from the spec: `ToBigInt(context, value)` is not in the translated
sources.  The specification (§4.2 step 4, §6 `toWideInteger`) has it coerce
the operand to a wide integer or fail; a wide integer is its own value, any
other value runs external logic. -/
def ToBigInt (E : External) (value : Object) (s : State) :
    Except Error Int × State :=
  match value with
  | .BigInt n => (.ok n, s.log (.ToBigInt value))
  | _ =>
    let r := E.toBigInt value s.mem
    (r.1.mapError Error.Thrown, { mem := r.2, trace := s.trace ++ [.ToBigInt value] })

/-- Modelled from the spec: `TruncateTaggedToWord32` is not in the translated
sources; the integer is truncated to the 32-bit machine word. -/
def TruncateTaggedToWord32 (n : Int) : Nat := (n % 2 ^ 32).toNat

/-- Modelled from the spec: `BigIntToRawBytes` is not in the translated
sources.  The wide integer is decomposed into its low and high 32-bit halves;
on a target with 64-bit words the low word is the whole 64-bit pattern
(§4.2 step 4). -/
def BigIntToRawBytes (t : Target) (n : Int) : Nat × Nat :=
  if t.Is64 then ((n % 2 ^ 64).toNat, 0)
  else ((n % 2 ^ 32).toNat, (n / 2 ^ 32 % 2 ^ 32).toNat)

/-! ## Index validation -/

/-- `SharedArrayBufferBuiltinsAssembler::ValidateAtomicAccess`. -/
def ValidateAtomicAccess (E : External) (array : JSTypedArray) (index : Object)
    (s : State) : Except Error Nat × State :=
  match ToIndex E index s with
  | (none, s1) => (.error .RangeError, s1)
  | (some index_uintptr, s1) =>
    let array_length := array.length
    if index_uintptr < array_length then (.ok index_uintptr, s1)
    else (.error .RangeError, s1)

/-- `SharedArrayBufferBuiltinsAssembler::DebugSanityCheckAtomicIndex`: the two
`CSA_ASSERT`s, checked in debug builds only. -/
def DebugSanityCheckAtomicIndex (t : Target) (array : JSTypedArray)
    (index : Nat) : Except Error Unit :=
  if t.debug then
    if array.buffer.was_detached then .error .AssertionFailed
    else if index < array.length then .ok ()
    else .error .AssertionFailed
  else .ok ()

/-! ## Machine level -/

/-- Width of a memory access. -/
inductive MachineRepresentation
  | kWord8
  | kWord16
  | kWord32
  | kWord64
  deriving DecidableEq, Repr

/-- Number of bytes of a representation. -/
def MachineRepresentation.size : MachineRepresentation → Nat
  | .kWord8 => 1
  | .kWord16 => 2
  | .kWord32 => 4
  | .kWord64 => 8

/-- A representation together with the signedness of its reading. -/
structure MachineType where
  representation : MachineRepresentation
  isSigned : Bool
  deriving DecidableEq, Repr

namespace MachineType

def Int8 : MachineType := ⟨.kWord8, true⟩
def Uint8 : MachineType := ⟨.kWord8, false⟩
def Int16 : MachineType := ⟨.kWord16, true⟩
def Uint16 : MachineType := ⟨.kWord16, false⟩
def Int32 : MachineType := ⟨.kWord32, true⟩
def Uint32 : MachineType := ⟨.kWord32, false⟩
def Uint64 : MachineType := ⟨.kWord64, false⟩

end MachineType

/-- The value of a graph node produced by an atomic primitive: one machine
word, or the low/high pair of 32-bit words of a 64-bit result on a target with
32-bit words. -/
inductive Node
  | Word (w : Nat)
  | Pair (low high : Nat)
  deriving DecidableEq, Repr

/-- The word of a node (the low word of a pair). -/
def Node.word : Node → Nat
  | .Word w => w
  | .Pair low _ => low

/-- `Projection(i, node)`. -/
def Projection (i : Nat) : Node → Nat
  | .Word w => w
  | .Pair low high => if i = 0 then low else high

/-- `WordShl`: left shift of a machine word. -/
def WordShl (t : Target) (x k : Nat) : Nat := x * 2 ^ k % 2 ^ t.wordBits

/-- Extension of the `bits`-wide pattern `cell` to a 32-bit word, by its sign
bit. -/
def signExtend32 (bits cell : Nat) : Nat :=
  if cell < 2 ^ (bits - 1) then cell else cell + 2 ^ 32 - 2 ^ bits

/-- The node an atomic primitive of type `type` yields for the cell content
`cell`: a narrow cell is sign- or zero-extended to a 32-bit word, a 64-bit cell
is one word or a pair of halves. -/
def resultNode (t : Target) (type : MachineType) (cell : Nat) : Node :=
  match type.representation with
  | .kWord64 => if t.Is64 then .Word cell else .Pair (cell % 2 ^ 32) (cell / 2 ^ 32)
  | rep => .Word (if type.isSigned then signExtend32 (8 * rep.size) cell else cell)

/-- The bit pattern an atomic primitive takes from its value operand: the low
bits of the word for a narrow access, the word or the recombined pair for a
64-bit access. -/
def operandBits (t : Target) (rep : MachineRepresentation) (value : Nat)
    (value_high : Option Nat) : Nat :=
  match rep with
  | .kWord64 =>
    if t.Is64 then value % 2 ^ 64
    else value % 2 ^ 32 + 2 ^ 32 * (value_high.getD 0 % 2 ^ 32)
  | rep => value % 2 ^ (8 * rep.size)

/-- Modelled from the spec: `CodeAssembler::AtomicLoad` is not in the
translated sources.  The atomic primitive reads the cell at `base + offset`
indivisibly (§4.2 step 3, glossary). -/
def AtomicLoad (t : Target) (type : MachineType) (base offset : Nat)
    (s : State) : Node × State :=
  let address := RawPtrAdd t base offset
  let size := type.representation.size
  (resultNode t type (readBytes s.mem address size), s.log (.Atomic address size))

/-- Modelled from the spec: `CodeAssembler::AtomicStore` is not in the
translated sources.  The atomic primitive writes the operand, truncated to the
width of the access, to the cell at `base + offset`. -/
def AtomicStore (t : Target) (rep : MachineRepresentation) (base offset : Nat)
    (value : Nat) (value_high : Option Nat) (s : State) : State :=
  let address := RawPtrAdd t base offset
  { mem := writeBytes s.mem address rep.size (operandBits t rep value value_high)
    trace := s.trace ++ [.Atomic address rep.size] }

/-- Modelled from the spec: `CodeAssembler::AtomicExchange` is not in the
translated sources.  The atomic primitive writes the truncated operand to the
cell and yields the content the cell had. -/
def AtomicExchange (t : Target) (type : MachineType) (base offset : Nat)
    (value : Nat) (value_high : Option Nat) (s : State) : Node × State :=
  let address := RawPtrAdd t base offset
  let size := type.representation.size
  let old := readBytes s.mem address size
  (resultNode t type old,
    { mem := writeBytes s.mem address size
        (operandBits t type.representation value value_high)
      trace := s.trace ++ [.Atomic address size] })

/-- Modelled from the spec: `CodeAssembler::AtomicCompareExchange` is not in
the translated sources.  The atomic primitive writes the truncated new value
only if the content of the cell equals the truncated old value, and always
yields the content observed (§4.2 step 7). -/
def AtomicCompareExchange (t : Target) (type : MachineType) (base offset : Nat)
    (old_value new_value : Nat) (old_high new_high : Option Nat) (s : State) :
    Node × State :=
  let address := RawPtrAdd t base offset
  let size := type.representation.size
  let current := readBytes s.mem address size
  (resultNode t type current,
    { mem :=
        if current = operandBits t type.representation old_value old_high then
          writeBytes s.mem address size
            (operandBits t type.representation new_value new_high)
        else s.mem
      trace := s.trace ++ [.Atomic address size] })

/-- The fetch-and-combine operators. -/
inductive BinaryOperation
  | Add
  | Sub
  | And
  | Or
  | Xor
  deriving DecidableEq, Repr

/-- The `bits`-wide result of combining the cell content `x` with the operand
pattern `v`. -/
def BinaryOperation.apply (op : BinaryOperation) (bits x v : Nat) : Nat :=
  match op with
  | .Add => (x + v) % 2 ^ bits
  | .Sub => (x + (2 ^ bits - v % 2 ^ bits)) % 2 ^ bits
  | .And => (x &&& v) % 2 ^ bits
  | .Or => (x ||| v) % 2 ^ bits
  | .Xor => (x ^^^ v) % 2 ^ bits

/-- The type of the member functions `CodeAssembler::AtomicAdd`, ...,
`CodeAssembler::AtomicXor` (`AssemblerFunction`). -/
abbrev AssemblerFunction :=
  MachineType → Nat → Nat → Nat → Option Nat → State → Node × State

/-- Modelled from the spec: `CodeAssembler::AtomicAdd`, `AtomicSub`,
`AtomicAnd`, `AtomicOr` and `AtomicXor` are not in the translated sources.
The atomic primitive replaces the content of the cell by its combination with
the truncated operand and yields the content the cell had (§4.2 step 3). -/
def AtomicBinaryOperation (t : Target) (op : BinaryOperation) : AssemblerFunction :=
  fun type base offset value value_high s =>
    let address := RawPtrAdd t base offset
    let size := type.representation.size
    let old := readBytes s.mem address size
    (resultNode t type old,
      { mem := writeBytes s.mem address size
          (op.apply (8 * size) old (operandBits t type.representation value value_high))
        trace := s.trace ++ [.Atomic address size] })

/-! ## Result materialization -/

/-- The signed reading of a 32-bit word. -/
def toInt32 (w : Nat) : Int :=
  if w % 2 ^ 32 < 2 ^ 31 then (w % 2 ^ 32 : Nat) else (w % 2 ^ 32 : Nat) - 2 ^ 32

/-- The signed reading of a 64-bit word. -/
def toInt64 (w : Nat) : Int :=
  if w % 2 ^ 64 < 2 ^ 63 then (w % 2 ^ 64 : Nat) else (w % 2 ^ 64 : Nat) - 2 ^ 64

/-- Modelled from the spec: `SmiFromInt32` is not in the translated sources;
the compact integer with the signed value of the word (§6, result
materialization). -/
def SmiFromInt32 (n : Node) : Object := .Smi (toInt32 n.word)

/-- Modelled from the spec: `ChangeInt32ToTagged` is not in the translated
sources; the number with the signed value of the word. -/
def ChangeInt32ToTagged (n : Node) : Object := .Smi (toInt32 n.word)

/-- Modelled from the spec: `ChangeUint32ToTagged` is not in the translated
sources; the number with the unsigned value of the word. -/
def ChangeUint32ToTagged (n : Node) : Object := .Smi (n.word % 2 ^ 32 : Nat)

/-- Modelled from the spec: `BigIntFromInt64` is not in the translated sources;
the wide integer with the signed value of the 64-bit word. -/
def BigIntFromInt64 (w : Nat) : Object := .BigInt (toInt64 w)

/-- Modelled from the spec: `BigIntFromUint64` is not in the translated
sources; the wide integer with the unsigned value of the 64-bit word. -/
def BigIntFromUint64 (w : Nat) : Object := .BigInt (w % 2 ^ 64 : Nat)

/-- Modelled from the spec: `BigIntFromInt32Pair` is not in the translated
sources; the wide integer with the signed value of the recombined halves. -/
def BigIntFromInt32Pair (low high : Nat) : Object :=
  .BigInt (toInt64 (low % 2 ^ 32 + 2 ^ 32 * (high % 2 ^ 32)))

/-- Modelled from the spec: `BigIntFromUint32Pair` is not in the translated
sources; the wide integer with the unsigned value of the recombined halves. -/
def BigIntFromUint32Pair (low high : Nat) : Object :=
  .BigInt (low % 2 ^ 32 + 2 ^ 32 * (high % 2 ^ 32) : Nat)

/-- `SharedArrayBufferBuiltinsAssembler::BigIntFromSigned64`. -/
def BigIntFromSigned64 (t : Target) (signed64 : Node) : Object :=
  if t.Is64 then BigIntFromInt64 signed64.word
  else
    let low := Projection 0 signed64
    let high := Projection 1 signed64
    BigIntFromInt32Pair low high

/-- `SharedArrayBufferBuiltinsAssembler::BigIntFromUnsigned64`. -/
def BigIntFromUnsigned64 (t : Target) (unsigned64 : Node) : Object :=
  if t.Is64 then BigIntFromUint64 unsigned64.word
  else
    let low := Projection 0 unsigned64
    let high := Projection 1 unsigned64
    BigIntFromUint32Pair low high

/-! ## Runtime call-outs -/

/-- Shift amount of the size of a representation. -/
def MachineRepresentation.sizeLog2 : MachineRepresentation → Nat
  | .kWord8 => 0
  | .kWord16 => 1
  | .kWord32 => 2
  | .kWord64 => 3

/-- The width and signedness of the elements of an integer kind; the float and
clamped kinds have none. -/
def ElementsKind.machineType : ElementsKind → Option MachineType
  | .INT8_ELEMENTS => some ⟨.kWord8, true⟩
  | .UINT8_ELEMENTS => some ⟨.kWord8, false⟩
  | .INT16_ELEMENTS => some ⟨.kWord16, true⟩
  | .UINT16_ELEMENTS => some ⟨.kWord16, false⟩
  | .INT32_ELEMENTS => some ⟨.kWord32, true⟩
  | .UINT32_ELEMENTS => some ⟨.kWord32, false⟩
  | .BIGINT64_ELEMENTS => some ⟨.kWord64, true⟩
  | .BIGUINT64_ELEMENTS => some ⟨.kWord64, false⟩
  | _ => none

/-- The caller-visible value of the node an atomic primitive yielded, by width
and signedness (§4.2 steps 4 and 5). -/
def materialize (t : Target) (type : MachineType) (n : Node) : Object :=
  match type.representation, type.isSigned with
  | .kWord64, true => BigIntFromSigned64 t n
  | .kWord64, false => BigIntFromUnsigned64 t n
  | .kWord32, true => ChangeInt32ToTagged n
  | .kWord32, false => ChangeUint32ToTagged n
  | _, _ => SmiFromInt32 n

/-- Coercion of a value operand for an access of representation `rep`
(§4.2 steps 3 and 4): the coerced value as a tagged value, the word handed to
the primitive and, for a 64-bit access on a target with 32-bit words, the high
word. -/
def coerceOperand (t : Target) (E : External) (rep : MachineRepresentation)
    (value : Object) (s : State) : Except Error (Object × Nat × Option Nat) × State :=
  match rep with
  | .kWord64 =>
    match ToBigInt E value s with
    | (.error e, s1) => (.error e, s1)
    | (.ok value_bigint, s1) =>
      let raw := BigIntToRawBytes t value_bigint
      (.ok (.BigInt value_bigint, raw.1, if t.Is64 then none else some raw.2), s1)
  | _ =>
    match ToInteger_Inline E value s with
    | (.error e, s1) => (.error e, s1)
    | (.ok value_integer, s1) =>
      (.ok (.Smi value_integer, TruncateTaggedToWord32 value_integer, none), s1)

/-- The fetch-and-combine operator a runtime function implements. -/
def RuntimeFunctionId.binaryOperation : RuntimeFunctionId → Option BinaryOperation
  | .kAtomicsAdd => some .Add
  | .kAtomicsSub => some .Sub
  | .kAtomicsAnd => some .And
  | .kAtomicsOr => some .Or
  | .kAtomicsXor => some .Xor
  | _ => none

/-- Modelled from the spec: the runtime functions `Runtime::kAtomicsLoad64`,
`kAtomicsStore64`, `kAtomicsExchange`, `kAtomicsCompareExchange` and
`kAtomicsAdd`, ..., `kAtomicsXor` are not in the translated sources.  The
specification (§4.2 step 6) has the call-out be an equivalent general-purpose
implementation of the dispatch algorithm of §4.2, given the view, the
normalized index and the uncoerced operands: compute the address of the
element, coerce the operands, perform the primitive of the width of the kind,
materialize the result by width and signedness. -/
def CallRuntime (t : Target) (E : External) (f : RuntimeFunctionId)
    (array : JSTypedArray) (index_number : Nat) (operands : List Object)
    (s : State) : Outcome :=
  let s0 := s.log (.CallRuntime f array index_number operands)
  match array.elements_kind.machineType with
  | none => (.error .Unreachable, s0)
  | some type =>
    let backing_store := RawPtrAdd t array.buffer.backing_store array.byte_offset
    let offset := WordShl t index_number type.representation.sizeLog2
    match f, operands with
    | .kAtomicsLoad64, [] =>
      let r := AtomicLoad t type backing_store offset s0
      (.ok (materialize t type r.1), r.2)
    | .kAtomicsStore64, [value] =>
      match coerceOperand t E type.representation value s0 with
      | (.error e, s1) => (.error e, s1)
      | (.ok (tagged, low, high), s1) =>
        (.ok tagged, AtomicStore t type.representation backing_store offset low high s1)
    | .kAtomicsExchange, [value] =>
      match coerceOperand t E type.representation value s0 with
      | (.error e, s1) => (.error e, s1)
      | (.ok (_, low, high), s1) =>
        let r := AtomicExchange t type backing_store offset low high s1
        (.ok (materialize t type r.1), r.2)
    | .kAtomicsCompareExchange, [old_value, new_value] =>
      match coerceOperand t E type.representation old_value s0 with
      | (.error e, s1) => (.error e, s1)
      | (.ok (_, old_low, old_high), s1) =>
        match coerceOperand t E type.representation new_value s1 with
        | (.error e, s2) => (.error e, s2)
        | (.ok (_, new_low, new_high), s2) =>
          let r := AtomicCompareExchange t type backing_store offset
            old_low new_low old_high new_high s2
          (.ok (materialize t type r.1), r.2)
    | f, [value] =>
      match f.binaryOperation with
      | none => (.error .Unreachable, s0)
      | some op =>
        match coerceOperand t E type.representation value s0 with
        | (.error e, s1) => (.error e, s1)
        | (.ok (_, low, high), s1) =>
          let r := AtomicBinaryOperation t op type backing_store offset low high s1
          (.ok (materialize t type r.1), r.2)
    | _, _ => (.error .Unreachable, s0)

/-! ## The builtins -/

/-- Branch targets of the dispatch on the elements kind. -/
inductive Label
  | i8
  | u8
  | i16
  | u16
  | i32
  | u32
  | i64
  | u64
  | other
  deriving DecidableEq, Repr

/-- `Switch(elements_kind, &other, case_values, case_labels, n)`: the label of
the first case value equal to the kind, else the default label. -/
def Switch (elements_kind : Int) (default : Label) :
    List Int → List Label → Label
  | v :: case_values, l :: case_labels =>
    if elements_kind = v then l else Switch elements_kind default case_values case_labels
  | _, _ => default

/-- The prologue every builtin starts with: `ValidateSharedTypedArray`, the
cast of the validated value to a typed array, `ValidateAtomicAccess`.  It yields
the array, `elements_kind`, `backing_store` and `index_word`. -/
def ValidateArguments (c : ElementsKindEnum) (t : Target) (E : External)
    (maybe_array index : Object) (s : State) :
    Except Error (JSTypedArray × Int × Nat × Nat) × State :=
  match ValidateSharedTypedArray c t maybe_array with
  | .error e => (.error e, s)
  | .ok (elements_kind, backing_store) =>
    match maybe_array with
    | .TypedArray array =>
      match ValidateAtomicAccess E array index s with
      | (.error e, s1) => (.error e, s1)
      | (.ok index_word, s1) => (.ok (array, elements_kind, backing_store, index_word), s1)
    | _ => (.error .Unreachable, s)

/-- `TF_BUILTIN(AtomicsLoad, SharedArrayBufferBuiltinsAssembler)`. -/
def AtomicsLoad (c : ElementsKindEnum) (t : Target) (E : External)
    (maybe_array index : Object) (s : State) : Outcome :=
  match ValidateArguments c t E maybe_array index s with
  | (.error e, s1) => (.error e, s1)
  | (.ok (array, elements_kind, backing_store, index_word), s1) =>
    match Switch elements_kind .other
      [c.INT8_ELEMENTS, c.UINT8_ELEMENTS, c.INT16_ELEMENTS, c.UINT16_ELEMENTS,
        c.INT32_ELEMENTS, c.UINT32_ELEMENTS, c.BIGINT64_ELEMENTS, c.BIGUINT64_ELEMENTS]
      [.i8, .u8, .i16, .u16, .i32, .u32, .i64, .u64] with
    | .i8 =>
      let r := AtomicLoad t MachineType.Int8 backing_store index_word s1
      (.ok (SmiFromInt32 r.1), r.2)
    | .u8 =>
      let r := AtomicLoad t MachineType.Uint8 backing_store index_word s1
      (.ok (SmiFromInt32 r.1), r.2)
    | .i16 =>
      let r := AtomicLoad t MachineType.Int16 backing_store (WordShl t index_word 1) s1
      (.ok (SmiFromInt32 r.1), r.2)
    | .u16 =>
      let r := AtomicLoad t MachineType.Uint16 backing_store (WordShl t index_word 1) s1
      (.ok (SmiFromInt32 r.1), r.2)
    | .i32 =>
      let r := AtomicLoad t MachineType.Int32 backing_store (WordShl t index_word 2) s1
      (.ok (ChangeInt32ToTagged r.1), r.2)
    | .u32 =>
      let r := AtomicLoad t MachineType.Uint32 backing_store (WordShl t index_word 2) s1
      (.ok (ChangeUint32ToTagged r.1), r.2)
    | .i64 =>
      if t.mips_without_r6 then
        CallRuntime t E .kAtomicsLoad64 array index_word [] s1
      else
        let r := AtomicLoad t MachineType.Uint64 backing_store (WordShl t index_word 3) s1
        (.ok (BigIntFromSigned64 t r.1), r.2)
    | .u64 =>
      if t.mips_without_r6 then
        CallRuntime t E .kAtomicsLoad64 array index_word [] s1
      else
        let r := AtomicLoad t MachineType.Uint64 backing_store (WordShl t index_word 3) s1
        (.ok (BigIntFromUnsigned64 t r.1), r.2)
    | .other => (.error .Unreachable, s1)

/-- `TF_BUILTIN(AtomicsStore, SharedArrayBufferBuiltinsAssembler)`. -/
def AtomicsStore (c : ElementsKindEnum) (t : Target) (E : External)
    (maybe_array index value : Object) (s : State) : Outcome :=
  match ValidateArguments c t E maybe_array index s with
  | (.error e, s1) => (.error e, s1)
  | (.ok (array, elements_kind, backing_store, index_word), s1) =>
    if elements_kind > c.INT32_ELEMENTS then
      -- u64
      if t.mips_without_r6 then
        CallRuntime t E .kAtomicsStore64 array index_word [value] s1
      else
        match ToBigInt E value s1 with
        | (.error e, s2) => (.error e, s2)
        | (.ok value_bigint, s2) =>
          match DebugSanityCheckAtomicIndex t array index_word with
          | .error e => (.error e, s2)
          | .ok _ =>
            let raw := BigIntToRawBytes t value_bigint
            let high := if t.Is64 then none else some raw.2
            (.ok (.BigInt value_bigint),
              AtomicStore t .kWord64 backing_store (WordShl t index_word 3) raw.1 high s2)
    else
      match ToInteger_Inline E value s1 with
      | (.error e, s2) => (.error e, s2)
      | (.ok value_integer, s2) =>
        let value_word32 := TruncateTaggedToWord32 value_integer
        match DebugSanityCheckAtomicIndex t array index_word with
        | .error e => (.error e, s2)
        | .ok _ =>
          match Switch elements_kind .other
            [c.INT8_ELEMENTS, c.UINT8_ELEMENTS, c.INT16_ELEMENTS, c.UINT16_ELEMENTS,
              c.INT32_ELEMENTS, c.UINT32_ELEMENTS]
            [.u8, .u8, .u16, .u16, .u32, .u32] with
          | .u8 =>
            (.ok (.Smi value_integer),
              AtomicStore t .kWord8 backing_store index_word value_word32 none s2)
          | .u16 =>
            (.ok (.Smi value_integer),
              AtomicStore t .kWord16 backing_store (WordShl t index_word 1)
                value_word32 none s2)
          | .u32 =>
            (.ok (.Smi value_integer),
              AtomicStore t .kWord32 backing_store (WordShl t index_word 2)
                value_word32 none s2)
          | _ => (.error .Unreachable, s2)

/-- `TF_BUILTIN(AtomicsExchange, SharedArrayBufferBuiltinsAssembler)`. -/
def AtomicsExchange (c : ElementsKindEnum) (t : Target) (E : External)
    (maybe_array index value : Object) (s : State) : Outcome :=
  match ValidateArguments c t E maybe_array index s with
  | (.error e, s1) => (.error e, s1)
  | (.ok (array, elements_kind, backing_store, index_word), s1) =>
    if t.exchange_calls_runtime then
      CallRuntime t E .kAtomicsExchange array index_word [value] s1
    else if elements_kind > c.INT32_ELEMENTS then
      -- big
      match ToBigInt E value s1 with
      | (.error e, s2) => (.error e, s2)
      | (.ok value_bigint, s2) =>
        match DebugSanityCheckAtomicIndex t array index_word with
        | .error e => (.error e, s2)
        | .ok _ =>
          let raw := BigIntToRawBytes t value_bigint
          let high := if t.Is64 then none else some raw.2
          if elements_kind = c.BIGINT64_ELEMENTS then
            -- i64
            let r := AtomicExchange t MachineType.Uint64 backing_store (WordShl t index_word 3)
              raw.1 high s2
            (.ok (BigIntFromSigned64 t r.1), r.2)
          else if elements_kind = c.BIGUINT64_ELEMENTS then
            -- u64
            let r := AtomicExchange t MachineType.Uint64 backing_store (WordShl t index_word 3)
              raw.1 high s2
            (.ok (BigIntFromUnsigned64 t r.1), r.2)
          else (.error .Unreachable, s2)
    else
      match ToInteger_Inline E value s1 with
      | (.error e, s2) => (.error e, s2)
      | (.ok value_integer, s2) =>
        match DebugSanityCheckAtomicIndex t array index_word with
        | .error e => (.error e, s2)
        | .ok _ =>
          let value_word32 := TruncateTaggedToWord32 value_integer
          match Switch elements_kind .other
            [c.INT8_ELEMENTS, c.UINT8_ELEMENTS, c.INT16_ELEMENTS, c.UINT16_ELEMENTS,
              c.INT32_ELEMENTS, c.UINT32_ELEMENTS]
            [.i8, .u8, .i16, .u16, .i32, .u32] with
          | .i8 =>
            let r := AtomicExchange t MachineType.Int8 backing_store index_word
              value_word32 none s2
            (.ok (SmiFromInt32 r.1), r.2)
          | .u8 =>
            let r := AtomicExchange t MachineType.Uint8 backing_store index_word
              value_word32 none s2
            (.ok (SmiFromInt32 r.1), r.2)
          | .i16 =>
            let r := AtomicExchange t MachineType.Int16 backing_store (WordShl t index_word 1)
              value_word32 none s2
            (.ok (SmiFromInt32 r.1), r.2)
          | .u16 =>
            let r := AtomicExchange t MachineType.Uint16 backing_store (WordShl t index_word 1)
              value_word32 none s2
            (.ok (SmiFromInt32 r.1), r.2)
          | .i32 =>
            let r := AtomicExchange t MachineType.Int32 backing_store (WordShl t index_word 2)
              value_word32 none s2
            (.ok (ChangeInt32ToTagged r.1), r.2)
          | .u32 =>
            let r := AtomicExchange t MachineType.Uint32 backing_store (WordShl t index_word 2)
              value_word32 none s2
            (.ok (ChangeUint32ToTagged r.1), r.2)
          | _ => (.error .Unreachable, s2)

/-- `TF_BUILTIN(AtomicsCompareExchange, SharedArrayBufferBuiltinsAssembler)`. -/
def AtomicsCompareExchange (c : ElementsKindEnum) (t : Target) (E : External)
    (maybe_array index old_value new_value : Object) (s : State) : Outcome :=
  match ValidateArguments c t E maybe_array index s with
  | (.error e, s1) => (.error e, s1)
  | (.ok (array, elements_kind, backing_store, index_word), s1) =>
    if t.binop_calls_runtime then
      CallRuntime t E .kAtomicsCompareExchange array index_word [old_value, new_value] s1
    else if elements_kind > c.INT32_ELEMENTS then
      -- big
      match ToBigInt E old_value s1 with
      | (.error e, s1a) => (.error e, s1a)
      | (.ok old_value_bigint, s1a) =>
      match ToBigInt E new_value s1a with
      | (.error e, s2) => (.error e, s2)
      | (.ok new_value_bigint, s2) =>
        match DebugSanityCheckAtomicIndex t array index_word with
        | .error e => (.error e, s2)
        | .ok _ =>
          let old_raw := BigIntToRawBytes t old_value_bigint
          let new_raw := BigIntToRawBytes t new_value_bigint
          let old_high := if t.Is64 then none else some old_raw.2
          let new_high := if t.Is64 then none else some new_raw.2
          if elements_kind = c.BIGINT64_ELEMENTS then
            -- i64
            let r := AtomicCompareExchange t MachineType.Uint64 backing_store (WordShl t index_word 3)
              old_raw.1 new_raw.1 old_high new_high s2
            (.ok (BigIntFromSigned64 t r.1), r.2)
          else if elements_kind = c.BIGUINT64_ELEMENTS then
            -- u64
            let r := AtomicCompareExchange t MachineType.Uint64 backing_store (WordShl t index_word 3)
              old_raw.1 new_raw.1 old_high new_high s2
            (.ok (BigIntFromUnsigned64 t r.1), r.2)
          else (.error .Unreachable, s2)
    else
      match ToInteger_Inline E old_value s1 with
      | (.error e, s1a) => (.error e, s1a)
      | (.ok old_value_integer, s1a) =>
      match ToInteger_Inline E new_value s1a with
      | (.error e, s2) => (.error e, s2)
      | (.ok new_value_integer, s2) =>
        match DebugSanityCheckAtomicIndex t array index_word with
        | .error e => (.error e, s2)
        | .ok _ =>
          let old_value_word32 := TruncateTaggedToWord32 old_value_integer
          let new_value_word32 := TruncateTaggedToWord32 new_value_integer
          match Switch elements_kind .other
            [c.INT8_ELEMENTS, c.UINT8_ELEMENTS, c.INT16_ELEMENTS, c.UINT16_ELEMENTS,
              c.INT32_ELEMENTS, c.UINT32_ELEMENTS]
            [.i8, .u8, .i16, .u16, .i32, .u32] with
          | .i8 =>
            let r := AtomicCompareExchange t MachineType.Int8 backing_store index_word
              old_value_word32 new_value_word32 none none s2
            (.ok (SmiFromInt32 r.1), r.2)
          | .u8 =>
            let r := AtomicCompareExchange t MachineType.Uint8 backing_store index_word
              old_value_word32 new_value_word32 none none s2
            (.ok (SmiFromInt32 r.1), r.2)
          | .i16 =>
            let r := AtomicCompareExchange t MachineType.Int16 backing_store (WordShl t index_word 1)
              old_value_word32 new_value_word32 none none s2
            (.ok (SmiFromInt32 r.1), r.2)
          | .u16 =>
            let r := AtomicCompareExchange t MachineType.Uint16 backing_store (WordShl t index_word 1)
              old_value_word32 new_value_word32 none none s2
            (.ok (SmiFromInt32 r.1), r.2)
          | .i32 =>
            let r := AtomicCompareExchange t MachineType.Int32 backing_store (WordShl t index_word 2)
              old_value_word32 new_value_word32 none none s2
            (.ok (ChangeInt32ToTagged r.1), r.2)
          | .u32 =>
            let r := AtomicCompareExchange t MachineType.Uint32 backing_store (WordShl t index_word 2)
              old_value_word32 new_value_word32 none none s2
            (.ok (ChangeUint32ToTagged r.1), r.2)
          | _ => (.error .Unreachable, s2)

/-- `SharedArrayBufferBuiltinsAssembler::AtomicBinopBuiltinCommon`. -/
def AtomicBinopBuiltinCommon (c : ElementsKindEnum) (t : Target) (E : External)
    (maybe_array index value : Object) (function : AssemblerFunction)
    (runtime_function : RuntimeFunctionId) (s : State) : Outcome :=
  match ValidateArguments c t E maybe_array index s with
  | (.error e, s1) => (.error e, s1)
  | (.ok (array, elements_kind, backing_store, index_word), s1) =>
    if t.binop_calls_runtime then
      CallRuntime t E runtime_function array index_word [value] s1
    else if elements_kind > c.INT32_ELEMENTS then
      -- big
      match ToBigInt E value s1 with
      | (.error e, s2) => (.error e, s2)
      | (.ok value_bigint, s2) =>
        match DebugSanityCheckAtomicIndex t array index_word with
        | .error e => (.error e, s2)
        | .ok _ =>
          let raw := BigIntToRawBytes t value_bigint
          let high := if t.Is64 then none else some raw.2
          if elements_kind = c.BIGINT64_ELEMENTS then
            -- i64
            let r := function MachineType.Uint64 backing_store (WordShl t index_word 3)
              raw.1 high s2
            (.ok (BigIntFromSigned64 t r.1), r.2)
          else if elements_kind = c.BIGUINT64_ELEMENTS then
            -- u64
            let r := function MachineType.Uint64 backing_store (WordShl t index_word 3)
              raw.1 high s2
            (.ok (BigIntFromUnsigned64 t r.1), r.2)
          else (.error .Unreachable, s2)
    else
      match ToInteger_Inline E value s1 with
      | (.error e, s2) => (.error e, s2)
      | (.ok value_integer, s2) =>
        match DebugSanityCheckAtomicIndex t array index_word with
        | .error e => (.error e, s2)
        | .ok _ =>
          let value_word32 := TruncateTaggedToWord32 value_integer
          match Switch elements_kind .other
            [c.INT8_ELEMENTS, c.UINT8_ELEMENTS, c.INT16_ELEMENTS, c.UINT16_ELEMENTS,
              c.INT32_ELEMENTS, c.UINT32_ELEMENTS]
            [.i8, .u8, .i16, .u16, .i32, .u32] with
          | .i8 =>
            let r := function MachineType.Int8 backing_store index_word
              value_word32 none s2
            (.ok (SmiFromInt32 r.1), r.2)
          | .u8 =>
            let r := function MachineType.Uint8 backing_store index_word
              value_word32 none s2
            (.ok (SmiFromInt32 r.1), r.2)
          | .i16 =>
            let r := function MachineType.Int16 backing_store (WordShl t index_word 1)
              value_word32 none s2
            (.ok (SmiFromInt32 r.1), r.2)
          | .u16 =>
            let r := function MachineType.Uint16 backing_store (WordShl t index_word 1)
              value_word32 none s2
            (.ok (SmiFromInt32 r.1), r.2)
          | .i32 =>
            let r := function MachineType.Int32 backing_store (WordShl t index_word 2)
              value_word32 none s2
            (.ok (ChangeInt32ToTagged r.1), r.2)
          | .u32 =>
            let r := function MachineType.Uint32 backing_store (WordShl t index_word 2)
              value_word32 none s2
            (.ok (ChangeUint32ToTagged r.1), r.2)
          | _ => (.error .Unreachable, s2)

/-- The runtime function of an operator (`Runtime::kAtomics##op`). -/
def BinaryOperation.runtimeFunction : BinaryOperation → RuntimeFunctionId
  | .Add => .kAtomicsAdd
  | .Sub => .kAtomicsSub
  | .And => .kAtomicsAnd
  | .Or => .kAtomicsOr
  | .Xor => .kAtomicsXor

/-- `BINOP_BUILTIN(op)`: the builtins `AtomicsAdd`, `AtomicsSub`, `AtomicsAnd`,
`AtomicsOr` and `AtomicsXor`. -/
def AtomicsBinop (op : BinaryOperation) (c : ElementsKindEnum) (t : Target)
    (E : External) (array index value : Object) (s : State) : Outcome :=
  AtomicBinopBuiltinCommon c t E array index value
    (AtomicBinaryOperation t op) op.runtimeFunction s

/-! ## Notions the properties are stated with -/

/-- A view the validation accepts whose elements have width and signedness
`type`: the buffer is shared, hence never detached (§3), the kind is an integer
kind, and the length is a machine word of the target within the range of array
indices. -/
structure ValidView (t : Target) (array : JSTypedArray) (type : MachineType) : Prop where
  shared : array.buffer.is_shared = true
  attached : array.buffer.was_detached = false
  kind : array.elements_kind.machineType = some type
  length_le : array.length ≤ 2 ^ 53
  length_lt : array.length < 2 ^ t.wordBits

/-- Width in bits of the elements of a type. -/
def MachineType.bits (type : MachineType) : Nat := 8 * type.representation.size

/-- The value a `bits`-wide pattern denotes in a type: two's complement for a
signed type, the pattern itself for an unsigned one. -/
def MachineType.interpret (type : MachineType) (cell : Nat) : Int :=
  if type.isSigned then
    if cell < 2 ^ (type.bits - 1) then (cell : Int) else (cell : Int) - 2 ^ type.bits
  else (cell : Int)

/-- The range of the values of a type: `[-2^(w-1), 2^(w-1))` for a signed type
of width `w`, `[0, 2^w)` for an unsigned one. -/
def MachineType.InRange (type : MachineType) (v : Int) : Prop :=
  if type.isSigned then -(2 : Int) ^ (type.bits - 1) ≤ v ∧ v < 2 ^ (type.bits - 1)
  else 0 ≤ v ∧ v < 2 ^ type.bits

instance (type : MachineType) (v : Int) : Decidable (type.InRange v) := by
  unfold MachineType.InRange; infer_instance

/-- The low `bits` of an integer, as a pattern. -/
def MachineType.pattern (type : MachineType) (v : Int) : Nat :=
  (v % 2 ^ type.bits).toNat

/-- The tagged form of an integer for a type: a wide integer for 64-bit
elements, a number otherwise. -/
def MachineType.tagged (type : MachineType) (v : Int) : Object :=
  match type.representation with
  | .kWord64 => .BigInt v
  | _ => .Smi v

/-- The address of element `i` of a view whose elements have type `type`: the
backing store of the buffer plus the byte offset of the view, plus the index
shifted by the size. -/
def elementAddress (t : Target) (array : JSTypedArray) (type : MachineType)
    (i : Nat) : Nat :=
  RawPtrAdd t (RawPtrAdd t array.buffer.backing_store array.byte_offset)
    (WordShl t i type.representation.sizeLog2)

/-- The content of element `i` of a view, as a bit pattern. -/
def elementBits (t : Target) (array : JSTypedArray) (type : MachineType)
    (i : Nat) (m : Memory) : Nat :=
  readBytes m (elementAddress t array type i) type.representation.size

/-- The dispatch of `Switch` read on kinds instead of enumerator values. -/
def SwitchKind (k : ElementsKind) (default : Label) :
    List ElementsKind → List Label → Label
  | v :: case_values, l :: case_labels =>
    if k = v then l else SwitchKind k default case_values case_labels
  | _, _ => default

/-! ## Concrete targets, views and collaborators -/

/-- A 64-bit release target with native atomics for every width. -/
def x64 : Target :=
  { Is64 := true, debug := false, mips_without_r6 := false,
    exchange_calls_runtime := false, binop_calls_runtime := false }

/-- A 32-bit debug target with native atomics, 64-bit values as pairs. -/
def ia32 : Target :=
  { Is64 := false, debug := true, mips_without_r6 := false,
    exchange_calls_runtime := false, binop_calls_runtime := false }

/-- A 32-bit target that calls the runtime wherever the builtins provide for
it. -/
def mips : Target :=
  { Is64 := false, debug := false, mips_without_r6 := true,
    exchange_calls_runtime := true, binop_calls_runtime := true }

/-- A view of four elements of the given kind, sixteen bytes into a shared
buffer at address 4096. -/
def exampleView (kind : ElementsKind) : JSTypedArray :=
  { elements_kind := kind
    buffer := { is_shared := true, was_detached := false, backing_store := 4096 }
    byte_offset := 16
    length := 4 }

/-- External logic under which every user-defined conversion fails and leaves
the memory alone. -/
def noExternal : External :=
  { toIndex := fun _ m => (none, m)
    toInteger := fun _ m => (.error 0, m)
    toBigInt := fun _ m => (.error 0, m) }

/-- The state with all memory zero and nothing executed. -/
def zeroState : State := { mem := fun _ => 0, trace := [] }

/-- The operations of the dispatcher with their value operands. -/
inductive Operation
  | Load
  | Store (value : Object)
  | Exchange (value : Object)
  | CompareExchange (expected replacement : Object)
  | Fetch (op : BinaryOperation) (value : Object)

/-- The builtin of an operation, applied to a candidate view and a raw index. -/
def Operation.run (c : ElementsKindEnum) (t : Target) (E : External)
    (maybe_array index : Object) : Operation → State → Outcome
  | .Load => AtomicsLoad c t E maybe_array index
  | .Store value => AtomicsStore c t E maybe_array index value
  | .Exchange value => AtomicsExchange c t E maybe_array index value
  | .CompareExchange expected replacement =>
    AtomicsCompareExchange c t E maybe_array index expected replacement
  | .Fetch op value => AtomicsBinop op c t E maybe_array index value

/-- External logic whose index conversion stores 7 into the byte at address
4112 and then yields no index; the other conversions fail. -/
def storingExternal : External :=
  { toIndex := fun _ m => (none, fun a => if a = 4112 then 7 else m a)
    toInteger := fun _ m => (.error 0, m)
    toBigInt := fun _ m => (.error 0, m) }

/-- The state with every byte of memory 255 and nothing executed. -/
def onesState : State := { mem := fun _ => 255, trace := [] }

/-- The outcomes of `n` successive calls of `AtomicsAdd` with the same
arguments, and the state after the last one. -/
def repeatAtomicsAdd (c : ElementsKindEnum) (t : Target) (E : External)
    (array index value : Object) : Nat → State → List (Except Error Object) × State
  | 0, s => ([], s)
  | n + 1, s =>
    let r := AtomicsBinop .Add c t E array index value s
    let rest := repeatAtomicsAdd c t E array index value n r.2
    (r.1 :: rest.1, rest.2)

/-- Coercion of a value operand for elements of type `type` (§4.2 steps 3 and
4): `ToBigInt` for 64-bit elements, `ToInteger_Inline` otherwise. -/
def coerceValue (E : External) (type : MachineType) (value : Object) (s : State) :
    Except Error Int × State :=
  match type.representation with
  | .kWord64 => ToBigInt E value s
  | _ => ToInteger_Inline E value s

/-- The value operands of an operation, in the order of the parameters. -/
def Operation.operands : Operation → List Object
  | .Load => []
  | .Store value => [value]
  | .Exchange value => [value]
  | .CompareExchange expected replacement => [expected, replacement]
  | .Fetch _ value => [value]

/-- The runtime function the builtin of an operation calls out to. -/
def Operation.runtimeFunction : Operation → RuntimeFunctionId
  | .Load => .kAtomicsLoad64
  | .Store _ => .kAtomicsStore64
  | .Exchange _ => .kAtomicsExchange
  | .CompareExchange _ _ => .kAtomicsCompareExchange
  | .Fetch op _ => op.runtimeFunction

/-- Whether the builtin of an operation takes the call-out path on a target for
elements of a type: `Load` and `Store` for 64-bit elements on MIPS without r6,
the other builtins for every width on the targets of their `#if`. -/
def Operation.callsRuntime (t : Target) (type : MachineType) : Operation → Bool
  | .Load => t.mips_without_r6 && decide (type.representation = .kWord64)
  | .Store _ => t.mips_without_r6 && decide (type.representation = .kWord64)
  | .Exchange _ => t.exchange_calls_runtime
  | .CompareExchange _ _ => t.binop_calls_runtime
  | .Fetch _ _ => t.binop_calls_runtime

/-- The state after the atomic primitive of an access has written `bits` to
element `i`. -/
def writeElement (t : Target) (array : JSTypedArray) (type : MachineType) (i : Nat)
    (bits : Nat) (s : State) : State :=
  { mem := writeBytes s.mem (elementAddress t array type i) type.representation.size bits
    trace := s.trace ++
      [.Atomic (elementAddress t array type i) type.representation.size] }

/-- The dispatch algorithm in the words of the specification (§4.2), for a
validated view with elements of type `type` and a normalized index `i`, from
the state `s1` validation left: on the call-out path the call is recorded; the
value operands are coerced in order, a failure being propagated; then the one
atomic primitive of the operation runs at the address of the element and its
result is materialized by width and signedness (`Store` returns the coerced
operand). -/
def execute (t : Target) (E : External) (array : JSTypedArray) (type : MachineType)
    (i : Nat) (op : Operation) (s1 : State) : Outcome :=
  let s0 :=
    if op.callsRuntime t type then
      s1.log (.CallRuntime op.runtimeFunction array i op.operands)
    else s1
  match op with
  | .Load =>
    (.ok (type.tagged (type.interpret (elementBits t array type i s0.mem))),
      s0.log (.Atomic (elementAddress t array type i) type.representation.size))
  | .Store value =>
    match coerceValue E type value s0 with
    | (.error e, s2) => (.error e, s2)
    | (.ok v, s2) => (.ok (type.tagged v), writeElement t array type i (type.pattern v) s2)
  | .Exchange value =>
    match coerceValue E type value s0 with
    | (.error e, s2) => (.error e, s2)
    | (.ok v, s2) =>
      (.ok (type.tagged (type.interpret (elementBits t array type i s2.mem))),
        writeElement t array type i (type.pattern v) s2)
  | .CompareExchange expected replacement =>
    match coerceValue E type expected s0 with
    | (.error e, s2) => (.error e, s2)
    | (.ok v, s2) =>
      match coerceValue E type replacement s2 with
      | (.error e, s3) => (.error e, s3)
      | (.ok w, s3) =>
        (.ok (type.tagged (type.interpret (elementBits t array type i s3.mem))),
          { mem :=
              if elementBits t array type i s3.mem = type.pattern v then
                writeBytes s3.mem (elementAddress t array type i) type.representation.size
                  (type.pattern w)
              else s3.mem
            trace := s3.trace ++
              [.Atomic (elementAddress t array type i) type.representation.size] })
  | .Fetch bop value =>
    match coerceValue E type value s0 with
    | (.error e, s2) => (.error e, s2)
    | (.ok v, s2) =>
      (.ok (type.tagged (type.interpret (elementBits t array type i s2.mem))),
        writeElement t array type i
          (bop.apply type.bits (elementBits t array type i s2.mem) (type.pattern v)) s2)

/-- The atomic accesses in a trace: address and size of each. -/
def atomicAccesses : List Event → List (Nat × Nat)
  | [] => []
  | .Atomic address size :: rest => (address, size) :: atomicAccesses rest
  | _ :: rest => atomicAccesses rest

/-- The calls of runtime functions in a trace, with their arguments. -/
def runtimeCalls : List Event → List (RuntimeFunctionId × JSTypedArray × Nat × List Object)
  | [] => []
  | .CallRuntime f array index_number operands :: rest =>
    (f, array, index_number, operands) :: runtimeCalls rest
  | _ :: rest => runtimeCalls rest

/-- The coercions in a trace, in the order they were invoked. -/
def coercions : List Event → List Event
  | [] => []
  | .ToIndex index :: rest => .ToIndex index :: coercions rest
  | .ToInteger value :: rest => .ToInteger value :: coercions rest
  | .ToBigInt value :: rest => .ToBigInt value :: coercions rest
  | _ :: rest => coercions rest

/-- Coercion of the value operands of an operation in order, stopping at the
first that fails: the coerced values or the error, and the state the coercions
left. -/
def coerceAll (E : External) (type : MachineType) :
    List Object → State → Except Error (List Int) × State
  | [], s => (.ok [], s)
  | value :: rest, s =>
    match coerceValue E type value s with
    | (.error e, s1) => (.error e, s1)
    | (.ok v, s1) =>
      match coerceAll E type rest s1 with
      | (.error e, s2) => (.error e, s2)
      | (.ok vs, s2) => (.ok (v :: vs), s2)

/-- The state in which the value operands of an operation are coerced: the
state validation left, with the call recorded on the call-out path. -/
def stateBeforeCoercion (t : Target) (array : JSTypedArray) (type : MachineType)
    (i : Nat) (op : Operation) (s1 : State) : State :=
  if op.callsRuntime t type then
    s1.log (.CallRuntime op.runtimeFunction array i op.operands)
  else s1

/-- External logic whose conversion of the object 0 to an integer stores 7 into
the byte at address 4112 and yields 1, and whose other conversions fail with
the exception 7 and leave the memory alone. -/
def writingExternal : External :=
  { toIndex := fun _ m => (none, m)
    toInteger := fun o m =>
      match o with
      | .JSReceiver 0 => (.ok 1, fun a => if a = 4112 then 7 else m a)
      | _ => (.error 7, m)
    toBigInt := fun _ m => (.error 7, m) }

/-! # Properties -/

/-! ## Memory -/

theorem readBytes_lt (m : Memory) (a n : Nat) : readBytes m a n < 256 ^ n := by
  induction n generalizing a with
  | zero => simp [readBytes]
  | succ n ih =>
    have h := ih (a + 1)
    have h2 : m a % 256 < 256 := Nat.mod_lt _ (by norm_num)
    simp only [readBytes, pow_succ]
    nlinarith

theorem readBytes_writeBytes_aux (m : Memory) (a n v : Nat) :
    ∀ k j, j + k ≤ n →
      readBytes (writeBytes m a n v) (a + j) k = v / 256 ^ j % 256 ^ k := by
  intro k
  induction k with
  | zero => intro j _; simp [readBytes, Nat.mod_one]
  | succ k ih =>
    intro j hj
    have h1 : writeBytes m a n v (a + j) = v / 256 ^ j % 256 := by
      simp only [writeBytes]
      rw [if_pos ⟨by omega, by omega⟩]
      simp
    have h2 := ih (j + 1) (by omega)
    rw [readBytes, h1, Nat.add_assoc, h2, Nat.mod_mod, pow_succ 256 j,
      ← Nat.div_div_eq_div_mul, pow_succ' 256 k, Nat.mod_mul]

theorem readBytes_writeBytes (m : Memory) (a n v : Nat) :
    readBytes (writeBytes m a n v) a n = v % 256 ^ n := by
  have h := readBytes_writeBytes_aux m a n v n 0 (by omega)
  simpa using h

/-! ## Words and results -/

theorem materialize_resultNode (t : Target) (type : MachineType) (cell : Nat)
    (h : cell < 2 ^ type.bits) :
    materialize t type (resultNode t type cell) = type.tagged (type.interpret cell) := by
  obtain ⟨rep, sg⟩ := type
  cases rep <;> cases sg <;> cases hI : t.Is64 <;>
    simp [MachineType.bits, MachineRepresentation.size] at h <;>
    simp [materialize, resultNode, MachineType.tagged, MachineType.interpret,
      MachineType.bits, MachineRepresentation.size, SmiFromInt32, ChangeInt32ToTagged,
      ChangeUint32ToTagged, BigIntFromSigned64, BigIntFromUnsigned64, BigIntFromInt64,
      BigIntFromUint64, BigIntFromInt32Pair, BigIntFromUint32Pair, Projection, Node.word,
      toInt32, toInt64, signExtend32, hI] <;>
    (try split_ifs) <;> (try omega)

theorem operandBits_narrow (t : Target) (rep : MachineRepresentation) (v : Int)
    (h : rep ≠ .kWord64) :
    operandBits t rep (TruncateTaggedToWord32 v) none = (v % 2 ^ (8 * rep.size)).toNat := by
  cases rep <;> simp [operandBits, TruncateTaggedToWord32, MachineRepresentation.size] at h ⊢ <;>
    omega

theorem operandBits_wide (t : Target) (v : Int) :
    operandBits t .kWord64 (BigIntToRawBytes t v).1
      (if t.Is64 then none else some (BigIntToRawBytes t v).2) = (v % 2 ^ 64).toNat := by
  cases hI : t.Is64 <;> simp [operandBits, BigIntToRawBytes, hI] <;> omega

/-! ## Validation of a valid view and an in-bounds index -/

theorem Switch_value {c : ElementsKindEnum} (hinj : Function.Injective c.value)
    (k : ElementsKind) (d : Label) (ks : List ElementsKind) (ls : List Label) :
    Switch (c.value k) d (ks.map c.value) ls = SwitchKind k d ks ls := by
  induction ks generalizing ls with
  | nil => simp [Switch, SwitchKind]
  | cons v ks ih =>
    cases ls with
    | nil => simp [Switch, SwitchKind]
    | cons l ls => simp [Switch, SwitchKind, hinj.eq_iff, ih]

theorem elementBits_lt (t : Target) (array : JSTypedArray) (type : MachineType)
    (i : Nat) (m : Memory) : elementBits t array type i m < 2 ^ type.bits := by
  have h := readBytes_lt m (elementAddress t array type i) type.representation.size
  have e : (256 : Nat) ^ type.representation.size = 2 ^ type.bits := by
    rw [MachineType.bits, pow_mul]; norm_num
  rw [← e]; exact h

theorem ValidateSharedTypedArray_ok {c : ElementsKindEnum} (hc : c.WellFormed)
    (t : Target) {array : JSTypedArray} {type : MachineType} (hv : ValidView t array type) :
    ValidateSharedTypedArray c t (.TypedArray array) =
      .ok (c.value array.elements_kind,
        RawPtrAdd t array.buffer.backing_store array.byte_offset) := by
  obtain ⟨⟨h1, h2, h3, h4, h5, h6, h7, h8, h9, h10⟩, -, -⟩ := hc
  have hk := hv.kind
  simp only [ValidateSharedTypedArray, TaggedIsSmi, IsJSTypedArrayMap, LoadMapInstanceType,
    hv.shared]
  cases hkind : array.elements_kind <;>
    simp [hkind, ElementsKind.machineType] at hk <;>
    simp [ElementsKindEnum.value] <;> intros <;> omega

theorem ValidateAtomicAccess_ok (E : External) {array : JSTypedArray} {type : MachineType}
    (hv : ValidView t array type) {i : Nat} (hi : i < array.length) (s : State) :
    ValidateAtomicAccess E array (.Smi i) s = (.ok i, s.log (.ToIndex (.Smi i))) := by
  have hl := hv.length_le
  have h : indexOfInteger (i : Int) = some i := by
    simp only [indexOfInteger, kMaxSafeInteger]
    rw [if_pos ⟨by omega, by norm_num; omega⟩]
    simp
  simp [ValidateAtomicAccess, ToIndex, h, hi]

theorem ValidateArguments_ok {c : ElementsKindEnum} (hc : c.WellFormed)
    (t : Target) (E : External) {array : JSTypedArray} {type : MachineType}
    (hv : ValidView t array type) {i : Nat} (hi : i < array.length) (s : State) :
    ValidateArguments c t E (.TypedArray array) (.Smi i) s =
      (.ok (array, c.value array.elements_kind,
        RawPtrAdd t array.buffer.backing_store array.byte_offset, i),
        s.log (.ToIndex (.Smi i))) := by
  simp [ValidateArguments, ValidateSharedTypedArray_ok hc t hv,
    ValidateAtomicAccess_ok E hv hi]

theorem DebugSanityCheckAtomicIndex_ok (t : Target) {array : JSTypedArray}
    {type : MachineType} (hv : ValidView t array type) {i : Nat} (hi : i < array.length) :
    DebugSanityCheckAtomicIndex t array i = .ok () := by
  simp [DebugSanityCheckAtomicIndex, hv.attached, hi]

/-! ## What each builtin does on a valid view at an in-bounds index -/

theorem AtomicsLoad_exec {c : ElementsKindEnum} (hc : c.WellFormed)
    (t : Target) (E : External) {array : JSTypedArray} {type : MachineType}
    (hv : ValidView t array type) {i : Nat} (hi : i < array.length) (s : State) :
    (AtomicsLoad c t E (.TypedArray array) (.Smi i) s).1 =
        .ok (type.tagged (type.interpret (elementBits t array type i s.mem))) ∧
      (AtomicsLoad c t E (.TypedArray array) (.Smi i) s).2.mem = s.mem := by
  have hinj := hc.2.1
  have hk := hv.kind
  have hiw : i % 2 ^ t.wordBits = i := Nat.mod_eq_of_lt (by have := hv.length_lt; omega)
  have hm := materialize_resultNode t type _ (elementBits_lt t array type i s.mem)
  rw [AtomicsLoad, ValidateArguments_ok hc t E hv hi]
  simp only []
  rw [show [c.INT8_ELEMENTS, c.UINT8_ELEMENTS, c.INT16_ELEMENTS, c.UINT16_ELEMENTS,
        c.INT32_ELEMENTS, c.UINT32_ELEMENTS, c.BIGINT64_ELEMENTS, c.BIGUINT64_ELEMENTS] =
      List.map c.value [.INT8_ELEMENTS, .UINT8_ELEMENTS, .INT16_ELEMENTS, .UINT16_ELEMENTS,
        .INT32_ELEMENTS, .UINT32_ELEMENTS, .BIGINT64_ELEMENTS, .BIGUINT64_ELEMENTS] from rfl,
    Switch_value hinj]
  cases hkind : array.elements_kind <;>
    simp [hkind, ElementsKind.machineType] at hk <;> subst hk <;>
    cases hr : t.mips_without_r6 <;>
    simp [SwitchKind, AtomicLoad, CallRuntime, hkind, ElementsKind.machineType, State.log,
      elementBits, elementAddress, MachineRepresentation.sizeLog2, WordShl, MachineType.Int8,
      MachineType.Uint8, MachineType.Int16, MachineType.Uint16, MachineType.Int32,
      MachineType.Uint32, MachineType.Uint64, materialize, resultNode, hiw] at hm ⊢ <;>
    try exact hm

theorem AtomicsStore_exec {c : ElementsKindEnum} (hc : c.WellFormed)
    (t : Target) (E : External) {array : JSTypedArray} {type : MachineType}
    (hv : ValidView t array type) {i : Nat} (hi : i < array.length) (v : Int) (s : State) :
    (AtomicsStore c t E (.TypedArray array) (.Smi i) (type.tagged v) s).1 =
        .ok (type.tagged v) ∧
      (AtomicsStore c t E (.TypedArray array) (.Smi i) (type.tagged v) s).2.mem =
        writeBytes s.mem (elementAddress t array type i) type.representation.size
          (type.pattern v) := by
  have hval := ValidateArguments_ok hc t E hv hi s
  obtain ⟨⟨-, -, -, -, -, -, -, -, w1, w2⟩, hinj, -, -, n1, n2, n3, n4, n5⟩ := hc
  have hk := hv.kind
  have hiw : i % 2 ^ t.wordBits = i := Nat.mod_eq_of_lt (by have := hv.length_lt; omega)
  have hd := DebugSanityCheckAtomicIndex_ok t hv hi
  have hw := operandBits_wide t v
  rw [AtomicsStore, hval]
  simp only []
  rw [show [c.INT8_ELEMENTS, c.UINT8_ELEMENTS, c.INT16_ELEMENTS, c.UINT16_ELEMENTS,
        c.INT32_ELEMENTS, c.UINT32_ELEMENTS] =
      List.map c.value [.INT8_ELEMENTS, .UINT8_ELEMENTS, .INT16_ELEMENTS, .UINT16_ELEMENTS,
        .INT32_ELEMENTS, .UINT32_ELEMENTS] from rfl,
    Switch_value hinj]
  cases hkind : array.elements_kind <;>
    simp [hkind, ElementsKind.machineType] at hk <;> subst hk <;>
    cases hr : t.mips_without_r6 <;>
    simp [SwitchKind, AtomicStore, CallRuntime, hkind, ElementsKind.machineType, State.log,
      elementAddress, MachineRepresentation.sizeLog2, WordShl, hiw, hd,
      ElementsKindEnum.value, MachineType.tagged, MachineType.pattern, MachineType.bits,
      ToInteger_Inline, ToBigInt, coerceOperand, operandBits_narrow, not_lt.mpr n1,
      not_lt.mpr n2, not_lt.mpr n3, not_lt.mpr n4, not_lt.mpr n5, w1, w2,
      MachineRepresentation.size] at hw ⊢ <;>
    try rw [hw]

theorem AtomicsExchange_exec {c : ElementsKindEnum} (hc : c.WellFormed)
    (t : Target) (E : External) {array : JSTypedArray} {type : MachineType}
    (hv : ValidView t array type) {i : Nat} (hi : i < array.length) (v : Int)
    (s : State) :
    (AtomicsExchange c t E (.TypedArray array) (.Smi i) (type.tagged v) s).1 =
        .ok (type.tagged (type.interpret (elementBits t array type i s.mem))) ∧
      (AtomicsExchange c t E (.TypedArray array) (.Smi i) (type.tagged v) s).2.mem =
        writeBytes s.mem (elementAddress t array type i) type.representation.size
          (type.pattern v) := by
  have hval := ValidateArguments_ok hc t E hv hi s
  obtain ⟨⟨-, -, -, -, -, -, -, -, w1, w2⟩, hinj, -, -, n1, n2, n3, n4, n5⟩ := hc
  have ne1 : c.BIGUINT64_ELEMENTS ≠ c.BIGINT64_ELEMENTS := fun h =>
    absurd (@hinj ElementsKind.BIGUINT64_ELEMENTS ElementsKind.BIGINT64_ELEMENTS h)
      (by decide)
  have hk := hv.kind
  have hiw : i % 2 ^ t.wordBits = i := Nat.mod_eq_of_lt (by have := hv.length_lt; omega)
  have hd := DebugSanityCheckAtomicIndex_ok t hv hi
  have hw := operandBits_wide t v
  have hm := materialize_resultNode t type _ (elementBits_lt t array type i s.mem)
  rw [AtomicsExchange, hval]
  simp only []
  rw [show [c.INT8_ELEMENTS, c.UINT8_ELEMENTS, c.INT16_ELEMENTS, c.UINT16_ELEMENTS,
        c.INT32_ELEMENTS, c.UINT32_ELEMENTS] =
      List.map c.value [.INT8_ELEMENTS, .UINT8_ELEMENTS, .INT16_ELEMENTS, .UINT16_ELEMENTS,
        .INT32_ELEMENTS, .UINT32_ELEMENTS] from rfl,
    Switch_value hinj]
  cases hkind : array.elements_kind <;>
    simp [hkind, ElementsKind.machineType] at hk <;> subst hk <;>
    cases hr : t.exchange_calls_runtime <;>
    simp [SwitchKind, AtomicExchange, CallRuntime, hkind, ElementsKind.machineType, State.log,
      elementAddress, elementBits, MachineRepresentation.sizeLog2, WordShl, hiw, hd,
      ElementsKindEnum.value, MachineType.tagged, MachineType.pattern, MachineType.bits,
      ToInteger_Inline, ToBigInt, coerceOperand, operandBits_narrow, not_lt.mpr n1,
      not_lt.mpr n2, not_lt.mpr n3, not_lt.mpr n4, not_lt.mpr n5, w1, w2, ne1,
      MachineRepresentation.size, MachineType.Int8,
      MachineType.Uint8, MachineType.Int16, MachineType.Uint16, MachineType.Int32,
      MachineType.Uint32, MachineType.Uint64, materialize, resultNode,
      RuntimeFunctionId.binaryOperation, BinaryOperation.runtimeFunction] at hm hw ⊢ <;>
    (try rw [hw]) <;> (try exact ⟨hm, rfl⟩) <;> (try exact hm)

theorem AtomicsCompareExchange_exec {c : ElementsKindEnum} (hc : c.WellFormed)
    (t : Target) (E : External) {array : JSTypedArray} {type : MachineType}
    (hv : ValidView t array type) {i : Nat} (hi : i < array.length) (e r : Int)
    (s : State) :
    (AtomicsCompareExchange c t E (.TypedArray array) (.Smi i) (type.tagged e)
        (type.tagged r) s).1 =
        .ok (type.tagged (type.interpret (elementBits t array type i s.mem))) ∧
      (AtomicsCompareExchange c t E (.TypedArray array) (.Smi i) (type.tagged e)
        (type.tagged r) s).2.mem =
        if elementBits t array type i s.mem = type.pattern e then
          writeBytes s.mem (elementAddress t array type i) type.representation.size
            (type.pattern r)
        else s.mem := by
  have hval := ValidateArguments_ok hc t E hv hi s
  obtain ⟨⟨-, -, -, -, -, -, -, -, w1, w2⟩, hinj, -, -, n1, n2, n3, n4, n5⟩ := hc
  have ne1 : c.BIGUINT64_ELEMENTS ≠ c.BIGINT64_ELEMENTS := fun h =>
    absurd (@hinj ElementsKind.BIGUINT64_ELEMENTS ElementsKind.BIGINT64_ELEMENTS h)
      (by decide)
  have hk := hv.kind
  have hiw : i % 2 ^ t.wordBits = i := Nat.mod_eq_of_lt (by have := hv.length_lt; omega)
  have hd := DebugSanityCheckAtomicIndex_ok t hv hi
  have hw := operandBits_wide t e
  have hw2 := operandBits_wide t r
  have hm := materialize_resultNode t type _ (elementBits_lt t array type i s.mem)
  rw [AtomicsCompareExchange, hval]
  simp only []
  rw [show [c.INT8_ELEMENTS, c.UINT8_ELEMENTS, c.INT16_ELEMENTS, c.UINT16_ELEMENTS,
        c.INT32_ELEMENTS, c.UINT32_ELEMENTS] =
      List.map c.value [.INT8_ELEMENTS, .UINT8_ELEMENTS, .INT16_ELEMENTS, .UINT16_ELEMENTS,
        .INT32_ELEMENTS, .UINT32_ELEMENTS] from rfl,
    Switch_value hinj]
  cases hkind : array.elements_kind <;>
    simp [hkind, ElementsKind.machineType] at hk <;> subst hk <;>
    cases hr : t.binop_calls_runtime <;>
    simp [SwitchKind, AtomicCompareExchange, CallRuntime, hkind, ElementsKind.machineType, State.log,
      elementAddress, elementBits, MachineRepresentation.sizeLog2, WordShl, hiw, hd,
      ElementsKindEnum.value, MachineType.tagged, MachineType.pattern, MachineType.bits,
      ToInteger_Inline, ToBigInt, coerceOperand, operandBits_narrow, not_lt.mpr n1,
      not_lt.mpr n2, not_lt.mpr n3, not_lt.mpr n4, not_lt.mpr n5, w1, w2, ne1,
      MachineRepresentation.size, MachineType.Int8,
      MachineType.Uint8, MachineType.Int16, MachineType.Uint16, MachineType.Int32,
      MachineType.Uint32, MachineType.Uint64, materialize, resultNode,
      RuntimeFunctionId.binaryOperation, BinaryOperation.runtimeFunction] at hm hw hw2 ⊢ <;>
    (try rw [hw]) <;> (try rw [hw2]) <;> (try exact ⟨hm, rfl⟩) <;> (try exact hm)

theorem AtomicsBinop_exec {c : ElementsKindEnum} (hc : c.WellFormed)
    (t : Target) (E : External) {array : JSTypedArray} {type : MachineType}
    (hv : ValidView t array type) {i : Nat} (hi : i < array.length) (op : BinaryOperation) (v : Int)
    (s : State) :
    (AtomicsBinop op c t E (.TypedArray array) (.Smi i) (type.tagged v) s).1 =
        .ok (type.tagged (type.interpret (elementBits t array type i s.mem))) ∧
      (AtomicsBinop op c t E (.TypedArray array) (.Smi i) (type.tagged v) s).2.mem =
        writeBytes s.mem (elementAddress t array type i) type.representation.size
          (op.apply type.bits (elementBits t array type i s.mem) (type.pattern v)) := by
  have hval := ValidateArguments_ok hc t E hv hi s
  obtain ⟨⟨-, -, -, -, -, -, -, -, w1, w2⟩, hinj, -, -, n1, n2, n3, n4, n5⟩ := hc
  have ne1 : c.BIGUINT64_ELEMENTS ≠ c.BIGINT64_ELEMENTS := fun h =>
    absurd (@hinj ElementsKind.BIGUINT64_ELEMENTS ElementsKind.BIGINT64_ELEMENTS h)
      (by decide)
  have hk := hv.kind
  have hiw : i % 2 ^ t.wordBits = i := Nat.mod_eq_of_lt (by have := hv.length_lt; omega)
  have hd := DebugSanityCheckAtomicIndex_ok t hv hi
  have hw := operandBits_wide t v
  have hm := materialize_resultNode t type _ (elementBits_lt t array type i s.mem)
  rw [AtomicsBinop, AtomicBinopBuiltinCommon, hval]
  simp only []
  rw [show [c.INT8_ELEMENTS, c.UINT8_ELEMENTS, c.INT16_ELEMENTS, c.UINT16_ELEMENTS,
        c.INT32_ELEMENTS, c.UINT32_ELEMENTS] =
      List.map c.value [.INT8_ELEMENTS, .UINT8_ELEMENTS, .INT16_ELEMENTS, .UINT16_ELEMENTS,
        .INT32_ELEMENTS, .UINT32_ELEMENTS] from rfl,
    Switch_value hinj]
  cases op <;> cases hkind : array.elements_kind <;>
    simp [hkind, ElementsKind.machineType] at hk <;> subst hk <;>
    cases hr : t.binop_calls_runtime <;>
    simp [SwitchKind, AtomicBinaryOperation, CallRuntime, hkind, ElementsKind.machineType, State.log,
      elementAddress, elementBits, MachineRepresentation.sizeLog2, WordShl, hiw, hd,
      ElementsKindEnum.value, MachineType.tagged, MachineType.pattern, MachineType.bits,
      ToInteger_Inline, ToBigInt, coerceOperand, operandBits_narrow, not_lt.mpr n1,
      not_lt.mpr n2, not_lt.mpr n3, not_lt.mpr n4, not_lt.mpr n5, w1, w2, ne1,
      MachineRepresentation.size, MachineType.Int8,
      MachineType.Uint8, MachineType.Int16, MachineType.Uint16, MachineType.Int32,
      MachineType.Uint32, MachineType.Uint64, materialize, resultNode,
      RuntimeFunctionId.binaryOperation, BinaryOperation.runtimeFunction] at hm hw ⊢ <;>
    (try rw [hw]) <;> (try exact ⟨hm, rfl⟩) <;> (try exact hm)

/-! ## The numbering of V8 -/

theorem v8ElementsKinds_wellFormed : v8ElementsKinds.WellFormed := by
  refine ⟨by decide, ?_, by decide, by decide, by decide, by decide, by decide, by decide,
    by decide⟩
  intro a b h
  cases a <;> cases b <;> first | rfl | (exact absurd h (by decide))

/-! ## Numeric raw indices -/

theorem ValidateAtomicAccess_rounded (array : JSTypedArray) (n : Int) (s1 : State)
    (hle : array.length ≤ 2 ^ 53) :
    (match (indexOfInteger n, s1) with
      | (none, s1) => ((.error .RangeError : Except Error Nat), s1)
      | (some index_uintptr, s1) =>
        if index_uintptr < array.length then (.ok index_uintptr, s1)
        else (.error .RangeError, s1)).1 =
      if 0 ≤ n ∧ n < array.length then .ok n.toNat else .error .RangeError := by
  have key : ∀ (r : Option Nat), r = indexOfInteger n →
      (match (r, s1) with
        | (none, s1) => ((.error .RangeError : Except Error Nat), s1)
        | (some index_uintptr, s1) =>
          if index_uintptr < array.length then (.ok index_uintptr, s1)
          else (.error .RangeError, s1)).1 =
        if 0 ≤ n ∧ n < array.length then .ok n.toNat else .error .RangeError := by
    intro r hr
    unfold indexOfInteger kMaxSafeInteger at hr
    cases r with
    | none =>
      have hn : ¬ (0 ≤ n ∧ n ≤ 2 ^ 53 - 1) := by
        intro h; rw [if_pos h] at hr; cases hr
      rw [if_neg (by omega)]
    | some j =>
      have hn : 0 ≤ n ∧ n ≤ 2 ^ 53 - 1 := by
        by_contra h; rw [if_neg h] at hr; cases hr
      rw [if_pos hn] at hr
      cases hr
      by_cases h1 : n < array.length
      · rw [if_pos ⟨hn.1, h1⟩]
        simp only []
        rw [if_pos (by omega)]
      · rw [if_neg (fun h => h1 h.2)]
        simp only []
        rw [if_neg (by omega)]
  exact key _ rfl

theorem ValidateAtomicAccess_integer (E : External) (array : JSTypedArray) (n : Int)
    (s : State) (hle : array.length ≤ 2 ^ 53) :
    (ValidateAtomicAccess E array (.Smi n) s).1 =
      if 0 ≤ n ∧ n < array.length then .ok n.toNat else .error .RangeError := by
  simp only [ValidateAtomicAccess, ToIndex]
  exact ValidateAtomicAccess_rounded array n _ hle

theorem ValidateAtomicAccess_number (E : External) (array : JSTypedArray) (q : ℚ)
    (s : State) (hle : array.length ≤ 2 ^ 53) :
    (ValidateAtomicAccess E array (.HeapNumber q) s).1 =
      if 0 ≤ truncate q ∧ truncate q < array.length then .ok (truncate q).toNat
      else .error .RangeError := by
  simp only [ValidateAtomicAccess, ToIndex]
  exact ValidateAtomicAccess_rounded array (truncate q) _ hle

/-! ## Errors after validation -/

theorem ToInteger_Inline_error (E : External) (v : Object) (s : State) (e : Error)
    (s1 : State) (h : ToInteger_Inline E v s = (.error e, s1)) :
    e ≠ .TypeError ∧ e ≠ .RangeError := by
  unfold ToInteger_Inline at h
  split at h
  · cases h
  · cases h
  · simp only [Prod.mk.injEq] at h
    obtain ⟨h1, -⟩ := h
    rcases hr : (E.toInteger v s.mem).1 with n | x
    · rw [hr] at h1; simp [Except.mapError] at h1; subst h1; simp
    · rw [hr] at h1; simp [Except.mapError] at h1

theorem ToBigInt_error (E : External) (v : Object) (s : State) (e : Error)
    (s1 : State) (h : ToBigInt E v s = (.error e, s1)) :
    e ≠ .TypeError ∧ e ≠ .RangeError := by
  unfold ToBigInt at h
  split at h
  · cases h
  · simp only [Prod.mk.injEq] at h
    obtain ⟨h1, -⟩ := h
    rcases hr : (E.toBigInt v s.mem).1 with n | x
    · rw [hr] at h1; simp [Except.mapError] at h1; subst h1; simp
    · rw [hr] at h1; simp [Except.mapError] at h1

theorem DebugSanityCheckAtomicIndex_error (t : Target) (array : JSTypedArray) (i : Nat)
    (e : Error) (h : DebugSanityCheckAtomicIndex t array i = .error e) :
    e ≠ .TypeError ∧ e ≠ .RangeError := by
  unfold DebugSanityCheckAtomicIndex at h
  split_ifs at h <;> cases h <;> simp

theorem coerceOperand_error (t : Target) (E : External) (rep : MachineRepresentation)
    (v : Object) (s : State) (e : Error) (s1 : State)
    (h : coerceOperand t E rep v s = (.error e, s1)) :
    e ≠ .TypeError ∧ e ≠ .RangeError := by
  unfold coerceOperand at h
  repeat' split at h
  all_goals
    cases h <;>
      first
      | exact ToBigInt_error _ _ _ _ _ (by assumption)
      | exact ToInteger_Inline_error _ _ _ _ _ (by assumption)

theorem CallRuntime_error (t : Target) (E : External) (f : RuntimeFunctionId)
    (array : JSTypedArray) (i : Nat) (operands : List Object) (s : State) (e : Error)
    (he : (CallRuntime t E f array i operands s).1 = .error e) :
    e ≠ .TypeError ∧ e ≠ .RangeError := by
  unfold CallRuntime at he
  simp only [] at he
  repeat' split at he
  all_goals
    simp only [] at he
    cases he <;>
      first
      | exact coerceOperand_error _ _ _ _ _ _ _ (by assumption)
      | exact ⟨by simp, by simp⟩

theorem AtomicsLoad_error (c : ElementsKindEnum) (t : Target) (E : External)
    (a i : Object) (s s1 : State) (x : JSTypedArray × Int × Nat × Nat)
    (h : ValidateArguments c t E a i s = (.ok x, s1)) (e : Error)
    (he : (AtomicsLoad c t E a i s).1 = .error e) :
    e ≠ .TypeError ∧ e ≠ .RangeError := by
  obtain ⟨array, kind, bs, iw⟩ := x
  rw [AtomicsLoad, h] at he
  simp only [] at he
  repeat' split at he
  all_goals
    first
    | exact CallRuntime_error _ _ _ _ _ _ _ _ he
    | (simp only [] at he
       cases he <;>
         first
         | exact ToBigInt_error _ _ _ _ _ (by assumption)
         | exact ToInteger_Inline_error _ _ _ _ _ (by assumption)
         | exact coerceOperand_error _ _ _ _ _ _ _ (by assumption)
         | exact DebugSanityCheckAtomicIndex_error _ _ _ _ (by assumption)
         | exact ⟨by simp, by simp⟩)

theorem AtomicsStore_error (c : ElementsKindEnum) (t : Target) (E : External)
    (a i v : Object) (s s1 : State) (x : JSTypedArray × Int × Nat × Nat)
    (h : ValidateArguments c t E a i s = (.ok x, s1)) (e : Error)
    (he : (AtomicsStore c t E a i v s).1 = .error e) :
    e ≠ .TypeError ∧ e ≠ .RangeError := by
  obtain ⟨array, kind, bs, iw⟩ := x
  rw [AtomicsStore, h] at he
  simp only [] at he
  repeat' split at he
  all_goals
    first
    | exact CallRuntime_error _ _ _ _ _ _ _ _ he
    | (simp only [] at he
       cases he <;>
         first
         | exact ToBigInt_error _ _ _ _ _ (by assumption)
         | exact ToInteger_Inline_error _ _ _ _ _ (by assumption)
         | exact coerceOperand_error _ _ _ _ _ _ _ (by assumption)
         | exact DebugSanityCheckAtomicIndex_error _ _ _ _ (by assumption)
         | exact ⟨by simp, by simp⟩)

theorem AtomicsExchange_error (c : ElementsKindEnum) (t : Target) (E : External)
    (a i v : Object) (s s1 : State) (x : JSTypedArray × Int × Nat × Nat)
    (h : ValidateArguments c t E a i s = (.ok x, s1)) (e : Error)
    (he : (AtomicsExchange c t E a i v s).1 = .error e) :
    e ≠ .TypeError ∧ e ≠ .RangeError := by
  obtain ⟨array, kind, bs, iw⟩ := x
  rw [AtomicsExchange, h] at he
  simp only [] at he
  repeat' split at he
  all_goals
    first
    | exact CallRuntime_error _ _ _ _ _ _ _ _ he
    | (simp only [] at he
       cases he <;>
         first
         | exact ToBigInt_error _ _ _ _ _ (by assumption)
         | exact ToInteger_Inline_error _ _ _ _ _ (by assumption)
         | exact coerceOperand_error _ _ _ _ _ _ _ (by assumption)
         | exact DebugSanityCheckAtomicIndex_error _ _ _ _ (by assumption)
         | exact ⟨by simp, by simp⟩)

theorem AtomicsCompareExchange_error (c : ElementsKindEnum) (t : Target) (E : External)
    (a i v w : Object) (s s1 : State) (x : JSTypedArray × Int × Nat × Nat)
    (h : ValidateArguments c t E a i s = (.ok x, s1)) (e : Error)
    (he : (AtomicsCompareExchange c t E a i v w s).1 = .error e) :
    e ≠ .TypeError ∧ e ≠ .RangeError := by
  obtain ⟨array, kind, bs, iw⟩ := x
  rw [AtomicsCompareExchange, h] at he
  simp only [] at he
  repeat' split at he
  all_goals
    first
    | exact CallRuntime_error _ _ _ _ _ _ _ _ he
    | (simp only [] at he
       cases he <;>
         first
         | exact ToBigInt_error _ _ _ _ _ (by assumption)
         | exact ToInteger_Inline_error _ _ _ _ _ (by assumption)
         | exact coerceOperand_error _ _ _ _ _ _ _ (by assumption)
         | exact DebugSanityCheckAtomicIndex_error _ _ _ _ (by assumption)
         | exact ⟨by simp, by simp⟩)

theorem AtomicBinopBuiltinCommon_error (c : ElementsKindEnum) (t : Target) (E : External)
    (a i v : Object) (function : AssemblerFunction)
    (runtime_function : RuntimeFunctionId) (s s1 : State) (x : JSTypedArray × Int × Nat × Nat)
    (h : ValidateArguments c t E a i s = (.ok x, s1)) (e : Error)
    (he : (AtomicBinopBuiltinCommon c t E a i v function runtime_function s).1 = .error e) :
    e ≠ .TypeError ∧ e ≠ .RangeError := by
  obtain ⟨array, kind, bs, iw⟩ := x
  rw [AtomicBinopBuiltinCommon, h] at he
  simp only [] at he
  repeat' split at he
  all_goals
    first
    | exact CallRuntime_error _ _ _ _ _ _ _ _ he
    | (simp only [] at he
       cases he <;>
         first
         | exact ToBigInt_error _ _ _ _ _ (by assumption)
         | exact ToInteger_Inline_error _ _ _ _ _ (by assumption)
         | exact coerceOperand_error _ _ _ _ _ _ _ (by assumption)
         | exact DebugSanityCheckAtomicIndex_error _ _ _ _ (by assumption)
         | exact ⟨by simp, by simp⟩)

theorem ValidateSharedTypedArray_error (c : ElementsKindEnum) (t : Target)
    (a : Object) (e : Error) (h : ValidateSharedTypedArray c t a = .error e) :
    e = .TypeError := by
  cases a <;>
    simp [ValidateSharedTypedArray, TaggedIsSmi, IsJSTypedArrayMap, LoadMapInstanceType] at h
  all_goals first
    | exact h.symm
    | (split_ifs at h <;> exact (Except.error.inj h).symm)

theorem ValidateArguments_error (c : ElementsKindEnum) (t : Target) (E : External)
    (a i : Object) (s s1 : State) (e : Error)
    (h : ValidateArguments c t E a i s = (.error e, s1)) :
    (e = .TypeError ∧ s1 = s) ∨ (e = .RangeError ∧ s1 = (ToIndex E i s).2) ∨
      (e = .Unreachable ∧ s1 = s) := by
  unfold ValidateArguments at h
  split at h
  · cases h
    exact Or.inl ⟨ValidateSharedTypedArray_error c t a _ (by assumption), rfl⟩
  · split at h
    · rename_i array
      unfold ValidateAtomicAccess at h
      rcases hx : ToIndex E i s with ⟨_ | j, s2⟩
      · rw [hx] at h; cases h; exact Or.inr (Or.inl ⟨rfl, rfl⟩)
      · rw [hx] at h
        simp only [] at h
        split_ifs at h
        · cases h
        · cases h; exact Or.inr (Or.inl ⟨rfl, rfl⟩)
    · cases h; exact Or.inr (Or.inr ⟨rfl, rfl⟩)

theorem Operation.run_of_validation_error (c : ElementsKindEnum) (t : Target)
    (E : External) (a i : Object) (op : Operation) (s s1 : State) (e : Error)
    (h : ValidateArguments c t E a i s = (.error e, s1)) :
    op.run c t E a i s = (.error e, s1) := by
  cases op <;>
    simp [Operation.run, AtomicsLoad, AtomicsStore, AtomicsExchange, AtomicsCompareExchange,
      AtomicsBinop, AtomicBinopBuiltinCommon, h]

theorem Operation.run_error_of_validation_ok (c : ElementsKindEnum) (t : Target)
    (E : External) (a i : Object) (op : Operation) (s s1 : State)
    (x : JSTypedArray × Int × Nat × Nat)
    (h : ValidateArguments c t E a i s = (.ok x, s1)) (e : Error)
    (he : (op.run c t E a i s).1 = .error e) : e ≠ .TypeError ∧ e ≠ .RangeError := by
  cases op with
  | Load => exact AtomicsLoad_error c t E a i s s1 x h e he
  | Store v => exact AtomicsStore_error c t E a i v s s1 x h e he
  | Exchange v => exact AtomicsExchange_error c t E a i v s s1 x h e he
  | CompareExchange v w => exact AtomicsCompareExchange_error c t E a i v w s s1 x h e he
  | Fetch op v => exact AtomicBinopBuiltinCommon_error c t E a i v _ _ s s1 x h e he

theorem ToIndex_mem_of_number (E : External) (i : Object) (s : State)
    (h : TaggedIsSmi i = true ∨ ∃ q, i = .HeapNumber q) : (ToIndex E i s).2.mem = s.mem := by
  rcases h with h | ⟨q, rfl⟩
  · cases i <;> simp [TaggedIsSmi] at h
    rfl
  · rfl

/-! ## Patterns and values -/

theorem elementBits_writeBytes (t : Target) (array : JSTypedArray) (type : MachineType)
    (i : Nat) (m : Memory) (p : Nat) :
    elementBits t array type i
        (writeBytes m (elementAddress t array type i) type.representation.size p) =
      p % 2 ^ type.bits := by
  have e : (256 : Nat) ^ type.representation.size = 2 ^ type.bits := by
    rw [MachineType.bits, pow_mul]; norm_num
  rw [elementBits, readBytes_writeBytes, e]

theorem MachineType.pattern_lt (type : MachineType) (v : Int) :
    type.pattern v < 2 ^ type.bits := by
  obtain ⟨rep, sg⟩ := type
  cases rep <;>
    simp [MachineType.pattern, MachineType.bits, MachineRepresentation.size] <;> omega

theorem MachineType.tagged_narrow (type : MachineType) (v : Int)
    (h : type.representation ≠ .kWord64) : type.tagged v = .Smi v := by
  obtain ⟨rep, sg⟩ := type
  cases rep <;> simp [MachineType.tagged] at h ⊢

theorem MachineType.tagged_wide (type : MachineType) (v : Int)
    (h : type.representation = .kWord64) : type.tagged v = .BigInt v := by
  obtain ⟨rep, sg⟩ := type
  cases rep <;> simp [MachineType.tagged] at h ⊢

theorem MachineType.tagged_injective (type : MachineType) (v w : Int)
    (h : type.tagged v = type.tagged w) : v = w := by
  obtain ⟨rep, sg⟩ := type
  cases rep <;> simpa [MachineType.tagged] using h

theorem MachineType.interpret_inRange (type : MachineType) (p : Nat)
    (h : p < 2 ^ type.bits) : type.InRange (type.interpret p) := by
  obtain ⟨rep, sg⟩ := type
  cases rep <;> cases sg <;>
    simp [MachineType.InRange, MachineType.interpret, MachineType.bits,
      MachineRepresentation.size] at h ⊢ <;>
    (try split_ifs) <;> omega

theorem MachineType.interpret_mod (type : MachineType) (p : Nat) :
    type.interpret p % 2 ^ type.bits = (p : Int) % 2 ^ type.bits := by
  obtain ⟨rep, sg⟩ := type
  cases rep <;> cases sg <;>
    simp [MachineType.interpret, MachineType.bits, MachineRepresentation.size] <;>
    (try split_ifs) <;> omega

theorem MachineType.pattern_mod (type : MachineType) (v : Int) :
    (type.pattern v : Int) % 2 ^ type.bits = v % 2 ^ type.bits := by
  obtain ⟨rep, sg⟩ := type
  cases rep <;>
    simp [MachineType.pattern, MachineType.bits, MachineRepresentation.size] <;> omega

theorem MachineType.inRange_unique (type : MachineType) (x y : Int)
    (hx : type.InRange x) (hy : type.InRange y)
    (h : x % 2 ^ type.bits = y % 2 ^ type.bits) : x = y := by
  obtain ⟨rep, sg⟩ := type
  cases rep <;> cases sg <;>
    simp [MachineType.InRange, MachineType.bits, MachineRepresentation.size] at hx hy h <;>
    omega

theorem MachineType.interpret_pattern (type : MachineType) (v : Int)
    (h : type.InRange v) : type.interpret (type.pattern v) = v := by
  apply MachineType.inRange_unique type _ _
    (MachineType.interpret_inRange type _ (MachineType.pattern_lt type v)) h
  rw [MachineType.interpret_mod, MachineType.pattern_mod]

theorem MachineType.eq_pattern_iff (type : MachineType) (p : Nat) (v : Int)
    (h : p < 2 ^ type.bits) :
    p = type.pattern v ↔ type.interpret p % 2 ^ type.bits = v % 2 ^ type.bits := by
  rw [MachineType.interpret_mod]
  obtain ⟨rep, sg⟩ := type
  cases rep <;>
    simp [MachineType.pattern, MachineType.bits, MachineRepresentation.size] at h ⊢ <;>
    omega

theorem BinaryOperation.apply_mod (op : BinaryOperation) (type : MachineType)
    (x : Nat) (hx : x < 2 ^ type.bits) (v : Int) :
    op.apply type.bits x (type.pattern v) % 2 ^ type.bits =
      match op with
      | .Add => (((x : Int) + v) % 2 ^ type.bits).toNat
      | .Sub => (((x : Int) - v) % 2 ^ type.bits).toNat
      | .And => x &&& type.pattern v
      | .Or => x ||| type.pattern v
      | .Xor => x ^^^ type.pattern v := by
  have hp := MachineType.pattern_lt type v
  cases op
  · obtain ⟨rep, sg⟩ := type
    cases rep <;>
      simp [BinaryOperation.apply, MachineType.pattern, MachineType.bits,
        MachineRepresentation.size] at hx ⊢ <;> omega
  · obtain ⟨rep, sg⟩ := type
    cases rep <;>
      simp [BinaryOperation.apply, MachineType.pattern, MachineType.bits,
        MachineRepresentation.size] at hx ⊢ <;> omega
  · simp only [BinaryOperation.apply, Nat.mod_mod]
    exact Nat.mod_eq_of_lt (Nat.and_lt_two_pow _ hp)
  · simp only [BinaryOperation.apply, Nat.mod_mod]
    exact Nat.mod_eq_of_lt (Nat.or_lt_two_pow hx hp)
  · simp only [BinaryOperation.apply, Nat.mod_mod]
    exact Nat.mod_eq_of_lt (Nat.xor_lt_two_pow hx hp)

/-! ## Repeated additions -/

theorem repeatAtomicsAdd_spec {c : ElementsKindEnum} (hc : c.WellFormed) (t : Target)
    (E : External) {array : JSTypedArray} {type : MachineType}
    (hv : ValidView t array type) {i : Nat} (hi : i < array.length) (n : Nat) (s : State) :
    elementBits t array type i
        (repeatAtomicsAdd c t E (.TypedArray array) (.Smi i) (type.tagged 1) n s).2.mem =
      (elementBits t array type i s.mem + n) % 2 ^ type.bits ∧
    (repeatAtomicsAdd c t E (.TypedArray array) (.Smi i) (type.tagged 1) n s).1 =
      (List.range n).map fun k =>
        .ok (type.tagged (type.interpret ((elementBits t array type i s.mem + k) % 2 ^ type.bits))) := by
  induction n generalizing s with
  | zero =>
    have hlt := elementBits_lt t array type i s.mem
    simp [repeatAtomicsAdd, Nat.mod_eq_of_lt hlt]
  | succ n ih =>
    have hlt := elementBits_lt t array type i s.mem
    have hx := AtomicsBinop_exec hc t E hv hi .Add 1 s
    have hb : elementBits t array type i
        (AtomicsBinop .Add c t E (.TypedArray array) (.Smi i) (type.tagged 1) s).2.mem =
        (elementBits t array type i s.mem + 1) % 2 ^ type.bits := by
      rw [hx.2, elementBits_writeBytes, BinaryOperation.apply_mod .Add type _ hlt 1]
      simp only []
      have e : ((2 : Int) ^ type.bits) = ((2 ^ type.bits : Nat) : Int) := by push_cast; rfl
      rw [e]
      have : ((elementBits t array type i s.mem : Nat) : Int) + 1 =
          ((elementBits t array type i s.mem + 1 : Nat) : Int) := by push_cast; rfl
      rw [this, ← Int.natCast_mod, Int.toNat_natCast]
    have h := ih (AtomicsBinop .Add c t E (.TypedArray array) (.Smi i) (type.tagged 1) s).2
    rw [hb] at h
    simp only [repeatAtomicsAdd]
    refine ⟨?_, ?_⟩
    · rw [h.1, Nat.mod_add_mod]
      rw [Nat.add_assoc, Nat.add_comm 1 n]
    · rw [h.2, hx.1, List.range_succ_eq_map, List.map_cons, List.map_map]
      congr 1
      · simp [Nat.mod_eq_of_lt hlt]
      · apply List.map_congr_left
        intro k _
        simp only [Function.comp]
        rw [Nat.mod_add_mod]
        rw [Nat.succ_eq_add_one, Nat.add_assoc, Nat.add_comm 1 k]

/-! ## The builtins refine the dispatch algorithm -/

theorem coerceOperand_of_error (t : Target) (E : External) (type : MachineType)
    (value : Object) (s s2 : State) (e : Error)
    (h : coerceValue E type value s = (.error e, s2)) :
    coerceOperand t E type.representation value s = (.error e, s2) := by
  obtain ⟨rep, sg⟩ := type
  cases rep <;> simp [coerceValue] at h <;> simp [coerceOperand, h]

theorem coerceOperand_of_ok (t : Target) (E : External) (type : MachineType)
    (value : Object) (s s2 : State) (v : Int)
    (h : coerceValue E type value s = (.ok v, s2)) :
    ∃ low high, coerceOperand t E type.representation value s =
        (.ok (type.tagged v, low, high), s2) ∧
      operandBits t type.representation low high = type.pattern v := by
  obtain ⟨rep, sg⟩ := type
  cases rep <;> simp only [coerceValue] at h
  · exact ⟨TruncateTaggedToWord32 v, none, by simp [coerceOperand, h, MachineType.tagged],
      by simp [MachineType.pattern, MachineType.bits, operandBits_narrow]⟩
  · exact ⟨TruncateTaggedToWord32 v, none, by simp [coerceOperand, h, MachineType.tagged],
      by simp [MachineType.pattern, MachineType.bits, operandBits_narrow]⟩
  · exact ⟨TruncateTaggedToWord32 v, none, by simp [coerceOperand, h, MachineType.tagged],
      by simp [MachineType.pattern, MachineType.bits, operandBits_narrow]⟩
  · exact ⟨(BigIntToRawBytes t v).1, if t.Is64 then none else some (BigIntToRawBytes t v).2,
      by simp [coerceOperand, h, MachineType.tagged],
      by simpa [MachineType.pattern, MachineType.bits, MachineRepresentation.size]
        using operandBits_wide t v⟩

theorem CallRuntime_eq_execute (t : Target) (E : External) {array : JSTypedArray}
    {type : MachineType} (hk : array.elements_kind.machineType = some type) (i : Nat)
    (op : Operation) (hop : op.callsRuntime t type = true) (s1 : State) :
    CallRuntime t E op.runtimeFunction array i op.operands s1 =
      execute t E array type i op s1 := by
  have hm := fun m => materialize_resultNode t type _ (elementBits_lt t array type i m)
  simp only [CallRuntime, execute, hk, hop, if_true]
  generalize s1.log (.CallRuntime op.runtimeFunction array i op.operands) = s0
  cases op with
  | Load =>
    simp [Operation.runtimeFunction, Operation.operands, AtomicLoad, State.log, elementBits,
      elementAddress] at hm ⊢
    exact hm _
  | Store value =>
    simp only [Operation.runtimeFunction, Operation.operands]
    rcases hco : coerceValue E type value s0 with ⟨e | v, s2⟩
    · simp [hco, coerceOperand_of_error t E type value s0 s2 e hco]
    · obtain ⟨low, high, h1, h2⟩ := coerceOperand_of_ok t E type value s0 s2 v hco
      simp [hco, h1, AtomicStore, h2, writeElement, elementAddress]
  | Exchange value =>
    simp only [Operation.runtimeFunction, Operation.operands]
    rcases hco : coerceValue E type value s0 with ⟨e | v, s2⟩
    · simp [hco, coerceOperand_of_error t E type value s0 s2 e hco]
    · obtain ⟨low, high, h1, h2⟩ := coerceOperand_of_ok t E type value s0 s2 v hco
      simp [hco, h1, AtomicExchange, h2, writeElement, elementAddress, elementBits] at hm ⊢
      exact hm _
  | CompareExchange expected replacement =>
    simp only [Operation.runtimeFunction, Operation.operands]
    rcases hco : coerceValue E type expected s0 with ⟨e | v, s2⟩
    · simp [hco, coerceOperand_of_error t E type expected s0 s2 e hco]
    · obtain ⟨low, high, h1, h2⟩ := coerceOperand_of_ok t E type expected s0 s2 v hco
      rcases hco2 : coerceValue E type replacement s2 with ⟨e | w, s3⟩
      · simp [hco, hco2, h1, coerceOperand_of_error t E type replacement s2 s3 e hco2]
      · obtain ⟨low2, high2, h3, h4⟩ := coerceOperand_of_ok t E type replacement s2 s3 w hco2
        simp [hco, hco2, h1, h3, AtomicCompareExchange, h2, h4, writeElement, elementAddress,
          elementBits, State.log] at hm ⊢
        exact hm _
  | Fetch bop value =>
    rcases hco : coerceValue E type value s0 with ⟨e | v, s2⟩
    · cases bop <;>
        simp [Operation.runtimeFunction, Operation.operands, BinaryOperation.runtimeFunction,
          RuntimeFunctionId.binaryOperation, hco,
          coerceOperand_of_error t E type value s0 s2 e hco]
    · obtain ⟨low, high, h1, h2⟩ := coerceOperand_of_ok t E type value s0 s2 v hco
      cases bop <;>
        simp [Operation.runtimeFunction, Operation.operands, BinaryOperation.runtimeFunction,
          RuntimeFunctionId.binaryOperation, hco, h1, AtomicBinaryOperation, h2, writeElement,
          elementAddress, elementBits, MachineType.bits] at hm ⊢ <;>
        exact hm _


theorem ValidateArguments_valid {c : ElementsKindEnum} (hc : c.WellFormed)
    (t : Target) (E : External) {array : JSTypedArray} {type : MachineType}
    (hv : ValidView t array type) {index : Object} {i : Nat} {s s1 : State}
    (hx : ToIndex E index s = (some i, s1)) (hi : i < array.length) :
    ValidateArguments c t E (.TypedArray array) index s =
      (.ok (array, c.value array.elements_kind,
        RawPtrAdd t array.buffer.backing_store array.byte_offset, i), s1) := by
  simp [ValidateArguments, ValidateSharedTypedArray_ok hc t hv, ValidateAtomicAccess, hx, hi]

theorem AtomicsLoad_eq_execute {c : ElementsKindEnum} (hc : c.WellFormed)
    (t : Target) (E : External) {array : JSTypedArray} {type : MachineType}
    (hv : ValidView t array type) {index : Object} {i : Nat} {s s1 : State}
    (hx : ToIndex E index s = (some i, s1)) (hi : i < array.length) :
    AtomicsLoad c t E (.TypedArray array) index s =
      execute t E array type i Operation.Load s1 := by
  have hval := ValidateArguments_valid hc t E hv hx hi
  obtain ⟨⟨-, -, -, -, -, -, -, -, w1, w2⟩, hinj, -, -, n1, n2, n3, n4, n5⟩ := hc
  have ne1 : c.BIGUINT64_ELEMENTS ≠ c.BIGINT64_ELEMENTS := fun h =>
    absurd (@hinj ElementsKind.BIGUINT64_ELEMENTS ElementsKind.BIGINT64_ELEMENTS h)
      (by decide)
  have hk := hv.kind
  have hk' := hv.kind
  have hiw : i % 2 ^ t.wordBits = i := Nat.mod_eq_of_lt (by have := hv.length_lt; omega)
  have hd := DebugSanityCheckAtomicIndex_ok t hv hi
  have hw := fun v => operandBits_wide t v
  have hm := fun m => materialize_resultNode t type _ (elementBits_lt t array type i m)
  rw [AtomicsLoad, hval]
  simp only []
  rw [show [c.INT8_ELEMENTS, c.UINT8_ELEMENTS, c.INT16_ELEMENTS, c.UINT16_ELEMENTS,
        c.INT32_ELEMENTS, c.UINT32_ELEMENTS, c.BIGINT64_ELEMENTS, c.BIGUINT64_ELEMENTS] =
      List.map c.value [.INT8_ELEMENTS, .UINT8_ELEMENTS, .INT16_ELEMENTS, .UINT16_ELEMENTS,
        .INT32_ELEMENTS, .UINT32_ELEMENTS, .BIGINT64_ELEMENTS, .BIGUINT64_ELEMENTS] from rfl,
    Switch_value hinj]
  cases hkind : array.elements_kind <;>
    simp [hkind, ElementsKind.machineType] at hk <;> subst hk <;>
    cases hr : t.mips_without_r6 <;>
    first
    | (simp only [SwitchKind, hkind, ElementsKindEnum.value, w1, w2, ne1, hr, if_true,
        not_lt.mpr n1, not_lt.mpr n2, not_lt.mpr n3, not_lt.mpr n4, not_lt.mpr n5, if_false,
        reduceCtorEq, if_neg, not_false_eq_true, gt_iff_lt,
        lt_self_iff_false]; refine CallRuntime_eq_execute t E hk' i Operation.Load ?_ s1; simp [Operation.callsRuntime, hr])
    | (simp [SwitchKind, AtomicLoad, hkind, ElementsKind.machineType, State.log, elementAddress,
        elementBits, MachineRepresentation.sizeLog2, WordShl, hiw, hd, ElementsKindEnum.value,
        MachineType.tagged, MachineType.pattern, MachineType.bits, operandBits_narrow,
        not_lt.mpr n1, not_lt.mpr n2, not_lt.mpr n3, not_lt.mpr n4, not_lt.mpr n5, w1, w2, ne1,
        MachineRepresentation.size, MachineType.Int8, MachineType.Uint8, MachineType.Int16,
        MachineType.Uint16, MachineType.Int32, MachineType.Uint32, MachineType.Uint64,
        materialize, resultNode, execute, Operation.callsRuntime, writeElement, coerceValue,
        hr] at hm hw ⊢; first | done | (simp [hm, hw]; done))

theorem AtomicsStore_eq_execute {c : ElementsKindEnum} (hc : c.WellFormed)
    (t : Target) (E : External) {array : JSTypedArray} {type : MachineType}
    (hv : ValidView t array type) {index : Object} {i : Nat} {s s1 : State}
    (hx : ToIndex E index s = (some i, s1)) (hi : i < array.length) (value : Object) :
    AtomicsStore c t E (.TypedArray array) index value s =
      execute t E array type i (Operation.Store value) s1 := by
  have hval := ValidateArguments_valid hc t E hv hx hi
  obtain ⟨⟨-, -, -, -, -, -, -, -, w1, w2⟩, hinj, -, -, n1, n2, n3, n4, n5⟩ := hc
  have ne1 : c.BIGUINT64_ELEMENTS ≠ c.BIGINT64_ELEMENTS := fun h =>
    absurd (@hinj ElementsKind.BIGUINT64_ELEMENTS ElementsKind.BIGINT64_ELEMENTS h)
      (by decide)
  have hk := hv.kind
  have hk' := hv.kind
  have hiw : i % 2 ^ t.wordBits = i := Nat.mod_eq_of_lt (by have := hv.length_lt; omega)
  have hd := DebugSanityCheckAtomicIndex_ok t hv hi
  have hw := fun v => operandBits_wide t v
  have hm := fun m => materialize_resultNode t type _ (elementBits_lt t array type i m)
  rw [AtomicsStore, hval]
  simp only []
  rw [show [c.INT8_ELEMENTS, c.UINT8_ELEMENTS, c.INT16_ELEMENTS, c.UINT16_ELEMENTS,
        c.INT32_ELEMENTS, c.UINT32_ELEMENTS] =
      List.map c.value [.INT8_ELEMENTS, .UINT8_ELEMENTS, .INT16_ELEMENTS, .UINT16_ELEMENTS,
        .INT32_ELEMENTS, .UINT32_ELEMENTS] from rfl,
    Switch_value hinj]
  rcases hco : coerceValue E type value s1 with ⟨e | v, s2⟩
  · cases hkind : array.elements_kind <;>
      simp [hkind, ElementsKind.machineType] at hk <;> subst hk <;>
      cases hr : t.mips_without_r6 <;>
      first
      | (simp only [SwitchKind, hkind, ElementsKindEnum.value, w1, w2, ne1, hr, if_true,
          not_lt.mpr n1, not_lt.mpr n2, not_lt.mpr n3, not_lt.mpr n4, not_lt.mpr n5, if_false,
          reduceCtorEq, if_neg, not_false_eq_true, gt_iff_lt,
          lt_self_iff_false]; refine CallRuntime_eq_execute t E hk' i (Operation.Store value) ?_ s1; simp [Operation.callsRuntime, hr])
      | (simp only [coerceValue] at hco; simp [SwitchKind, AtomicStore, hkind,
          ElementsKind.machineType, State.log, elementAddress, elementBits,
          MachineRepresentation.sizeLog2, WordShl, hiw, hd, ElementsKindEnum.value,
          MachineType.tagged, MachineType.pattern, MachineType.bits, operandBits_narrow,
          not_lt.mpr n1, not_lt.mpr n2, not_lt.mpr n3, not_lt.mpr n4, not_lt.mpr n5, w1, w2,
          ne1, MachineRepresentation.size, MachineType.Int8, MachineType.Uint8,
          MachineType.Int16, MachineType.Uint16, MachineType.Int32, MachineType.Uint32,
          MachineType.Uint64, materialize, resultNode, execute, Operation.callsRuntime,
          writeElement, coerceValue, hr, hco] at hm hw ⊢; first | done | (simp [hm, hw]; done))
  · cases hkind : array.elements_kind <;>
      simp [hkind, ElementsKind.machineType] at hk <;> subst hk <;>
      cases hr : t.mips_without_r6 <;>
      first
      | (simp only [SwitchKind, hkind, ElementsKindEnum.value, w1, w2, ne1, hr, if_true,
          not_lt.mpr n1, not_lt.mpr n2, not_lt.mpr n3, not_lt.mpr n4, not_lt.mpr n5, if_false,
          reduceCtorEq, if_neg, not_false_eq_true, gt_iff_lt,
          lt_self_iff_false]; refine CallRuntime_eq_execute t E hk' i (Operation.Store value) ?_ s1; simp [Operation.callsRuntime, hr])
      | (simp only [coerceValue] at hco; simp [SwitchKind, AtomicStore, hkind,
          ElementsKind.machineType, State.log, elementAddress, elementBits,
          MachineRepresentation.sizeLog2, WordShl, hiw, hd, ElementsKindEnum.value,
          MachineType.tagged, MachineType.pattern, MachineType.bits, operandBits_narrow,
          not_lt.mpr n1, not_lt.mpr n2, not_lt.mpr n3, not_lt.mpr n4, not_lt.mpr n5, w1, w2,
          ne1, MachineRepresentation.size, MachineType.Int8, MachineType.Uint8,
          MachineType.Int16, MachineType.Uint16, MachineType.Int32, MachineType.Uint32,
          MachineType.Uint64, materialize, resultNode, execute, Operation.callsRuntime,
          writeElement, coerceValue, hr, hco] at hm hw ⊢; first | done | (simp [hm, hw]; done))

theorem AtomicsExchange_eq_execute {c : ElementsKindEnum} (hc : c.WellFormed)
    (t : Target) (E : External) {array : JSTypedArray} {type : MachineType}
    (hv : ValidView t array type) {index : Object} {i : Nat} {s s1 : State}
    (hx : ToIndex E index s = (some i, s1)) (hi : i < array.length) (value : Object) :
    AtomicsExchange c t E (.TypedArray array) index value s =
      execute t E array type i (Operation.Exchange value) s1 := by
  have hval := ValidateArguments_valid hc t E hv hx hi
  obtain ⟨⟨-, -, -, -, -, -, -, -, w1, w2⟩, hinj, -, -, n1, n2, n3, n4, n5⟩ := hc
  have ne1 : c.BIGUINT64_ELEMENTS ≠ c.BIGINT64_ELEMENTS := fun h =>
    absurd (@hinj ElementsKind.BIGUINT64_ELEMENTS ElementsKind.BIGINT64_ELEMENTS h)
      (by decide)
  have hk := hv.kind
  have hk' := hv.kind
  have hiw : i % 2 ^ t.wordBits = i := Nat.mod_eq_of_lt (by have := hv.length_lt; omega)
  have hd := DebugSanityCheckAtomicIndex_ok t hv hi
  have hw := fun v => operandBits_wide t v
  have hm := fun m => materialize_resultNode t type _ (elementBits_lt t array type i m)
  rw [AtomicsExchange, hval]
  simp only []
  rw [show [c.INT8_ELEMENTS, c.UINT8_ELEMENTS, c.INT16_ELEMENTS, c.UINT16_ELEMENTS,
        c.INT32_ELEMENTS, c.UINT32_ELEMENTS] =
      List.map c.value [.INT8_ELEMENTS, .UINT8_ELEMENTS, .INT16_ELEMENTS, .UINT16_ELEMENTS,
        .INT32_ELEMENTS, .UINT32_ELEMENTS] from rfl,
    Switch_value hinj]
  rcases hco : coerceValue E type value s1 with ⟨e | v, s2⟩
  · cases hkind : array.elements_kind <;>
      simp [hkind, ElementsKind.machineType] at hk <;> subst hk <;>
      cases hr : t.exchange_calls_runtime <;>
      first
      | (simp only [SwitchKind, hkind, ElementsKindEnum.value, w1, w2, ne1, hr, if_true,
          not_lt.mpr n1, not_lt.mpr n2, not_lt.mpr n3, not_lt.mpr n4, not_lt.mpr n5, if_false,
          reduceCtorEq, if_neg, not_false_eq_true, gt_iff_lt,
          lt_self_iff_false]; refine CallRuntime_eq_execute t E hk' i (Operation.Exchange value) ?_ s1; simp [Operation.callsRuntime, hr])
      | (simp only [coerceValue] at hco; simp [SwitchKind, AtomicExchange, hkind,
          ElementsKind.machineType, State.log, elementAddress, elementBits,
          MachineRepresentation.sizeLog2, WordShl, hiw, hd, ElementsKindEnum.value,
          MachineType.tagged, MachineType.pattern, MachineType.bits, operandBits_narrow,
          not_lt.mpr n1, not_lt.mpr n2, not_lt.mpr n3, not_lt.mpr n4, not_lt.mpr n5, w1, w2,
          ne1, MachineRepresentation.size, MachineType.Int8, MachineType.Uint8,
          MachineType.Int16, MachineType.Uint16, MachineType.Int32, MachineType.Uint32,
          MachineType.Uint64, materialize, resultNode, execute, Operation.callsRuntime,
          writeElement, coerceValue, hr, hco] at hm hw ⊢; first | done | (simp [hm, hw]; done))
  · cases hkind : array.elements_kind <;>
      simp [hkind, ElementsKind.machineType] at hk <;> subst hk <;>
      cases hr : t.exchange_calls_runtime <;>
      first
      | (simp only [SwitchKind, hkind, ElementsKindEnum.value, w1, w2, ne1, hr, if_true,
          not_lt.mpr n1, not_lt.mpr n2, not_lt.mpr n3, not_lt.mpr n4, not_lt.mpr n5, if_false,
          reduceCtorEq, if_neg, not_false_eq_true, gt_iff_lt,
          lt_self_iff_false]; refine CallRuntime_eq_execute t E hk' i (Operation.Exchange value) ?_ s1; simp [Operation.callsRuntime, hr])
      | (simp only [coerceValue] at hco; simp [SwitchKind, AtomicExchange, hkind,
          ElementsKind.machineType, State.log, elementAddress, elementBits,
          MachineRepresentation.sizeLog2, WordShl, hiw, hd, ElementsKindEnum.value,
          MachineType.tagged, MachineType.pattern, MachineType.bits, operandBits_narrow,
          not_lt.mpr n1, not_lt.mpr n2, not_lt.mpr n3, not_lt.mpr n4, not_lt.mpr n5, w1, w2,
          ne1, MachineRepresentation.size, MachineType.Int8, MachineType.Uint8,
          MachineType.Int16, MachineType.Uint16, MachineType.Int32, MachineType.Uint32,
          MachineType.Uint64, materialize, resultNode, execute, Operation.callsRuntime,
          writeElement, coerceValue, hr, hco] at hm hw ⊢; first | done | (simp [hm, hw]; done))

theorem AtomicsCompareExchange_eq_execute {c : ElementsKindEnum} (hc : c.WellFormed)
    (t : Target) (E : External) {array : JSTypedArray} {type : MachineType}
    (hv : ValidView t array type) {index : Object} {i : Nat} {s s1 : State}
    (hx : ToIndex E index s = (some i, s1)) (hi : i < array.length) (expected replacement : Object) :
    AtomicsCompareExchange c t E (.TypedArray array) index expected replacement s =
      execute t E array type i (Operation.CompareExchange expected replacement) s1 := by
  have hval := ValidateArguments_valid hc t E hv hx hi
  obtain ⟨⟨-, -, -, -, -, -, -, -, w1, w2⟩, hinj, -, -, n1, n2, n3, n4, n5⟩ := hc
  have ne1 : c.BIGUINT64_ELEMENTS ≠ c.BIGINT64_ELEMENTS := fun h =>
    absurd (@hinj ElementsKind.BIGUINT64_ELEMENTS ElementsKind.BIGINT64_ELEMENTS h)
      (by decide)
  have hk := hv.kind
  have hk' := hv.kind
  have hiw : i % 2 ^ t.wordBits = i := Nat.mod_eq_of_lt (by have := hv.length_lt; omega)
  have hd := DebugSanityCheckAtomicIndex_ok t hv hi
  have hw := fun v => operandBits_wide t v
  have hm := fun m => materialize_resultNode t type _ (elementBits_lt t array type i m)
  rw [AtomicsCompareExchange, hval]
  simp only []
  rw [show [c.INT8_ELEMENTS, c.UINT8_ELEMENTS, c.INT16_ELEMENTS, c.UINT16_ELEMENTS,
        c.INT32_ELEMENTS, c.UINT32_ELEMENTS] =
      List.map c.value [.INT8_ELEMENTS, .UINT8_ELEMENTS, .INT16_ELEMENTS, .UINT16_ELEMENTS,
        .INT32_ELEMENTS, .UINT32_ELEMENTS] from rfl,
    Switch_value hinj]
  rcases hco : coerceValue E type expected s1 with ⟨e | v, s2⟩
  · cases hkind : array.elements_kind <;>
      simp [hkind, ElementsKind.machineType] at hk <;> subst hk <;>
      cases hr : t.binop_calls_runtime <;>
      first
      | (simp only [SwitchKind, hkind, ElementsKindEnum.value, w1, w2, ne1, hr, if_true,
          not_lt.mpr n1, not_lt.mpr n2, not_lt.mpr n3, not_lt.mpr n4, not_lt.mpr n5, if_false,
          reduceCtorEq, if_neg, not_false_eq_true, gt_iff_lt,
          lt_self_iff_false]; refine CallRuntime_eq_execute t E hk' i (Operation.CompareExchange expected replacement) ?_ s1; simp [Operation.callsRuntime, hr])
      | (simp only [coerceValue] at hco; simp [SwitchKind, AtomicCompareExchange, hkind,
          ElementsKind.machineType, State.log, elementAddress, elementBits,
          MachineRepresentation.sizeLog2, WordShl, hiw, hd, ElementsKindEnum.value,
          MachineType.tagged, MachineType.pattern, MachineType.bits, operandBits_narrow,
          not_lt.mpr n1, not_lt.mpr n2, not_lt.mpr n3, not_lt.mpr n4, not_lt.mpr n5, w1, w2,
          ne1, MachineRepresentation.size, MachineType.Int8, MachineType.Uint8,
          MachineType.Int16, MachineType.Uint16, MachineType.Int32, MachineType.Uint32,
          MachineType.Uint64, materialize, resultNode, execute, Operation.callsRuntime,
          writeElement, coerceValue, hr, hco] at hm hw ⊢; first | done | (simp [hm, hw]; done))
  · rcases hco2 : coerceValue E type replacement s2 with ⟨e | w, s3⟩
    · cases hkind : array.elements_kind <;>
        simp [hkind, ElementsKind.machineType] at hk <;> subst hk <;>
        cases hr : t.binop_calls_runtime <;>
        first
        | (simp only [SwitchKind, hkind, ElementsKindEnum.value, w1, w2, ne1, hr, if_true,
            not_lt.mpr n1, not_lt.mpr n2, not_lt.mpr n3, not_lt.mpr n4, not_lt.mpr n5, if_false,
            reduceCtorEq, if_neg, not_false_eq_true, gt_iff_lt,
            lt_self_iff_false]; refine CallRuntime_eq_execute t E hk' i (Operation.CompareExchange expected replacement) ?_ s1; simp [Operation.callsRuntime, hr])
        | (simp only [coerceValue] at hco hco2; simp [SwitchKind, AtomicCompareExchange, hkind,
            ElementsKind.machineType, State.log, elementAddress, elementBits,
            MachineRepresentation.sizeLog2, WordShl, hiw, hd, ElementsKindEnum.value,
            MachineType.tagged, MachineType.pattern, MachineType.bits, operandBits_narrow,
            not_lt.mpr n1, not_lt.mpr n2, not_lt.mpr n3, not_lt.mpr n4, not_lt.mpr n5, w1, w2,
            ne1, MachineRepresentation.size, MachineType.Int8, MachineType.Uint8,
            MachineType.Int16, MachineType.Uint16, MachineType.Int32, MachineType.Uint32,
            MachineType.Uint64, materialize, resultNode, execute, Operation.callsRuntime,
            writeElement, coerceValue, hr, hco,
            hco2] at hm hw ⊢; first | done | (simp [hm, hw]; done))
    · cases hkind : array.elements_kind <;>
        simp [hkind, ElementsKind.machineType] at hk <;> subst hk <;>
        cases hr : t.binop_calls_runtime <;>
        first
        | (simp only [SwitchKind, hkind, ElementsKindEnum.value, w1, w2, ne1, hr, if_true,
            not_lt.mpr n1, not_lt.mpr n2, not_lt.mpr n3, not_lt.mpr n4, not_lt.mpr n5, if_false,
            reduceCtorEq, if_neg, not_false_eq_true, gt_iff_lt,
            lt_self_iff_false]; refine CallRuntime_eq_execute t E hk' i (Operation.CompareExchange expected replacement) ?_ s1; simp [Operation.callsRuntime, hr])
        | (simp only [coerceValue] at hco hco2; simp [SwitchKind, AtomicCompareExchange, hkind,
            ElementsKind.machineType, State.log, elementAddress, elementBits,
            MachineRepresentation.sizeLog2, WordShl, hiw, hd, ElementsKindEnum.value,
            MachineType.tagged, MachineType.pattern, MachineType.bits, operandBits_narrow,
            not_lt.mpr n1, not_lt.mpr n2, not_lt.mpr n3, not_lt.mpr n4, not_lt.mpr n5, w1, w2,
            ne1, MachineRepresentation.size, MachineType.Int8, MachineType.Uint8,
            MachineType.Int16, MachineType.Uint16, MachineType.Int32, MachineType.Uint32,
            MachineType.Uint64, materialize, resultNode, execute, Operation.callsRuntime,
            writeElement, coerceValue, hr, hco,
            hco2] at hm hw ⊢; first | done | (simp [hm, hw]; done))

theorem AtomicsBinop_eq_execute {c : ElementsKindEnum} (hc : c.WellFormed)
    (t : Target) (E : External) {array : JSTypedArray} {type : MachineType}
    (hv : ValidView t array type) {index : Object} {i : Nat} {s s1 : State}
    (hx : ToIndex E index s = (some i, s1)) (hi : i < array.length) (op : BinaryOperation) (value : Object) :
    AtomicsBinop op c t E (.TypedArray array) index value s =
      execute t E array type i (Operation.Fetch op value) s1 := by
  have hval := ValidateArguments_valid hc t E hv hx hi
  obtain ⟨⟨-, -, -, -, -, -, -, -, w1, w2⟩, hinj, -, -, n1, n2, n3, n4, n5⟩ := hc
  have ne1 : c.BIGUINT64_ELEMENTS ≠ c.BIGINT64_ELEMENTS := fun h =>
    absurd (@hinj ElementsKind.BIGUINT64_ELEMENTS ElementsKind.BIGINT64_ELEMENTS h)
      (by decide)
  have hk := hv.kind
  have hk' := hv.kind
  have hiw : i % 2 ^ t.wordBits = i := Nat.mod_eq_of_lt (by have := hv.length_lt; omega)
  have hd := DebugSanityCheckAtomicIndex_ok t hv hi
  have hw := fun v => operandBits_wide t v
  have hm := fun m => materialize_resultNode t type _ (elementBits_lt t array type i m)
  rw [AtomicsBinop, AtomicBinopBuiltinCommon, hval]
  simp only []
  rw [show [c.INT8_ELEMENTS, c.UINT8_ELEMENTS, c.INT16_ELEMENTS, c.UINT16_ELEMENTS,
        c.INT32_ELEMENTS, c.UINT32_ELEMENTS] =
      List.map c.value [.INT8_ELEMENTS, .UINT8_ELEMENTS, .INT16_ELEMENTS, .UINT16_ELEMENTS,
        .INT32_ELEMENTS, .UINT32_ELEMENTS] from rfl,
    Switch_value hinj]
  rcases hco : coerceValue E type value s1 with ⟨e | v, s2⟩
  · cases hkind : array.elements_kind <;>
      simp [hkind, ElementsKind.machineType] at hk <;> subst hk <;>
      cases hr : t.binop_calls_runtime <;>
      first
      | (simp only [SwitchKind, hkind, ElementsKindEnum.value, w1, w2, ne1, hr, if_true,
          not_lt.mpr n1, not_lt.mpr n2, not_lt.mpr n3, not_lt.mpr n4, not_lt.mpr n5, if_false,
          reduceCtorEq, if_neg, not_false_eq_true, gt_iff_lt,
          lt_self_iff_false]; refine CallRuntime_eq_execute t E hk' i (Operation.Fetch op value) ?_ s1; simp [Operation.callsRuntime, hr])
      | (simp only [coerceValue] at hco; simp [SwitchKind, AtomicBinaryOperation, hkind,
          ElementsKind.machineType, State.log, elementAddress, elementBits,
          MachineRepresentation.sizeLog2, WordShl, hiw, hd, ElementsKindEnum.value,
          MachineType.tagged, MachineType.pattern, MachineType.bits, operandBits_narrow,
          not_lt.mpr n1, not_lt.mpr n2, not_lt.mpr n3, not_lt.mpr n4, not_lt.mpr n5, w1, w2,
          ne1, MachineRepresentation.size, MachineType.Int8, MachineType.Uint8,
          MachineType.Int16, MachineType.Uint16, MachineType.Int32, MachineType.Uint32,
          MachineType.Uint64, materialize, resultNode, execute, Operation.callsRuntime,
          writeElement, coerceValue, hr, hco] at hm hw ⊢; first | done | (simp [hm, hw]; done))
  · cases hkind : array.elements_kind <;>
      simp [hkind, ElementsKind.machineType] at hk <;> subst hk <;>
      cases hr : t.binop_calls_runtime <;>
      first
      | (simp only [SwitchKind, hkind, ElementsKindEnum.value, w1, w2, ne1, hr, if_true,
          not_lt.mpr n1, not_lt.mpr n2, not_lt.mpr n3, not_lt.mpr n4, not_lt.mpr n5, if_false,
          reduceCtorEq, if_neg, not_false_eq_true, gt_iff_lt,
          lt_self_iff_false]; refine CallRuntime_eq_execute t E hk' i (Operation.Fetch op value) ?_ s1; simp [Operation.callsRuntime, hr])
      | (simp only [coerceValue] at hco; simp [SwitchKind, AtomicBinaryOperation, hkind,
          ElementsKind.machineType, State.log, elementAddress, elementBits,
          MachineRepresentation.sizeLog2, WordShl, hiw, hd, ElementsKindEnum.value,
          MachineType.tagged, MachineType.pattern, MachineType.bits, operandBits_narrow,
          not_lt.mpr n1, not_lt.mpr n2, not_lt.mpr n3, not_lt.mpr n4, not_lt.mpr n5, w1, w2,
          ne1, MachineRepresentation.size, MachineType.Int8, MachineType.Uint8,
          MachineType.Int16, MachineType.Uint16, MachineType.Int32, MachineType.Uint32,
          MachineType.Uint64, materialize, resultNode, execute, Operation.callsRuntime,
          writeElement, coerceValue, hr, hco] at hm hw ⊢; first | done | (simp [hm, hw]; done))

theorem Operation.run_eq_execute {c : ElementsKindEnum} (hc : c.WellFormed)
    (t : Target) (E : External) {array : JSTypedArray} {type : MachineType}
    (hv : ValidView t array type) {index : Object} {i : Nat} {s s1 : State}
    (hx : ToIndex E index s = (some i, s1)) (hi : i < array.length) (op : Operation) :
    op.run c t E (.TypedArray array) index s = execute t E array type i op s1 := by
  cases op with
  | Load => exact AtomicsLoad_eq_execute hc t E hv hx hi
  | Store value => exact AtomicsStore_eq_execute hc t E hv hx hi value
  | Exchange value => exact AtomicsExchange_eq_execute hc t E hv hx hi value
  | CompareExchange expected replacement =>
    exact AtomicsCompareExchange_eq_execute hc t E hv hx hi expected replacement
  | Fetch op value => exact AtomicsBinop_eq_execute hc t E hv hx hi op value

/-! ## Traces and errors of the dispatch algorithm -/

theorem atomicAccesses_append (l1 l2 : List Event) :
    atomicAccesses (l1 ++ l2) = atomicAccesses l1 ++ atomicAccesses l2 := by
  induction l1 with
  | nil => rfl
  | cons e l ih => cases e <;> simp [atomicAccesses, ih]

theorem runtimeCalls_append (l1 l2 : List Event) :
    runtimeCalls (l1 ++ l2) = runtimeCalls l1 ++ runtimeCalls l2 := by
  induction l1 with
  | nil => rfl
  | cons e l ih => cases e <;> simp [runtimeCalls, ih]

theorem ToIndex_trace (E : External) (index : Object) (s : State) :
    (ToIndex E index s).2.trace = s.trace ++ [.ToIndex index] := by
  cases index <;> rfl

theorem ToIndex_smi (E : External) (i : Nat) (h : i < 2 ^ 53) (s : State) :
    ToIndex E (.Smi i) s = (some i, s.log (.ToIndex (.Smi i))) := by
  have e : indexOfInteger (i : Int) = some i := by
    simp only [indexOfInteger, kMaxSafeInteger]
    rw [if_pos ⟨by omega, by norm_num; omega⟩]
    simp
  simp [ToIndex, e]

theorem ValidateAtomicAccess_inv (E : External) (array : JSTypedArray) (index : Object)
    (s s1 : State) (i : Nat) (h : ValidateAtomicAccess E array index s = (.ok i, s1)) :
    ToIndex E index s = (some i, s1) ∧ i < array.length := by
  unfold ValidateAtomicAccess at h
  rcases hx : ToIndex E index s with ⟨_ | j, s2⟩
  · rw [hx] at h; cases h
  · rw [hx] at h
    simp only [] at h
    split_ifs at h with hj
    · cases h; exact ⟨rfl, hj⟩
    · cases h

theorem ValidateAtomicAccess_of_index (E : External) (array : JSTypedArray) (index : Object)
    (s s1 : State) (i : Nat) (hx : ToIndex E index s = (some i, s1))
    (hi : i < array.length) : ValidateAtomicAccess E array index s = (.ok i, s1) := by
  simp [ValidateAtomicAccess, hx, hi]

theorem ValidateArguments_inv (c : ElementsKindEnum) (t : Target) (E : External)
    (a index : Object) (s s1 : State) (array : JSTypedArray) (k : Int) (bs iw : Nat)
    (h : ValidateArguments c t E a index s = (.ok (array, k, bs, iw), s1)) :
    a = .TypedArray array ∧ ValidateSharedTypedArray c t a = .ok (k, bs) ∧
      k = c.value array.elements_kind ∧
      bs = RawPtrAdd t array.buffer.backing_store array.byte_offset ∧
      ValidateAtomicAccess E array index s = (.ok iw, s1) := by
  unfold ValidateArguments at h
  split at h
  · cases h
  · rename_i k' bs' hvs
    split at h
    · rename_i array'
      rcases hva : ValidateAtomicAccess E array' index s with ⟨e | j, s2⟩
      · rw [hva] at h; cases h
      · rw [hva] at h
        simp only [Prod.mk.injEq, Except.ok.injEq] at h
        obtain ⟨⟨rfl, rfl, rfl, rfl⟩, rfl⟩ := h
        refine ⟨rfl, hvs, ?_, ?_, hva⟩
        · simp only [ValidateSharedTypedArray, TaggedIsSmi, IsJSTypedArrayMap,
            LoadMapInstanceType] at hvs
          split_ifs at hvs <;> cases hvs <;> rfl
        · simp only [ValidateSharedTypedArray, TaggedIsSmi, IsJSTypedArrayMap,
            LoadMapInstanceType] at hvs
          split_ifs at hvs <;> cases hvs <;> rfl
    · cases h

theorem ValidateSharedTypedArray_target (c : ElementsKindEnum) (t t' : Target)
    (a : Object) :
    (∀ e, ValidateSharedTypedArray c t a = .error e →
      ValidateSharedTypedArray c t' a = .error e) ∧
    (∀ x, ValidateSharedTypedArray c t a = .ok x →
      ∃ x', ValidateSharedTypedArray c t' a = .ok x') := by
  cases a <;>
    simp only [ValidateSharedTypedArray, TaggedIsSmi, IsJSTypedArrayMap,
      LoadMapInstanceType] <;>
    (try split_ifs) <;> simp

theorem ValidateArguments_target (c : ElementsKindEnum) (t t' : Target) (E : External)
    (a index : Object) (s s1 : State) :
    (∀ e, ValidateArguments c t E a index s = (.error e, s1) →
      ValidateArguments c t' E a index s = (.error e, s1)) ∧
    (∀ x, ValidateArguments c t E a index s = (.ok x, s1) →
      ∃ x', ValidateArguments c t' E a index s = (.ok x', s1)) := by
  have h1 := (ValidateSharedTypedArray_target c t t' a).1
  have h2 := (ValidateSharedTypedArray_target c t t' a).2
  unfold ValidateArguments
  rcases hv : ValidateSharedTypedArray c t a with e | ⟨k, bs⟩
  · rw [h1 e hv]
    exact ⟨fun _ h => h, fun _ h => by cases h⟩
  · obtain ⟨⟨k', bs'⟩, hv'⟩ := h2 _ hv
    rw [hv']
    cases a with
    | TypedArray array =>
      simp only []
      rcases ValidateAtomicAccess E array index s with ⟨e | j, s2⟩
      · exact ⟨fun _ h => h, fun _ h => by cases h⟩
      · refine ⟨fun _ h => (by cases h), fun x h => ?_⟩
        simp only [Prod.mk.injEq, Except.ok.injEq] at h
        exact ⟨_, by rw [h.2]⟩
    | _ => exact ⟨fun _ h => h, fun _ h => by cases h⟩

theorem coerceValue_error (E : External) (type : MachineType) (value : Object)
    (s s2 : State) (e : Error) (h : coerceValue E type value s = (.error e, s2)) :
    ∃ n, e = .Thrown n := by
  have key : ∀ (r : Except Nat Int) (e : Error), r.mapError Error.Thrown = .error e →
      ∃ n, e = .Thrown n := by
    intro r e hr
    cases r with
    | error n => simp [Except.mapError] at hr; exact ⟨n, hr.symm⟩
    | ok x => simp [Except.mapError] at hr
  obtain ⟨rep, sg⟩ := type
  cases rep <;> simp only [coerceValue, ToInteger_Inline, ToBigInt] at h <;>
    split at h <;> first
      | cases h
      | (simp only [Prod.mk.injEq] at h; exact key _ _ h.1)

theorem coerceValue_trace (E : External) (type : MachineType) (value : Object)
    (s : State) :
    (coerceValue E type value s).2.trace =
      s.trace ++ [if type.representation = .kWord64 then .ToBigInt value
        else .ToInteger value] := by
  obtain ⟨rep, sg⟩ := type
  cases rep <;> simp only [coerceValue, ToInteger_Inline, ToBigInt] <;>
    split <;> simp [State.log]

theorem coerceValue_atomicAccesses (E : External) (type : MachineType) (value : Object)
    (s : State) :
    atomicAccesses (coerceValue E type value s).2.trace = atomicAccesses s.trace := by
  rw [coerceValue_trace, atomicAccesses_append]
  split_ifs <;> simp [atomicAccesses]

theorem coerceValue_runtimeCalls (E : External) (type : MachineType) (value : Object)
    (s : State) :
    runtimeCalls (coerceValue E type value s).2.trace = runtimeCalls s.trace := by
  rw [coerceValue_trace, runtimeCalls_append]
  split_ifs <;> simp [runtimeCalls]

theorem coerceAll_atomicAccesses (E : External) (type : MachineType)
    (operands : List Object) (s : State) :
    atomicAccesses (coerceAll E type operands s).2.trace = atomicAccesses s.trace := by
  induction operands generalizing s with
  | nil => rfl
  | cons value rest ih =>
    have h := coerceValue_atomicAccesses E type value s
    simp only [coerceAll]
    rcases hco : coerceValue E type value s with ⟨e | v, s1⟩
    · rw [hco] at h; exact h
    · rw [hco] at h
      have h2 := ih s1
      simp only []
      rcases hall : coerceAll E type rest s1 with ⟨e | vs, s2⟩
      · rw [hall] at h2; simp only []; rw [h2, h]
      · rw [hall] at h2; simp only []; rw [h2, h]

theorem coerceAll_runtimeCalls (E : External) (type : MachineType)
    (operands : List Object) (s : State) :
    runtimeCalls (coerceAll E type operands s).2.trace = runtimeCalls s.trace := by
  induction operands generalizing s with
  | nil => rfl
  | cons value rest ih =>
    have h := coerceValue_runtimeCalls E type value s
    simp only [coerceAll]
    rcases hco : coerceValue E type value s with ⟨e | v, s1⟩
    · rw [hco] at h; exact h
    · rw [hco] at h
      have h2 := ih s1
      simp only []
      rcases hall : coerceAll E type rest s1 with ⟨e | vs, s2⟩
      · rw [hall] at h2; simp only []; rw [h2, h]
      · rw [hall] at h2; simp only []; rw [h2, h]

theorem execute_error (t : Target) (E : External) (array : JSTypedArray)
    (type : MachineType) (i : Nat) (op : Operation) (s1 : State) (e : Error)
    (h : (execute t E array type i op s1).1 = .error e) : ∃ n, e = .Thrown n := by
  unfold execute at h
  simp only [] at h
  cases op <;> simp only [] at h
  · cases h
  all_goals
    repeat' split at h
    all_goals
      simp only [] at h
      cases h <;> exact coerceValue_error _ _ _ _ _ _ (by assumption)

theorem execute_coerceAll_error (t : Target) (E : External) (array : JSTypedArray)
    (type : MachineType) (i : Nat) (op : Operation) (s1 s2 : State) (e : Error)
    (h : coerceAll E type op.operands (stateBeforeCoercion t array type i op s1) =
      (.error e, s2)) :
    execute t E array type i op s1 = (.error e, s2) := by
  unfold stateBeforeCoercion at h
  cases op with
  | Load => cases h
  | Store a =>
    simp only [Operation.operands, coerceAll] at h
    simp only [execute, Operation.operands, writeElement]
    generalize (if Operation.callsRuntime t type (Operation.Store a) = true then
      s1.log (Event.CallRuntime (Operation.Store a).runtimeFunction array i [a])
      else s1) = s0 at h ⊢
    rcases h1 : coerceValue E type a s0 with ⟨e1 | v1, s3⟩ <;> rw [h1] at h <;>
      simp only [] at h ⊢
    · cases h; rfl
    · cases h
  | Exchange a =>
    simp only [Operation.operands, coerceAll] at h
    simp only [execute, Operation.operands, writeElement]
    generalize (if Operation.callsRuntime t type (Operation.Exchange a) = true then
      s1.log (Event.CallRuntime (Operation.Exchange a).runtimeFunction array i [a])
      else s1) = s0 at h ⊢
    rcases h1 : coerceValue E type a s0 with ⟨e1 | v1, s3⟩ <;> rw [h1] at h <;>
      simp only [] at h ⊢
    · cases h; rfl
    · cases h
  | CompareExchange a b =>
    simp only [Operation.operands, coerceAll] at h
    simp only [execute, Operation.operands, writeElement]
    generalize (if Operation.callsRuntime t type (Operation.CompareExchange a b) = true then
      s1.log (Event.CallRuntime (Operation.CompareExchange a b).runtimeFunction array i [a, b])
      else s1) = s0 at h ⊢
    rcases h1 : coerceValue E type a s0 with ⟨e1 | v1, s3⟩ <;> rw [h1] at h <;>
      simp only [] at h ⊢
    · cases h; rfl
    · rcases h2 : coerceValue E type b s3 with ⟨e2 | v2, s4⟩ <;> rw [h2] at h <;>
        simp only [] at h ⊢
      · cases h; rfl
      · cases h
  | Fetch bop a =>
    simp only [Operation.operands, coerceAll] at h
    simp only [execute, Operation.operands, writeElement]
    generalize (if Operation.callsRuntime t type (Operation.Fetch bop a) = true then
      s1.log (Event.CallRuntime (Operation.Fetch bop a).runtimeFunction array i [a])
      else s1) = s0 at h ⊢
    rcases h1 : coerceValue E type a s0 with ⟨e1 | v1, s3⟩ <;> rw [h1] at h <;>
      simp only [] at h ⊢
    · cases h; rfl
    · cases h


theorem execute_coerceAll_ok (t : Target) (E : External) (array : JSTypedArray)
    (type : MachineType) (i : Nat) (op : Operation) (s1 s2 : State) (vs : List Int)
    (h : coerceAll E type op.operands (stateBeforeCoercion t array type i op s1) =
      (.ok vs, s2)) :
    ∃ r m, execute t E array type i op s1 =
      (.ok r, { mem := m, trace := s2.trace ++
        [.Atomic (elementAddress t array type i) type.representation.size] }) ∧
      (op = .Load → m = s2.mem) := by
  unfold stateBeforeCoercion at h
  cases op with
  | Load =>
    simp only [Operation.operands, coerceAll, Prod.mk.injEq] at h
    obtain ⟨-, rfl⟩ := h
    exact ⟨_, _, rfl, fun _ => rfl⟩
  | Store a =>
    simp only [Operation.operands, coerceAll] at h
    simp only [execute, Operation.operands, writeElement]
    generalize (if Operation.callsRuntime t type (Operation.Store a) = true then
      s1.log (Event.CallRuntime (Operation.Store a).runtimeFunction array i [a])
      else s1) = s0 at h ⊢
    rcases h1 : coerceValue E type a s0 with ⟨e1 | v1, s3⟩ <;> rw [h1] at h <;>
      simp only [] at h ⊢
    · cases h
    · cases h; exact ⟨_, _, rfl, fun h => by cases h⟩
  | Exchange a =>
    simp only [Operation.operands, coerceAll] at h
    simp only [execute, Operation.operands, writeElement]
    generalize (if Operation.callsRuntime t type (Operation.Exchange a) = true then
      s1.log (Event.CallRuntime (Operation.Exchange a).runtimeFunction array i [a])
      else s1) = s0 at h ⊢
    rcases h1 : coerceValue E type a s0 with ⟨e1 | v1, s3⟩ <;> rw [h1] at h <;>
      simp only [] at h ⊢
    · cases h
    · cases h; exact ⟨_, _, rfl, fun h => by cases h⟩
  | CompareExchange a b =>
    simp only [Operation.operands, coerceAll] at h
    simp only [execute, Operation.operands, writeElement]
    generalize (if Operation.callsRuntime t type (Operation.CompareExchange a b) = true then
      s1.log (Event.CallRuntime (Operation.CompareExchange a b).runtimeFunction array i [a, b])
      else s1) = s0 at h ⊢
    rcases h1 : coerceValue E type a s0 with ⟨e1 | v1, s3⟩ <;> rw [h1] at h <;>
      simp only [] at h ⊢
    · cases h
    · rcases h2 : coerceValue E type b s3 with ⟨e2 | v2, s4⟩ <;> rw [h2] at h <;>
        simp only [] at h ⊢
      · cases h
      · cases h; exact ⟨_, _, rfl, fun h => by cases h⟩
  | Fetch bop a =>
    simp only [Operation.operands, coerceAll] at h
    simp only [execute, Operation.operands, writeElement]
    generalize (if Operation.callsRuntime t type (Operation.Fetch bop a) = true then
      s1.log (Event.CallRuntime (Operation.Fetch bop a).runtimeFunction array i [a])
      else s1) = s0 at h ⊢
    rcases h1 : coerceValue E type a s0 with ⟨e1 | v1, s3⟩ <;> rw [h1] at h <;>
      simp only [] at h ⊢
    · cases h
    · cases h; exact ⟨_, _, rfl, fun h => by cases h⟩

theorem coerceAll_trace (E : External) (type : MachineType) (operands : List Object)
    (s : State) :
    (∀ vs s2, coerceAll E type operands s = (.ok vs, s2) →
      s2.trace = s.trace ++ operands.map (fun v =>
        if type.representation = .kWord64 then Event.ToBigInt v else Event.ToInteger v)) ∧
    (∀ e s2, coerceAll E type operands s = (.error e, s2) →
      ∃ n, n < operands.length ∧
        s2.trace = s.trace ++ (operands.take (n + 1)).map (fun v =>
          if type.representation = .kWord64 then Event.ToBigInt v else Event.ToInteger v)) := by
  induction operands generalizing s with
  | nil =>
    refine ⟨fun vs s2 h => ?_, fun e s2 h => (by cases h)⟩
    simp only [coerceAll, Prod.mk.injEq] at h
    simp [← h.2]
  | cons value rest ih =>
    have h1 := coerceValue_trace E type value s
    simp only [coerceAll]
    rcases hco : coerceValue E type value s with ⟨e | v, s1⟩
    · rw [hco] at h1
      refine ⟨fun vs s2 h => (by cases h), fun e s2 h => ⟨0, by simp, ?_⟩⟩
      simp only [Prod.mk.injEq] at h
      rw [← h.2, h1]
      simp
    · rw [hco] at h1
      simp only [] at h1 ⊢
      obtain ⟨ih1, ih2⟩ := ih s1
      rcases hall : coerceAll E type rest s1 with ⟨e | vs, s2⟩
      · refine ⟨fun vs s2 h => (by cases h), fun e' s2' h => ?_⟩
        simp only [Prod.mk.injEq] at h
        obtain ⟨n, hn, ht⟩ := ih2 e s2 hall
        refine ⟨n + 1, by simpa using hn, ?_⟩
        rw [← h.2, ht, h1]
        simp
      · refine ⟨fun vs' s2' h => ?_, fun e s2 h => (by cases h)⟩
        simp only [Prod.mk.injEq] at h
        rw [← h.2, ih1 vs s2 hall, h1]
        simp

theorem stateBeforeCoercion_atomicAccesses (t : Target) (array : JSTypedArray)
    (type : MachineType) (i : Nat) (op : Operation) (s1 : State) :
    atomicAccesses (stateBeforeCoercion t array type i op s1).trace =
      atomicAccesses s1.trace := by
  unfold stateBeforeCoercion
  split_ifs
  · simp [State.log, atomicAccesses_append, atomicAccesses]
  · rfl

theorem stateBeforeCoercion_mem (t : Target) (array : JSTypedArray)
    (type : MachineType) (i : Nat) (op : Operation) (s1 : State) :
    (stateBeforeCoercion t array type i op s1).mem = s1.mem := by
  unfold stateBeforeCoercion
  split_ifs <;> rfl

theorem ValidateSharedTypedArray_accepts {c : ElementsKindEnum} (hc : c.WellFormed)
    (t : Target) (array : JSTypedArray) (k : Int) (bs : Nat)
    (h : ValidateSharedTypedArray c t (.TypedArray array) = .ok (k, bs)) :
    array.buffer.is_shared = true ∧ k = c.value array.elements_kind ∧
      bs = RawPtrAdd t array.buffer.backing_store array.byte_offset ∧
      ∃ type, array.elements_kind.machineType = some type := by
  obtain ⟨-, -, o1, o2, -⟩ := hc
  cases hs : array.buffer.is_shared
  · simp [ValidateSharedTypedArray, TaggedIsSmi, IsJSTypedArrayMap, LoadMapInstanceType,
      hs] at h
  · simp only [ValidateSharedTypedArray, TaggedIsSmi, IsJSTypedArrayMap,
      LoadMapInstanceType, hs, Bool.false_eq_true, if_false, Bool.not_true, beq_self_eq_true]
      at h
    cases hkind : array.elements_kind <;>
      simp only [hkind, ElementsKindEnum.value, ElementsKind.machineType] at h ⊢ <;>
      split_ifs at h <;>
      first
      | omega
      | (simp only [Except.ok.injEq, Prod.mk.injEq] at h
         exact ⟨trivial, h.1.symm, h.2.symm, _, rfl⟩)

theorem Operation.run_calls_runtime {c : ElementsKindEnum} (hc : c.WellFormed)
    (t : Target) (E : External) (a index : Object) (op : Operation) (s s1 : State)
    (array : JSTypedArray) (k : Int) (bs iw : Nat) (type : MachineType)
    (h : ValidateArguments c t E a index s = (.ok (array, k, bs, iw), s1))
    (hk : array.elements_kind.machineType = some type)
    (hop : op.callsRuntime t type = true) :
    op.run c t E a index s =
      CallRuntime t E op.runtimeFunction array iw op.operands s1 := by
  obtain ⟨-, -, rfl, -, -⟩ := ValidateArguments_inv c t E a index s s1 array k bs iw h
  obtain ⟨⟨-, -, -, -, -, -, -, -, w1, w2⟩, hinj, -, -, n1, n2, n3, n4, n5⟩ := hc
  cases op with
  | Load =>
    simp only [Operation.callsRuntime, Bool.and_eq_true, decide_eq_true_eq] at hop
    simp only [Operation.run, AtomicsLoad, h]
    rw [show [c.INT8_ELEMENTS, c.UINT8_ELEMENTS, c.INT16_ELEMENTS, c.UINT16_ELEMENTS,
          c.INT32_ELEMENTS, c.UINT32_ELEMENTS, c.BIGINT64_ELEMENTS, c.BIGUINT64_ELEMENTS] =
        List.map c.value [.INT8_ELEMENTS, .UINT8_ELEMENTS, .INT16_ELEMENTS, .UINT16_ELEMENTS,
          .INT32_ELEMENTS, .UINT32_ELEMENTS, .BIGINT64_ELEMENTS, .BIGUINT64_ELEMENTS] from rfl,
      Switch_value hinj]
    cases hkind : array.elements_kind <;>
      simp [hkind, ElementsKind.machineType] at hk <;> subst hk <;>
      simp [SwitchKind, hop.1, Operation.runtimeFunction, Operation.operands] at hop ⊢
  | Store value =>
    simp only [Operation.callsRuntime, Bool.and_eq_true, decide_eq_true_eq] at hop
    simp only [Operation.run, AtomicsStore, h]
    cases hkind : array.elements_kind <;>
      simp [hkind, ElementsKind.machineType] at hk <;> subst hk <;>
      simp [ElementsKindEnum.value, w1, w2, hop.1, Operation.runtimeFunction,
        Operation.operands] at hop ⊢
  | Exchange value =>
    simp only [Operation.callsRuntime] at hop
    simp [Operation.run, AtomicsExchange, h, hop, Operation.runtimeFunction,
      Operation.operands]
  | CompareExchange expected replacement =>
    simp only [Operation.callsRuntime] at hop
    simp [Operation.run, AtomicsCompareExchange, h, hop, Operation.runtimeFunction,
      Operation.operands]
  | Fetch bop value =>
    simp only [Operation.callsRuntime] at hop
    cases bop <;>
    simp [Operation.run, AtomicsBinop, AtomicBinopBuiltinCommon, h, hop,
      Operation.runtimeFunction, Operation.operands, BinaryOperation.runtimeFunction]

theorem ToIndex_atomicAccesses (E : External) (index : Object) (s : State) :
    atomicAccesses (ToIndex E index s).2.trace = atomicAccesses s.trace := by
  rw [ToIndex_trace, atomicAccesses_append]
  simp [atomicAccesses]

theorem ToIndex_runtimeCalls (E : External) (index : Object) (s : State) :
    runtimeCalls (ToIndex E index s).2.trace = runtimeCalls s.trace := by
  rw [ToIndex_trace, runtimeCalls_append]
  simp [runtimeCalls]

theorem execute_atomicAccesses (t : Target) (E : External) (array : JSTypedArray)
    (type : MachineType) (i : Nat) (op : Operation) (s1 : State) :
    (∀ r, (execute t E array type i op s1).1 = .ok r →
      atomicAccesses (execute t E array type i op s1).2.trace =
        atomicAccesses s1.trace ++
          [(elementAddress t array type i, type.representation.size)]) ∧
    (∀ e, (execute t E array type i op s1).1 = .error e →
      atomicAccesses (execute t E array type i op s1).2.trace = atomicAccesses s1.trace) := by
  have hs0 := stateBeforeCoercion_atomicAccesses t array type i op s1
  have hall := coerceAll_atomicAccesses E type op.operands
    (stateBeforeCoercion t array type i op s1)
  rcases hco : coerceAll E type op.operands (stateBeforeCoercion t array type i op s1)
    with ⟨e | vs, s2⟩
  · rw [hco] at hall
    rw [execute_coerceAll_error t E array type i op s1 s2 e hco]
    refine ⟨fun r h => (by cases h), fun _ _ => ?_⟩
    simp only [] at hall ⊢
    rw [hall, hs0]
  · rw [hco] at hall
    obtain ⟨r, m, hex, -⟩ := execute_coerceAll_ok t E array type i op s1 s2 vs hco
    rw [hex]
    refine ⟨fun _ _ => ?_, fun e h => (by cases h)⟩
    simp only [] at hall ⊢
    rw [atomicAccesses_append, hall, hs0]
    rfl

theorem execute_runtimeCalls (t : Target) (E : External) (array : JSTypedArray)
    (type : MachineType) (i : Nat) (op : Operation) (s1 : State) :
    runtimeCalls (execute t E array type i op s1).2.trace =
      runtimeCalls s1.trace ++
        if op.callsRuntime t type then [(op.runtimeFunction, array, i, op.operands)]
        else [] := by
  have hs0 : runtimeCalls (stateBeforeCoercion t array type i op s1).trace =
      runtimeCalls s1.trace ++
        if op.callsRuntime t type then [(op.runtimeFunction, array, i, op.operands)]
        else [] := by
    unfold stateBeforeCoercion
    split_ifs <;> simp [State.log, runtimeCalls_append, runtimeCalls]
  have hall := coerceAll_runtimeCalls E type op.operands
    (stateBeforeCoercion t array type i op s1)
  rcases hco : coerceAll E type op.operands (stateBeforeCoercion t array type i op s1)
    with ⟨e | vs, s2⟩
  · rw [hco] at hall
    rw [execute_coerceAll_error t E array type i op s1 s2 e hco]
    simp only [] at hall ⊢
    rw [hall, hs0]
  · rw [hco] at hall
    obtain ⟨r, m, hex, -⟩ := execute_coerceAll_ok t E array type i op s1 s2 vs hco
    rw [hex]
    simp only [] at hall ⊢
    rw [runtimeCalls_append, hall, hs0]
    simp [runtimeCalls]

/-! ## Frame and independence of the signedness -/

theorem writeBytes_outside (m : Memory) (a n v b : Nat) (h : b < a ∨ a + n ≤ b) :
    writeBytes m a n v b = m b := by
  unfold writeBytes
  rw [if_neg]
  omega

theorem coerceAll_mem (E : External) (type : MachineType) (operands : List Object)
    (hpure : ∀ o ∈ operands, ∀ s : State, (coerceValue E type o s).2.mem = s.mem)
    (s : State) : (coerceAll E type operands s).2.mem = s.mem := by
  induction operands generalizing s with
  | nil => rfl
  | cons value rest ih =>
    have h := hpure value (by simp) s
    have ih' := fun s1 => ih (fun o ho => hpure o (by simp [ho])) s1
    simp only [coerceAll]
    rcases hco : coerceValue E type value s with ⟨e | v, s1⟩
    · rw [hco] at h; exact h
    · rw [hco] at h
      have h2 := ih' s1
      simp only [] at h ⊢
      rcases hall : coerceAll E type rest s1 with ⟨e | vs, s2⟩
      · rw [hall] at h2; simp only [] at h2 ⊢; rw [h2, h]
      · rw [hall] at h2; simp only [] at h2 ⊢; rw [h2, h]

theorem coerceValue_mem_of_tagged (E : External) (type : MachineType) (v : Int)
    (s : State) : (coerceValue E type (type.tagged v) s).2.mem = s.mem := by
  obtain ⟨rep, sg⟩ := type
  cases rep <;> rfl

theorem execute_mem_outside (t : Target) (E : External) (array : JSTypedArray)
    (type : MachineType) (i : Nat) (op : Operation) (s1 : State) (a : Nat)
    (ha : a < elementAddress t array type i ∨
      elementAddress t array type i + type.representation.size ≤ a) :
    (execute t E array type i op s1).2.mem a =
      (coerceAll E type op.operands (stateBeforeCoercion t array type i op s1)).2.mem a := by
  unfold stateBeforeCoercion
  cases op with
  | Load => rfl
  | Store value =>
    simp only [execute, Operation.operands, coerceAll, writeElement]
    generalize (if Operation.callsRuntime t type (Operation.Store value) = true then
      s1.log (Event.CallRuntime (Operation.Store value).runtimeFunction array i [value])
      else s1) = s0
    rcases coerceValue E type value s0 with ⟨e1 | v1, s3⟩
    · rfl
    · exact writeBytes_outside _ _ _ _ _ ha
  | Exchange value =>
    simp only [execute, Operation.operands, coerceAll, writeElement]
    generalize (if Operation.callsRuntime t type (Operation.Exchange value) = true then
      s1.log (Event.CallRuntime (Operation.Exchange value).runtimeFunction array i [value])
      else s1) = s0
    rcases coerceValue E type value s0 with ⟨e1 | v1, s3⟩
    · rfl
    · exact writeBytes_outside _ _ _ _ _ ha
  | CompareExchange expected replacement =>
    simp only [execute, Operation.operands, coerceAll, writeElement]
    generalize (if Operation.callsRuntime t type
        (Operation.CompareExchange expected replacement) = true then
      s1.log (Event.CallRuntime
        (Operation.CompareExchange expected replacement).runtimeFunction array i
        [expected, replacement])
      else s1) = s0
    rcases coerceValue E type expected s0 with ⟨e1 | v1, s3⟩
    · rfl
    · simp only []
      rcases coerceValue E type replacement s3 with ⟨e2 | v2, s4⟩
      · rfl
      · simp only []
        split_ifs
        · exact writeBytes_outside _ _ _ _ _ ha
        · rfl
  | Fetch bop value =>
    simp only [execute, Operation.operands, coerceAll, writeElement]
    generalize (if Operation.callsRuntime t type (Operation.Fetch bop value) = true then
      s1.log (Event.CallRuntime (Operation.Fetch bop value).runtimeFunction array i [value])
      else s1) = s0
    rcases coerceValue E type value s0 with ⟨e1 | v1, s3⟩
    · rfl
    · exact writeBytes_outside _ _ _ _ _ ha

theorem execute_load_mem (t : Target) (E : External) (array : JSTypedArray)
    (type : MachineType) (i : Nat) (s1 : State) :
    (execute t E array type i .Load s1).2.mem = s1.mem := by
  simp only [execute]
  split_ifs <;> rfl

theorem elementAddress_exact (t : Target) (array : JSTypedArray) (type : MachineType)
    (i : Nat) (hi : i < array.length)
    (hfit : array.buffer.backing_store + array.byte_offset +
      array.length * type.representation.size ≤ 2 ^ t.wordBits) :
    elementAddress t array type i =
      array.buffer.backing_store + array.byte_offset + i * type.representation.size := by
  have hsz : type.representation.size = 2 ^ type.representation.sizeLog2 := by
    obtain ⟨rep, sg⟩ := type
    cases rep <;> rfl
  have hpos : 0 < type.representation.size := by rw [hsz]; positivity
  have hlt : i * type.representation.size + type.representation.size ≤
      array.length * type.representation.size := by
    calc i * type.representation.size + type.representation.size
        = (i + 1) * type.representation.size := by ring
      _ ≤ array.length * type.representation.size := Nat.mul_le_mul_right _ hi
  simp only [elementAddress, RawPtrAdd, WordShl, ← hsz]
  rw [Nat.mod_eq_of_lt (a := array.buffer.backing_store + array.byte_offset) (by omega),
    Nat.mod_eq_of_lt (a := i * type.representation.size) (by omega),
    Nat.mod_eq_of_lt (by omega)]

theorem coerceValue_congr (E : External) (type type' : MachineType)
    (hrep : type.representation = type'.representation) (value : Object) (s s' : State)
    (hm : s.mem = s'.mem) :
    (coerceValue E type value s).1 = (coerceValue E type' value s').1 ∧
      (coerceValue E type value s).2.mem = (coerceValue E type' value s').2.mem := by
  obtain ⟨rep, sg⟩ := type
  obtain ⟨rep', sg'⟩ := type'
  simp only [] at hrep
  subst hrep
  cases rep <;> cases value <;>
    simp [coerceValue, ToInteger_Inline, ToBigInt, State.log, hm]

theorem execute_congr (t : Target) (E : External) (array array' : JSTypedArray)
    (type type' : MachineType) (hrep : type.representation = type'.representation)
    (hbuf : array'.buffer = array.buffer) (hoff : array'.byte_offset = array.byte_offset)
    (i : Nat) (op : Operation) (s1 : State) :
    (execute t E array' type' i op s1).2.mem = (execute t E array type i op s1).2.mem ∧
    (∀ e, (execute t E array type i op s1).1 = .error e ↔
      (execute t E array' type' i op s1).1 = .error e) ∧
    (∀ r, (execute t E array type i op s1).1 = .ok r →
      ∃ x y : Int, r = type.tagged x ∧
        (execute t E array' type' i op s1).1 = .ok (type'.tagged y) ∧
        x % 2 ^ type.bits = y % 2 ^ type.bits ∧
        ((∀ value, op ≠ .Store value) → type.InRange x ∧ type'.InRange y) ∧
        (∀ value, op = .Store value → x = y)) := by
  have hS : type'.representation.size = type.representation.size := by rw [hrep]
  have hbits : type'.bits = type.bits := by simp only [MachineType.bits, hrep]
  have hpat : ∀ v, type'.pattern v = type.pattern v := by
    intro v; simp only [MachineType.pattern, hbits]
  have hA : elementAddress t array' type' i = elementAddress t array type i := by
    simp only [elementAddress, hbuf, hoff, hrep]
  have hB : ∀ m, elementBits t array' type' i m = elementBits t array type i m := by
    intro m; simp only [elementBits, hA, hS]
  have hlt := fun m => elementBits_lt t array type i m
  have hlt' : ∀ m, elementBits t array type i m < 2 ^ type'.bits := by
    intro m; rw [hbits]; exact hlt m
  have hmod : ∀ b : Nat, type.interpret b % 2 ^ type.bits =
      type'.interpret b % 2 ^ type.bits := by
    intro b
    rw [MachineType.interpret_mod, ← hbits, MachineType.interpret_mod]
  have hcall : op.callsRuntime t type' = op.callsRuntime t type := by
    cases op <;> simp only [Operation.callsRuntime, hrep]
  cases op with
  | Load =>
    have hm0 : (if Operation.callsRuntime t type Operation.Load = true then
        s1.log (Event.CallRuntime Operation.Load.runtimeFunction array i
          Operation.Load.operands) else s1).mem = s1.mem := by
      split_ifs <;> rfl
    have hm0' : (if Operation.callsRuntime t type' Operation.Load = true then
        s1.log (Event.CallRuntime Operation.Load.runtimeFunction array' i
          Operation.Load.operands) else s1).mem = s1.mem := by
      split_ifs <;> rfl
    simp only [execute]
    generalize (if Operation.callsRuntime t type Operation.Load = true then
        s1.log (Event.CallRuntime Operation.Load.runtimeFunction array i
          Operation.Load.operands) else s1) = s0 at hm0 ⊢
    generalize (if Operation.callsRuntime t type' Operation.Load = true then
        s1.log (Event.CallRuntime Operation.Load.runtimeFunction array' i
          Operation.Load.operands) else s1) = s0' at hm0' ⊢
    simp only [State.log, hm0, hm0', hB]
    refine ⟨trivial, fun e => ⟨fun h => (by cases h), fun h => (by cases h)⟩, fun r h => ?_⟩
    cases h
    exact ⟨_, _, rfl, rfl, hmod _, fun _ =>
      ⟨MachineType.interpret_inRange type _ (hlt _),
        MachineType.interpret_inRange type' _ (hlt' _)⟩, fun _ h => (by cases h)⟩
  | Store value =>
    have hm0 : (if Operation.callsRuntime t type (Operation.Store value) = true then
        s1.log (Event.CallRuntime (Operation.Store value).runtimeFunction array i [value])
        else s1).mem =
        (if Operation.callsRuntime t type' (Operation.Store value) = true then
        s1.log (Event.CallRuntime (Operation.Store value).runtimeFunction array' i [value])
        else s1).mem := by
      split_ifs <;> rfl
    simp only [execute, Operation.operands, writeElement]
    generalize (if Operation.callsRuntime t type (Operation.Store value) = true then
        s1.log (Event.CallRuntime (Operation.Store value).runtimeFunction array i [value])
        else s1) = s0 at hm0 ⊢
    generalize (if Operation.callsRuntime t type' (Operation.Store value) = true then
        s1.log (Event.CallRuntime (Operation.Store value).runtimeFunction array' i [value])
        else s1) = s0' at hm0 ⊢
    have hc1 := coerceValue_congr E type type' hrep value s0 s0' hm0
    rcases h1 : coerceValue E type value s0 with ⟨e1 | v1, t1⟩ <;>
      rcases h1' : coerceValue E type' value s0' with ⟨e1' | v1', t1'⟩ <;>
      rw [h1, h1'] at hc1 <;> simp only [] at hc1 ⊢
    · obtain ⟨he, hm⟩ := hc1
      cases he
      exact ⟨hm.symm, fun e => Iff.rfl, fun r h => (by cases h)⟩
    · exact absurd hc1.1 (by simp)
    · exact absurd hc1.1 (by simp)
    · obtain ⟨hv, hm⟩ := hc1
      cases hv
      refine ⟨by rw [hA, hS, hpat, hm], fun e => ⟨fun h => (by cases h), fun h => (by cases h)⟩,
        fun r h => ?_⟩
      cases h
      exact ⟨_, _, rfl, rfl, rfl, fun hns => absurd rfl (hns _), fun _ _ => rfl⟩
  | Exchange value =>
    have hm0 : (if Operation.callsRuntime t type (Operation.Exchange value) = true then
        s1.log (Event.CallRuntime (Operation.Exchange value).runtimeFunction array i [value])
        else s1).mem =
        (if Operation.callsRuntime t type' (Operation.Exchange value) = true then
        s1.log (Event.CallRuntime (Operation.Exchange value).runtimeFunction array' i [value])
        else s1).mem := by
      split_ifs <;> rfl
    simp only [execute, Operation.operands, writeElement]
    generalize (if Operation.callsRuntime t type (Operation.Exchange value) = true then
        s1.log (Event.CallRuntime (Operation.Exchange value).runtimeFunction array i [value])
        else s1) = s0 at hm0 ⊢
    generalize (if Operation.callsRuntime t type' (Operation.Exchange value) = true then
        s1.log (Event.CallRuntime (Operation.Exchange value).runtimeFunction array' i [value])
        else s1) = s0' at hm0 ⊢
    have hc1 := coerceValue_congr E type type' hrep value s0 s0' hm0
    rcases h1 : coerceValue E type value s0 with ⟨e1 | v1, t1⟩ <;>
      rcases h1' : coerceValue E type' value s0' with ⟨e1' | v1', t1'⟩ <;>
      rw [h1, h1'] at hc1 <;> simp only [] at hc1 ⊢
    · obtain ⟨he, hm⟩ := hc1
      cases he
      exact ⟨hm.symm, fun e => Iff.rfl, fun r h => (by cases h)⟩
    · exact absurd hc1.1 (by simp)
    · exact absurd hc1.1 (by simp)
    · obtain ⟨hv, hm⟩ := hc1
      cases hv
      refine ⟨by rw [hA, hS, hpat, hm], fun e => ⟨fun h => (by cases h), fun h => (by cases h)⟩,
        fun r h => ?_⟩
      cases h
      refine ⟨_, _, rfl, by rw [hB, ← hm], hmod _, fun _ =>
        ⟨MachineType.interpret_inRange type _ (hlt _),
          MachineType.interpret_inRange type' _ (hlt' _)⟩, fun _ h => (by cases h)⟩
  | CompareExchange expected replacement =>
    have hm0 : (if Operation.callsRuntime t type (Operation.CompareExchange expected replacement) = true then
        s1.log (Event.CallRuntime (Operation.CompareExchange expected replacement).runtimeFunction array i [expected, replacement])
        else s1).mem =
        (if Operation.callsRuntime t type' (Operation.CompareExchange expected replacement) = true then
        s1.log (Event.CallRuntime (Operation.CompareExchange expected replacement).runtimeFunction array' i [expected, replacement])
        else s1).mem := by
      split_ifs <;> rfl
    simp only [execute, Operation.operands, writeElement]
    generalize (if Operation.callsRuntime t type (Operation.CompareExchange expected replacement) = true then
        s1.log (Event.CallRuntime (Operation.CompareExchange expected replacement).runtimeFunction array i [expected, replacement])
        else s1) = s0 at hm0 ⊢
    generalize (if Operation.callsRuntime t type' (Operation.CompareExchange expected replacement) = true then
        s1.log (Event.CallRuntime (Operation.CompareExchange expected replacement).runtimeFunction array' i [expected, replacement])
        else s1) = s0' at hm0 ⊢
    have hc1 := coerceValue_congr E type type' hrep expected s0 s0' hm0
    rcases h1 : coerceValue E type expected s0 with ⟨e1 | v1, t1⟩ <;>
      rcases h1' : coerceValue E type' expected s0' with ⟨e1' | v1', t1'⟩ <;>
      rw [h1, h1'] at hc1 <;> simp only [] at hc1 ⊢
    · obtain ⟨he, hm⟩ := hc1
      cases he
      exact ⟨hm.symm, fun e => Iff.rfl, fun r h => (by cases h)⟩
    · exact absurd hc1.1 (by simp)
    · exact absurd hc1.1 (by simp)
    · obtain ⟨hv, hm1⟩ := hc1
      cases hv
      have hc2 := coerceValue_congr E type type' hrep replacement t1 t1' hm1
      rcases h2 : coerceValue E type replacement t1 with ⟨e2 | v2, t2⟩ <;>
        rcases h2' : coerceValue E type' replacement t1' with ⟨e2' | v2', t2'⟩ <;>
        rw [h2, h2'] at hc2 <;> simp only [] at hc2 ⊢
      · obtain ⟨he, hm⟩ := hc2
        cases he
        exact ⟨hm.symm, fun e => Iff.rfl, fun r h => (by cases h)⟩
      · exact absurd hc2.1 (by simp)
      · exact absurd hc2.1 (by simp)
      · obtain ⟨hv, hm⟩ := hc2
        cases hv
        refine ⟨by rw [hA, hS, hpat, hpat, hB, hm],
          fun e => ⟨fun h => (by cases h), fun h => (by cases h)⟩, fun r h => ?_⟩
        cases h
        refine ⟨_, _, rfl, by rw [hB, ← hm], hmod _, fun _ =>
          ⟨MachineType.interpret_inRange type _ (hlt _),
            MachineType.interpret_inRange type' _ (hlt' _)⟩, fun _ h => (by cases h)⟩
  | Fetch bop value =>
    have hm0 : (if Operation.callsRuntime t type (Operation.Fetch bop value) = true then
        s1.log (Event.CallRuntime (Operation.Fetch bop value).runtimeFunction array i [value])
        else s1).mem =
        (if Operation.callsRuntime t type' (Operation.Fetch bop value) = true then
        s1.log (Event.CallRuntime (Operation.Fetch bop value).runtimeFunction array' i [value])
        else s1).mem := by
      split_ifs <;> rfl
    simp only [execute, Operation.operands, writeElement]
    generalize (if Operation.callsRuntime t type (Operation.Fetch bop value) = true then
        s1.log (Event.CallRuntime (Operation.Fetch bop value).runtimeFunction array i [value])
        else s1) = s0 at hm0 ⊢
    generalize (if Operation.callsRuntime t type' (Operation.Fetch bop value) = true then
        s1.log (Event.CallRuntime (Operation.Fetch bop value).runtimeFunction array' i [value])
        else s1) = s0' at hm0 ⊢
    have hc1 := coerceValue_congr E type type' hrep value s0 s0' hm0
    rcases h1 : coerceValue E type value s0 with ⟨e1 | v1, t1⟩ <;>
      rcases h1' : coerceValue E type' value s0' with ⟨e1' | v1', t1'⟩ <;>
      rw [h1, h1'] at hc1 <;> simp only [] at hc1 ⊢
    · obtain ⟨he, hm⟩ := hc1
      cases he
      exact ⟨hm.symm, fun e => Iff.rfl, fun r h => (by cases h)⟩
    · exact absurd hc1.1 (by simp)
    · exact absurd hc1.1 (by simp)
    · obtain ⟨hv, hm⟩ := hc1
      cases hv
      refine ⟨by rw [hA, hS, hpat, hB, hbits, hm],
        fun e => ⟨fun h => (by cases h), fun h => (by cases h)⟩, fun r h => ?_⟩
      cases h
      refine ⟨_, _, rfl, by rw [hB, ← hm], hmod _, fun _ =>
        ⟨MachineType.interpret_inRange type _ (hlt _),
          MachineType.interpret_inRange type' _ (hlt' _)⟩, fun _ h => (by cases h)⟩

theorem coercions_append (l1 l2 : List Event) :
    coercions (l1 ++ l2) = coercions l1 ++ coercions l2 := by
  induction l1 with
  | nil => rfl
  | cons e l ih => cases e <;> simp [coercions, ih]

theorem coercions_map (type : MachineType) (operands : List Object) :
    coercions (operands.map (fun v =>
      if type.representation = .kWord64 then Event.ToBigInt v else Event.ToInteger v)) =
    operands.map (fun v =>
      if type.representation = .kWord64 then Event.ToBigInt v else Event.ToInteger v) := by
  by_cases h : type.representation = .kWord64
  · simp only [h, if_true]
    induction operands with
    | nil => rfl
    | cons o l ih => simp only [List.map_cons, coercions, ih]
  · simp only [h, if_false]
    induction operands with
    | nil => rfl
    | cons o l ih => simp only [List.map_cons, coercions, ih]

theorem stateBeforeCoercion_coercions (t : Target) (array : JSTypedArray)
    (type : MachineType) (i : Nat) (op : Operation) (s1 : State) :
    coercions (stateBeforeCoercion t array type i op s1).trace = coercions s1.trace := by
  unfold stateBeforeCoercion
  split_ifs
  · simp [State.log, coercions_append, coercions]
  · rfl

theorem execute_coercions (t : Target) (E : External) (array : JSTypedArray)
    (type : MachineType) (i : Nat) (op : Operation) (s1 : State) :
    ∃ n, n ≤ op.operands.length ∧
      coercions (execute t E array type i op s1).2.trace =
        coercions s1.trace ++ (op.operands.take n).map (fun v =>
          if type.representation = .kWord64 then Event.ToBigInt v else Event.ToInteger v) ∧
      (∀ r, (execute t E array type i op s1).1 = .ok r → n = op.operands.length) := by
  have hs0 := stateBeforeCoercion_coercions t array type i op s1
  have htr := coerceAll_trace E type op.operands (stateBeforeCoercion t array type i op s1)
  rcases hco : coerceAll E type op.operands (stateBeforeCoercion t array type i op s1)
    with ⟨e | vs, s2⟩
  · obtain ⟨n, hn, ht⟩ := htr.2 e s2 hco
    rw [execute_coerceAll_error t E array type i op s1 s2 e hco]
    refine ⟨n + 1, hn, ?_, fun r h => (by cases h)⟩
    simp only []
    rw [ht, coercions_append, hs0, coercions_map]
  · have ht := htr.1 vs s2 hco
    obtain ⟨r, m, hex, -⟩ := execute_coerceAll_ok t E array type i op s1 s2 vs hco
    rw [hex]
    refine ⟨op.operands.length, le_refl _, ?_, fun _ _ => rfl⟩
    simp only []
    rw [ht, coercions_append, coercions_append, hs0, coercions_map, List.take_length]
    simp [coercions]

theorem ValidateAtomicAccess_error (E : External) (array : JSTypedArray) (index : Object)
    (s s1 : State) (e : Error) (h : ValidateAtomicAccess E array index s = (.error e, s1)) :
    e = .RangeError ∧ s1 = (ToIndex E index s).2 := by
  unfold ValidateAtomicAccess at h
  rcases hx : ToIndex E index s with ⟨_ | j, s2⟩
  · rw [hx] at h; cases h; exact ⟨rfl, rfl⟩
  · rw [hx] at h
    simp only [] at h
    split_ifs at h
    · cases h
    · cases h; exact ⟨rfl, rfl⟩

/-! ## The properties of the specification -/

/-- C1: `ValidateSharedTypedArray` fails with a `TypeError` exactly when the
candidate is a Smi, or a heap object whose map is not a typed-array map, or a
typed array whose buffer is not shared or whose kind is `FLOAT32_ELEMENTS`,
`FLOAT64_ELEMENTS` or `UINT8_CLAMPED_ELEMENTS`; it fails with no other error;
and on a shared typed array of one of the eight integer kinds it succeeds and
returns the enumerator of exactly that kind (with the address of the backing
store plus the byte offset). -/
theorem validateSharedTypedArray_typeError_iff (c : ElementsKindEnum)
    (hc : c.WellFormed) (t : Target) (maybe_array : Object) :
    (ValidateSharedTypedArray c t maybe_array = .error .TypeError ↔
      (TaggedIsSmi maybe_array = true ∨ IsJSTypedArrayMap maybe_array = false ∨
        ∃ array, maybe_array = .TypedArray array ∧
          (array.buffer.is_shared = false ∨
            array.elements_kind = .FLOAT32_ELEMENTS ∨
            array.elements_kind = .FLOAT64_ELEMENTS ∨
            array.elements_kind = .UINT8_CLAMPED_ELEMENTS))) ∧
    (∀ e, ValidateSharedTypedArray c t maybe_array = .error e → e = .TypeError) ∧
    (∀ array, maybe_array = .TypedArray array → array.buffer.is_shared = true →
      array.elements_kind ∈ [ElementsKind.INT8_ELEMENTS, .UINT8_ELEMENTS, .INT16_ELEMENTS,
        .UINT16_ELEMENTS, .INT32_ELEMENTS, .UINT32_ELEMENTS, .BIGINT64_ELEMENTS,
        .BIGUINT64_ELEMENTS] →
      ValidateSharedTypedArray c t maybe_array =
        .ok (c.value array.elements_kind,
          RawPtrAdd t array.buffer.backing_store array.byte_offset)) := by
  obtain ⟨⟨h1, h2, h3, h4, h5, h6, h7, h8, h9, h10⟩, -, f1, f2, -⟩ := hc
  cases maybe_array with
  | TypedArray array =>
    obtain ⟨kind, ⟨shared, detached, bs⟩, off, len⟩ := array
    cases shared <;> cases kind <;>
      simp [ValidateSharedTypedArray, TaggedIsSmi, IsJSTypedArrayMap, LoadMapInstanceType,
        ElementsKindEnum.value] <;>
      (try split_ifs) <;> (try simp) <;> omega
  | _ => simp [ValidateSharedTypedArray, TaggedIsSmi, IsJSTypedArrayMap, LoadMapInstanceType]

/-- Witness of `validateSharedTypedArray_typeError_iff`: a shared `Float32`
view is rejected. -/
theorem validateSharedTypedArray_typeError_iff_witness :
    v8ElementsKinds.WellFormed ∧
    ValidateSharedTypedArray v8ElementsKinds x64
      (.TypedArray (exampleView .FLOAT32_ELEMENTS)) = .error .TypeError :=
  ⟨v8ElementsKinds_wellFormed,
    (validateSharedTypedArray_typeError_iff v8ElementsKinds v8ElementsKinds_wellFormed x64
      (.TypedArray (exampleView .FLOAT32_ELEMENTS))).1.mpr
      (Or.inr (Or.inr ⟨_, rfl, Or.inr (Or.inl rfl)⟩))⟩

/-- C2: `ValidateAtomicAccess` succeeds exactly when `ToIndex` yields an index
and that index is less than the length of the array; on success it returns
exactly that index; in every other case it fails with a `RangeError`. -/
theorem validateAtomicAccess_ok_iff (E : External) (array : JSTypedArray)
    (index : Object) (s : State) (i : Nat) :
    ((ValidateAtomicAccess E array index s).1 = .ok i ↔
      (ToIndex E index s).1 = some i ∧ i < array.length) ∧
    ((¬ ∃ j, (ToIndex E index s).1 = some j ∧ j < array.length) →
      (ValidateAtomicAccess E array index s).1 = .error .RangeError) ∧
    (ValidateAtomicAccess E array index s).2 = (ToIndex E index s).2 := by
  unfold ValidateAtomicAccess
  rcases h : ToIndex E index s with ⟨_ | j, s1⟩
  · simp
  · by_cases hj : j < array.length
    · simp [hj]
      intro h; subst h; exact hj
    · simp [hj]
      intro h; subst h; omega

/-- C3 (as stated, refuted): on a view of length four the non-integral raw index
`1/4` is not rejected; index validation accepts it as index 0. -/
theorem validateAtomicAccess_accepts_nonintegral :
    (1 / 4 : ℚ).den ≠ 1 ∧ (exampleView .INT8_ELEMENTS).length ≠ 0 ∧
      (ValidateAtomicAccess noExternal (exampleView .INT8_ELEMENTS)
        (.HeapNumber (1 / 4)) zeroState).1 = .ok 0 := by
  have hn : (1 / 4 : ℚ).num = 1 := by norm_num
  have hd : (1 / 4 : ℚ).den = 4 := by norm_num
  have ht : truncate (1 / 4) = 0 := by rw [truncate, hn, hd]; decide
  refine ⟨by rw [hd]; decide, by decide, ?_⟩
  rw [ValidateAtomicAccess_number _ _ _ _ (by decide), ht]
  rfl

/-- C3 (amended): for every view of non-zero length, index validation rejects
with a `RangeError` the raw indices `-1` and `length`, accepts the raw indices
`0` and `length - 1`, and rounds any other numeric raw index towards zero,
accepting it as the rounded index exactly when that lies in `[0, length)` and
rejecting it with a `RangeError` otherwise. -/
theorem validateAtomicAccess_raw_indices (E : External) (array : JSTypedArray)
    (s : State) (hlen : array.length ≠ 0) (hle : array.length ≤ 2 ^ 53) :
    (ValidateAtomicAccess E array (.Smi (-1)) s).1 = .error .RangeError ∧
    (ValidateAtomicAccess E array (.Smi array.length) s).1 = .error .RangeError ∧
    (ValidateAtomicAccess E array (.Smi 0) s).1 = .ok 0 ∧
    (ValidateAtomicAccess E array (.Smi (array.length - 1 : Nat)) s).1 =
      .ok (array.length - 1) ∧
    ∀ q : ℚ, (ValidateAtomicAccess E array (.HeapNumber q) s).1 =
      if 0 ≤ truncate q ∧ truncate q < array.length then .ok (truncate q).toNat
      else .error .RangeError := by
  refine ⟨?_, ?_, ?_, ?_, fun q => ValidateAtomicAccess_number E array q s hle⟩
  · rw [ValidateAtomicAccess_integer E array _ s hle, if_neg (by omega)]
  · rw [ValidateAtomicAccess_integer E array _ s hle, if_neg (by omega)]
  · rw [ValidateAtomicAccess_integer E array _ s hle, if_pos (by omega)]; rfl
  · rw [ValidateAtomicAccess_integer E array _ s hle, if_pos (by omega)]; simp

/-- Witness of `validateAtomicAccess_raw_indices` on a view of four elements. -/
theorem validateAtomicAccess_raw_indices_witness :
    (exampleView .INT8_ELEMENTS).length ≠ 0 ∧
    (exampleView .INT8_ELEMENTS).length ≤ 2 ^ 53 ∧
    (ValidateAtomicAccess noExternal (exampleView .INT8_ELEMENTS) (.Smi (-1)) zeroState).1 =
      .error .RangeError :=
  ⟨by decide, by decide,
    (validateAtomicAccess_raw_indices noExternal (exampleView .INT8_ELEMENTS) zeroState
      (by decide) (by decide)).1⟩

/-- C4 (as stated, refuted): a `Load` whose index is an object whose conversion
stores into the view and then yields no index fails with a `RangeError`, and
the memory after the call differs from the memory before it. -/
theorem load_rangeError_memory_changed :
    (Operation.run v8ElementsKinds x64 storingExternal
        (.TypedArray (exampleView .INT8_ELEMENTS)) (.JSReceiver 0) .Load zeroState).1 =
      .error .RangeError ∧
    (Operation.run v8ElementsKinds x64 storingExternal
        (.TypedArray (exampleView .INT8_ELEMENTS)) (.JSReceiver 0) .Load
        zeroState).2.mem 4112 ≠ zeroState.mem 4112 := by
  constructor
  · rfl
  · decide

/-- C4 (amended): for every operation and every input, if the call fails with
the `TypeError` or the `RangeError` of validation, the operation has executed
nothing after validation: with a `TypeError` the state after the call is the
state before it; with a `RangeError` it is the state the index coercion left,
whose memory is the memory before the call when the index is a primitive
number. -/
theorem validation_error_leaves_state (c : ElementsKindEnum) (t : Target)
    (E : External) (maybe_array index : Object) (op : Operation) (s : State)
    (h : (op.run c t E maybe_array index s).1 = .error .TypeError ∨
      (op.run c t E maybe_array index s).1 = .error .RangeError) :
    ((op.run c t E maybe_array index s).1 = .error .TypeError →
      (op.run c t E maybe_array index s).2 = s) ∧
    ((op.run c t E maybe_array index s).1 = .error .RangeError →
      (op.run c t E maybe_array index s).2 = (ToIndex E index s).2) ∧
    ((TaggedIsSmi index = true ∨ ∃ q, index = .HeapNumber q) →
      (op.run c t E maybe_array index s).2.mem = s.mem) := by
  rcases hv : ValidateArguments c t E maybe_array index s with ⟨e | x, s1⟩
  · have hr := Operation.run_of_validation_error c t E maybe_array index op s s1 e hv
    rw [hr] at h ⊢
    rcases ValidateArguments_error c t E maybe_array index s s1 e hv with
      ⟨rfl, rfl⟩ | ⟨rfl, rfl⟩ | ⟨rfl, rfl⟩
    · exact ⟨fun _ => rfl, fun h => by simp at h, fun _ => rfl⟩
    · exact ⟨fun h => by simp at h, fun _ => rfl,
        fun hn => ToIndex_mem_of_number E index s hn⟩
    · rcases h with h | h <;> simp at h
  · rcases h with h | h
    · exact absurd rfl
        (Operation.run_error_of_validation_ok c t E maybe_array index op s s1 x hv _ h).1
    · exact absurd rfl
        (Operation.run_error_of_validation_ok c t E maybe_array index op s s1 x hv _ h).2

/-- Witness of `validation_error_leaves_state`: a `Store` to a Smi. -/
theorem validation_error_leaves_state_witness :
    (Operation.run v8ElementsKinds x64 noExternal (.Smi 1) (.Smi 0) (.Store (.Smi 5))
        zeroState).1 = .error .TypeError ∧
    (Operation.run v8ElementsKinds x64 noExternal (.Smi 1) (.Smi 0) (.Store (.Smi 5))
        zeroState).2 = zeroState :=
  ⟨rfl, (validation_error_leaves_state v8ElementsKinds x64 noExternal (.Smi 1) (.Smi 0)
    (.Store (.Smi 5)) zeroState (Or.inl rfl)).1 rfl⟩

/-- C5: on a valid view of a kind of width at most 32 bits, at an in-bounds
index and for every integer `v`, `Load`, then `Store(v)`, then `Load` at the
same index make the second `Load` return the unique value in the range of the
kind that is congruent to `v` modulo `2^w`. -/
theorem load_store_load (c : ElementsKindEnum) (hc : c.WellFormed) (t : Target)
    (E : External) (array : JSTypedArray) (type : MachineType)
    (hv : ValidView t array type) (hn : type.representation ≠ .kWord64)
    (i : Nat) (hi : i < array.length) (v : Int) (s : State) :
    ∃ x : Int,
      (AtomicsLoad c t E (.TypedArray array) (.Smi i)
        (AtomicsStore c t E (.TypedArray array) (.Smi i) (.Smi v)
          (AtomicsLoad c t E (.TypedArray array) (.Smi i) s).2).2).1 = .ok (.Smi x) ∧
      type.InRange x ∧ x % 2 ^ type.bits = v % 2 ^ type.bits ∧
      ∀ y : Int, type.InRange y → y % 2 ^ type.bits = v % 2 ^ type.bits → y = x := by
  have hx := MachineType.interpret_inRange type _ (MachineType.pattern_lt type v)
  have hm : type.interpret (type.pattern v) % 2 ^ type.bits = v % 2 ^ type.bits := by
    rw [MachineType.interpret_mod, MachineType.pattern_mod]
  refine ⟨type.interpret (type.pattern v), ?_, hx, hm, ?_⟩
  · have h2 := (AtomicsStore_exec hc t E hv hi v
      (AtomicsLoad c t E (.TypedArray array) (.Smi i) s).2).2
    rw [MachineType.tagged_narrow type v hn] at h2
    rw [(AtomicsLoad_exec hc t E hv hi _).1, h2, elementBits_writeBytes,
      Nat.mod_eq_of_lt (MachineType.pattern_lt type v), MachineType.tagged_narrow type _ hn]
  · intro y hy hym
    exact MachineType.inRange_unique type y _ hy hx (hym.trans hm.symm)

/-- Witness of `load_store_load`: 300 stored into an `Int8` view reads back as
44. -/
theorem load_store_load_witness :
    v8ElementsKinds.WellFormed ∧
    ValidView x64 (exampleView .INT8_ELEMENTS) MachineType.Int8 ∧
    MachineType.Int8.representation ≠ .kWord64 ∧ 1 < (exampleView .INT8_ELEMENTS).length ∧
    ∃ x : Int,
      (AtomicsLoad v8ElementsKinds x64 noExternal (.TypedArray (exampleView .INT8_ELEMENTS))
        (.Smi (1 : Nat))
        (AtomicsStore v8ElementsKinds x64 noExternal
          (.TypedArray (exampleView .INT8_ELEMENTS)) (.Smi (1 : Nat)) (.Smi 300)
          (AtomicsLoad v8ElementsKinds x64 noExternal
            (.TypedArray (exampleView .INT8_ELEMENTS)) (.Smi (1 : Nat)) zeroState).2).2).1 =
        .ok (.Smi x) ∧
      MachineType.Int8.InRange x ∧
      x % 2 ^ MachineType.Int8.bits = 300 % 2 ^ MachineType.Int8.bits ∧
      ∀ y : Int, MachineType.Int8.InRange y →
        y % 2 ^ MachineType.Int8.bits = 300 % 2 ^ MachineType.Int8.bits → y = x :=
  ⟨v8ElementsKinds_wellFormed, ⟨rfl, rfl, rfl, by decide, by decide⟩, by decide, by decide,
    load_store_load v8ElementsKinds v8ElementsKinds_wellFormed x64 noExternal
      (exampleView .INT8_ELEMENTS) MachineType.Int8 ⟨rfl, rfl, rfl, by decide, by decide⟩
      (by decide) 1 (by decide) 300 zeroState⟩

/-- C6: on a valid view at an in-bounds index, `Exchange(v)` returns what a
`Load` at that index returns immediately before the call, and a `Load`
immediately after the call returns `v` wrapped into the range of the kind. -/
theorem exchange_returns_prior_and_stores (c : ElementsKindEnum) (hc : c.WellFormed)
    (t : Target) (E : External) (array : JSTypedArray) (type : MachineType)
    (hv : ValidView t array type) (i : Nat) (hi : i < array.length) (v : Int)
    (s : State) :
    (AtomicsExchange c t E (.TypedArray array) (.Smi i) (type.tagged v) s).1 =
      (AtomicsLoad c t E (.TypedArray array) (.Smi i) s).1 ∧
    ∃ x : Int,
      (AtomicsLoad c t E (.TypedArray array) (.Smi i)
        (AtomicsExchange c t E (.TypedArray array) (.Smi i) (type.tagged v) s).2).1 =
        .ok (type.tagged x) ∧
      type.InRange x ∧ x % 2 ^ type.bits = v % 2 ^ type.bits := by
  have hx := AtomicsExchange_exec hc t E hv hi v s
  refine ⟨by rw [hx.1, (AtomicsLoad_exec hc t E hv hi s).1],
    type.interpret (type.pattern v), ?_,
    MachineType.interpret_inRange type _ (MachineType.pattern_lt type v), ?_⟩
  · rw [(AtomicsLoad_exec hc t E hv hi _).1, hx.2, elementBits_writeBytes,
      Nat.mod_eq_of_lt (MachineType.pattern_lt type v)]
  · rw [MachineType.interpret_mod, MachineType.pattern_mod]

/-- Witness of `exchange_returns_prior_and_stores`: a `BigInt64` view on a
32-bit target. -/
theorem exchange_returns_prior_and_stores_witness :
    v8ElementsKinds.WellFormed ∧
    ValidView ia32 (exampleView .BIGINT64_ELEMENTS) ⟨.kWord64, true⟩ ∧
    3 < (exampleView .BIGINT64_ELEMENTS).length ∧
    (AtomicsExchange v8ElementsKinds ia32 noExternal
        (.TypedArray (exampleView .BIGINT64_ELEMENTS)) (.Smi (3 : Nat))
        ((⟨.kWord64, true⟩ : MachineType).tagged (-5)) onesState).1 =
      (AtomicsLoad v8ElementsKinds ia32 noExternal
        (.TypedArray (exampleView .BIGINT64_ELEMENTS)) (.Smi (3 : Nat)) onesState).1 :=
  ⟨v8ElementsKinds_wellFormed, ⟨rfl, rfl, rfl, by decide, by decide⟩, by decide,
    (exchange_returns_prior_and_stores v8ElementsKinds v8ElementsKinds_wellFormed ia32
      noExternal (exampleView .BIGINT64_ELEMENTS) ⟨.kWord64, true⟩
      ⟨rfl, rfl, rfl, by decide, by decide⟩ 3 (by decide) (-5) onesState).1⟩

/-- C7 (as stated, refuted): an `Int8` cell holds the pattern `0xFF`, which
`Load` reports as `-1`; `CompareExchange(255, 0)` returns `-1`, which is not
the expected `255`, and yet it has stored the replacement: the next `Load`
returns `0`. -/
theorem compareExchange_stores_though_values_differ :
    (AtomicsLoad v8ElementsKinds x64 noExternal (.TypedArray (exampleView .INT8_ELEMENTS))
      (.Smi 0) onesState).1 = .ok (.Smi (-1)) ∧
    (AtomicsCompareExchange v8ElementsKinds x64 noExternal
      (.TypedArray (exampleView .INT8_ELEMENTS)) (.Smi 0) (.Smi 255) (.Smi 0) onesState).1 =
      .ok (.Smi (-1)) ∧
    (Object.Smi (-1) ≠ Object.Smi 255) ∧
    (AtomicsLoad v8ElementsKinds x64 noExternal (.TypedArray (exampleView .INT8_ELEMENTS))
      (.Smi 0)
      (AtomicsCompareExchange v8ElementsKinds x64 noExternal
        (.TypedArray (exampleView .INT8_ELEMENTS)) (.Smi 0) (.Smi 255) (.Smi 0)
        onesState).2).1 = .ok (.Smi 0) :=
  ⟨rfl, rfl, by decide, rfl⟩

/-- C7 (amended): on a valid view at an in-bounds index,
`CompareExchange(expected, replacement)` always returns the prior value of the
cell, as a `Load` before the call returns it; it stores `replacement`, truncated
to the width `w` of the kind, if and only if the prior value is congruent to
`expected` modulo `2^w`, and otherwise leaves the memory unchanged. -/
theorem compareExchange_returns_prior (c : ElementsKindEnum) (hc : c.WellFormed)
    (t : Target) (E : External) (array : JSTypedArray) (type : MachineType)
    (hv : ValidView t array type) (i : Nat) (hi : i < array.length)
    (expected replacement : Int) (s : State) :
    (AtomicsCompareExchange c t E (.TypedArray array) (.Smi i) (type.tagged expected)
        (type.tagged replacement) s).1 =
      (AtomicsLoad c t E (.TypedArray array) (.Smi i) s).1 ∧
    (AtomicsLoad c t E (.TypedArray array) (.Smi i) s).1 =
      .ok (type.tagged (type.interpret (elementBits t array type i s.mem))) ∧
    (AtomicsCompareExchange c t E (.TypedArray array) (.Smi i) (type.tagged expected)
        (type.tagged replacement) s).2.mem =
      if type.interpret (elementBits t array type i s.mem) % 2 ^ type.bits =
          expected % 2 ^ type.bits then
        writeBytes s.mem (elementAddress t array type i) type.representation.size
          (type.pattern replacement)
      else s.mem := by
  have hx := AtomicsCompareExchange_exec hc t E hv hi expected replacement s
  have hl := (AtomicsLoad_exec hc t E hv hi s).1
  refine ⟨by rw [hx.1, hl], hl, ?_⟩
  rw [hx.2]
  by_cases h : elementBits t array type i s.mem = type.pattern expected
  · rw [if_pos h, if_pos ((MachineType.eq_pattern_iff type _ _
      (elementBits_lt t array type i s.mem)).mp h)]
  · rw [if_neg h, if_neg (fun h' => h ((MachineType.eq_pattern_iff type _ _
      (elementBits_lt t array type i s.mem)).mpr h'))]

/-- Witness of `compareExchange_returns_prior`: an `Int8` view. -/
theorem compareExchange_returns_prior_witness :
    v8ElementsKinds.WellFormed ∧
    ValidView x64 (exampleView .INT8_ELEMENTS) MachineType.Int8 ∧
    0 < (exampleView .INT8_ELEMENTS).length ∧
    (AtomicsCompareExchange v8ElementsKinds x64 noExternal
        (.TypedArray (exampleView .INT8_ELEMENTS)) (.Smi (0 : Nat))
        (MachineType.Int8.tagged 255) (MachineType.Int8.tagged 0) onesState).1 =
      (AtomicsLoad v8ElementsKinds x64 noExternal
        (.TypedArray (exampleView .INT8_ELEMENTS)) (.Smi (0 : Nat)) onesState).1 :=
  ⟨v8ElementsKinds_wellFormed, ⟨rfl, rfl, rfl, by decide, by decide⟩, by decide,
    (compareExchange_returns_prior v8ElementsKinds v8ElementsKinds_wellFormed x64
      noExternal (exampleView .INT8_ELEMENTS) MachineType.Int8
      ⟨rfl, rfl, rfl, by decide, by decide⟩ 0 (by decide) 255 0 onesState).1⟩

/-- C8: for every operator among Add, Sub, And, Or, Xor, on a valid view of
element width `w` at an in-bounds index, when the cell holds the pattern `x`,
`Fetch<op>(v)` returns `x` in the signed or unsigned reading of the kind and
leaves the cell holding `(x + v) mod 2^w` for Add, `(x - v) mod 2^w` for Sub,
and the bitwise and, or, xor of `x` with the `w`-bit pattern of `v` for And,
Or, Xor. -/
theorem fetch_returns_prior_and_combines (op : BinaryOperation) (c : ElementsKindEnum)
    (hc : c.WellFormed) (t : Target) (E : External) (array : JSTypedArray)
    (type : MachineType) (hv : ValidView t array type) (i : Nat)
    (hi : i < array.length) (v : Int) (s : State) :
    (AtomicsBinop op c t E (.TypedArray array) (.Smi i) (type.tagged v) s).1 =
      .ok (type.tagged (type.interpret (elementBits t array type i s.mem))) ∧
    elementBits t array type i
        (AtomicsBinop op c t E (.TypedArray array) (.Smi i) (type.tagged v) s).2.mem =
      match op with
      | .Add => (((elementBits t array type i s.mem : Nat) : Int) + v) % 2 ^ type.bits |>.toNat
      | .Sub => (((elementBits t array type i s.mem : Nat) : Int) - v) % 2 ^ type.bits |>.toNat
      | .And => elementBits t array type i s.mem &&& type.pattern v
      | .Or => elementBits t array type i s.mem ||| type.pattern v
      | .Xor => elementBits t array type i s.mem ^^^ type.pattern v := by
  have hx := AtomicsBinop_exec hc t E hv hi op v s
  refine ⟨hx.1, ?_⟩
  rw [hx.2, elementBits_writeBytes]
  exact BinaryOperation.apply_mod op type _ (elementBits_lt t array type i s.mem) v

/-- Witness of `fetch_returns_prior_and_combines`: `Sub` on a `Uint16` view of
a target that calls the runtime. -/
theorem fetch_returns_prior_and_combines_witness :
    v8ElementsKinds.WellFormed ∧
    ValidView mips (exampleView .UINT16_ELEMENTS) MachineType.Uint16 ∧
    2 < (exampleView .UINT16_ELEMENTS).length ∧
    (AtomicsBinop .Sub v8ElementsKinds mips noExternal
        (.TypedArray (exampleView .UINT16_ELEMENTS)) (.Smi (2 : Nat))
        (MachineType.Uint16.tagged 1) zeroState).1 =
      .ok (MachineType.Uint16.tagged (MachineType.Uint16.interpret
        (elementBits mips (exampleView .UINT16_ELEMENTS) MachineType.Uint16 2
          zeroState.mem))) :=
  ⟨v8ElementsKinds_wellFormed, ⟨rfl, rfl, rfl, by decide, by decide⟩, by decide,
    (fetch_returns_prior_and_combines .Sub v8ElementsKinds v8ElementsKinds_wellFormed mips
      noExternal (exampleView .UINT16_ELEMENTS) MachineType.Uint16
      ⟨rfl, rfl, rfl, by decide, by decide⟩ 2 (by decide) 1 zeroState).1⟩

/-- C9: on an `Int64` view for every wide integer `v` in `[-2^63, 2^63)` and on
a `Uint64` view for every `v` in `[0, 2^64)`, `Store(v)` followed by `Load` at
the same in-bounds index returns exactly `v`, on targets with 64-bit words and
on targets that handle the value as a low/high pair of 32-bit words alike. -/
theorem store_load_wide (c : ElementsKindEnum) (hc : c.WellFormed) (t : Target)
    (E : External) (array : JSTypedArray) (type : MachineType)
    (hv : ValidView t array type) (hw : type.representation = .kWord64) (i : Nat)
    (hi : i < array.length) (v : Int) (hr : type.InRange v) (s : State) :
    (AtomicsStore c t E (.TypedArray array) (.Smi i) (.BigInt v) s).1 = .ok (.BigInt v) ∧
    (AtomicsLoad c t E (.TypedArray array) (.Smi i)
      (AtomicsStore c t E (.TypedArray array) (.Smi i) (.BigInt v) s).2).1 =
      .ok (.BigInt v) := by
  have hx := AtomicsStore_exec hc t E hv hi v s
  rw [MachineType.tagged_wide type v hw] at hx
  refine ⟨hx.1, ?_⟩
  rw [(AtomicsLoad_exec hc t E hv hi _).1, hx.2, elementBits_writeBytes,
    Nat.mod_eq_of_lt (MachineType.pattern_lt type v), MachineType.interpret_pattern type v hr,
    MachineType.tagged_wide type v hw]

/-- Witness of `store_load_wide`: a value with both halves non-zero on a
`BigUint64` view of a 32-bit target. -/
theorem store_load_wide_witness :
    v8ElementsKinds.WellFormed ∧
    ValidView ia32 (exampleView .BIGUINT64_ELEMENTS) MachineType.Uint64 ∧
    MachineType.Uint64.representation = .kWord64 ∧
    1 < (exampleView .BIGUINT64_ELEMENTS).length ∧
    MachineType.Uint64.InRange (2 ^ 63 + 5) ∧
    (AtomicsStore v8ElementsKinds ia32 noExternal
        (.TypedArray (exampleView .BIGUINT64_ELEMENTS)) (.Smi (1 : Nat))
        (.BigInt (2 ^ 63 + 5)) zeroState).1 = .ok (.BigInt (2 ^ 63 + 5)) ∧
    (AtomicsLoad v8ElementsKinds ia32 noExternal
      (.TypedArray (exampleView .BIGUINT64_ELEMENTS)) (.Smi (1 : Nat))
      (AtomicsStore v8ElementsKinds ia32 noExternal
        (.TypedArray (exampleView .BIGUINT64_ELEMENTS)) (.Smi (1 : Nat))
        (.BigInt (2 ^ 63 + 5)) zeroState).2).1 = .ok (.BigInt (2 ^ 63 + 5)) :=
  ⟨v8ElementsKinds_wellFormed, ⟨rfl, rfl, rfl, by decide, by decide⟩, rfl, by decide,
    by decide,
    store_load_wide v8ElementsKinds v8ElementsKinds_wellFormed ia32 noExternal
      (exampleView .BIGUINT64_ELEMENTS) MachineType.Uint64
      ⟨rfl, rfl, rfl, by decide, by decide⟩ rfl 1 (by decide) (2 ^ 63 + 5) (by decide)
      zeroState⟩

/-- C10 (as stated, refuted): on an `Int8` view whose cell holds 0, after 128
sequential calls of `FetchAdd(1)` a `Load` returns `-128`, not `128`. -/
theorem fetchAdd_128_times_on_int8 :
    elementBits x64 (exampleView .INT8_ELEMENTS) MachineType.Int8 0 zeroState.mem = 0 ∧
    (AtomicsLoad v8ElementsKinds x64 noExternal (.TypedArray (exampleView .INT8_ELEMENTS))
      (.Smi 0)
      (repeatAtomicsAdd v8ElementsKinds x64 noExternal
        (.TypedArray (exampleView .INT8_ELEMENTS)) (.Smi 0) (.Smi 1) 128 zeroState).2).1 =
      .ok (.Smi (-128)) ∧
    Object.Smi (-128) ≠ Object.Smi 128 := by
  have hv : ValidView x64 (exampleView .INT8_ELEMENTS) MachineType.Int8 :=
    ⟨rfl, rfl, rfl, by decide, by decide⟩
  have hi : 0 < (exampleView .INT8_ELEMENTS).length := by decide
  have h := (repeatAtomicsAdd_spec v8ElementsKinds_wellFormed x64 noExternal hv hi 128
    zeroState).1
  have hl := (AtomicsLoad_exec v8ElementsKinds_wellFormed x64 noExternal hv hi
    (repeatAtomicsAdd v8ElementsKinds x64 noExternal
      (.TypedArray (exampleView .INT8_ELEMENTS)) (.Smi ((0 : Nat) : Int))
      (MachineType.Int8.tagged 1) 128 zeroState).2).1
  rw [h] at hl
  exact ⟨rfl, hl, by decide⟩

/-- C10 (amended): on a valid view at an in-bounds index, starting from a cell
holding 0, `N` sequential calls of `FetchAdd(1)` with `N` within the range of
the kind (`N < 2^(w-1)` for a signed kind of width `w`, `N < 2^w` for an
unsigned one) leave the cell holding `N`, as read by `Load`, and the `k`-th
call returns `k - 1`: no update is lost. -/
theorem fetchAdd_counts (c : ElementsKindEnum) (hc : c.WellFormed) (t : Target)
    (E : External) (array : JSTypedArray) (type : MachineType)
    (hv : ValidView t array type) (i : Nat) (hi : i < array.length) (s : State)
    (h0 : elementBits t array type i s.mem = 0) (N : Nat) (hN : type.InRange N) :
    (AtomicsLoad c t E (.TypedArray array) (.Smi i)
      (repeatAtomicsAdd c t E (.TypedArray array) (.Smi i) (type.tagged 1) N s).2).1 =
      .ok (type.tagged N) ∧
    ∀ k, k < N →
      (repeatAtomicsAdd c t E (.TypedArray array) (.Smi i) (type.tagged 1) N s).1[k]? =
        some (.ok (type.tagged k)) := by
  have h := repeatAtomicsAdd_spec hc t E hv hi N s
  rw [h0] at h
  have hlt : ∀ k, k ≤ N → k < 2 ^ type.bits ∧ type.interpret k = k := by
    intro k hk
    obtain ⟨rep, sg⟩ := type
    cases rep <;> cases sg <;>
      simp [MachineType.InRange, MachineType.interpret, MachineType.bits,
        MachineRepresentation.size] at hN ⊢ <;>
      omega
  refine ⟨?_, ?_⟩
  · rw [(AtomicsLoad_exec hc t E hv hi _).1, h.1, Nat.zero_add,
      Nat.mod_eq_of_lt (hlt N le_rfl).1, (hlt N le_rfl).2]
  · intro k hk
    rw [h.2, List.getElem?_map, List.getElem?_range hk]
    simp only [Option.map_some', Nat.zero_add]
    rw [Nat.mod_eq_of_lt (hlt k hk.le).1, (hlt k hk.le).2]

/-- Witness of `fetchAdd_counts`: 100 calls on an `Int8` view. -/
theorem fetchAdd_counts_witness :
    v8ElementsKinds.WellFormed ∧
    ValidView x64 (exampleView .INT8_ELEMENTS) MachineType.Int8 ∧
    0 < (exampleView .INT8_ELEMENTS).length ∧
    elementBits x64 (exampleView .INT8_ELEMENTS) MachineType.Int8 0 zeroState.mem = 0 ∧
    MachineType.Int8.InRange (100 : Nat) ∧
    (AtomicsLoad v8ElementsKinds x64 noExternal (.TypedArray (exampleView .INT8_ELEMENTS))
      (.Smi (0 : Nat))
      (repeatAtomicsAdd v8ElementsKinds x64 noExternal
        (.TypedArray (exampleView .INT8_ELEMENTS)) (.Smi (0 : Nat))
        (MachineType.Int8.tagged 1) 100 zeroState).2).1 =
      .ok (MachineType.Int8.tagged (100 : Nat)) :=
  ⟨v8ElementsKinds_wellFormed, ⟨rfl, rfl, rfl, by decide, by decide⟩, by decide, rfl,
    by decide,
    (fetchAdd_counts v8ElementsKinds v8ElementsKinds_wellFormed x64 noExternal
      (exampleView .INT8_ELEMENTS) MachineType.Int8 ⟨rfl, rfl, rfl, by decide, by decide⟩
      0 (by decide) zeroState rfl 100 (by decide)).1⟩

/-- C11: on a valid view of a kind of width `w ≤ 32` whose addressed cell holds
the `w`-bit pattern `b`, `Load` returns the sign-extension of `b` for a signed
kind, a value in `[-2^(w-1), 2^(w-1))`, and the zero-extension of `b` for an
unsigned kind, a value in `[0, 2^w)`; in both cases the result is congruent to
`b` modulo `2^w`. -/
theorem load_extends_pattern (c : ElementsKindEnum) (hc : c.WellFormed) (t : Target)
    (E : External) (array : JSTypedArray) (type : MachineType)
    (hv : ValidView t array type) (hn : type.representation ≠ .kWord64) (i : Nat)
    (hi : i < array.length) (s : State) (b : Nat)
    (hb : elementBits t array type i s.mem = b) :
    type.bits ≤ 32 ∧ b < 2 ^ type.bits ∧
    ∃ x : Int,
      (AtomicsLoad c t E (.TypedArray array) (.Smi i) s).1 = .ok (.Smi x) ∧
      (type.isSigned = true →
        x = (if b < 2 ^ (type.bits - 1) then (b : Int) else (b : Int) - 2 ^ type.bits) ∧
        -(2 : Int) ^ (type.bits - 1) ≤ x ∧ x < 2 ^ (type.bits - 1)) ∧
      (type.isSigned = false → x = (b : Int) ∧ 0 ≤ x ∧ x < 2 ^ type.bits) ∧
      x % 2 ^ type.bits = (b : Int) % 2 ^ type.bits := by
  have hlt := elementBits_lt t array type i s.mem
  have hl := (AtomicsLoad_exec hc t E hv hi s).1
  have hr := MachineType.interpret_inRange type _ hlt
  have hm := MachineType.interpret_mod type (elementBits t array type i s.mem)
  rw [MachineType.tagged_narrow type _ hn] at hl
  rw [hb] at hlt hl hr hm
  refine ⟨?_, hlt, type.interpret b, hl, ?_, ?_, hm⟩
  · obtain ⟨rep, sg⟩ := type
    cases rep <;> simp [MachineType.bits, MachineRepresentation.size] at hn ⊢
  · intro hs
    simp only [MachineType.InRange, hs, if_true] at hr
    exact ⟨by simp only [MachineType.interpret, hs, if_true], hr⟩
  · intro hs
    simp only [MachineType.InRange, hs, Bool.false_eq_true, if_false] at hr
    exact ⟨by simp only [MachineType.interpret, hs, Bool.false_eq_true, if_false], hr⟩

/-- Witness of `load_extends_pattern`: an `Int8` cell holding `0xFF` is loaded
as `-1`. -/
theorem load_extends_pattern_witness :
    v8ElementsKinds.WellFormed ∧
    ValidView x64 (exampleView .INT8_ELEMENTS) MachineType.Int8 ∧
    MachineType.Int8.representation ≠ .kWord64 ∧
    0 < (exampleView .INT8_ELEMENTS).length ∧
    elementBits x64 (exampleView .INT8_ELEMENTS) MachineType.Int8 0 onesState.mem = 255 ∧
    ∃ x : Int,
      (AtomicsLoad v8ElementsKinds x64 noExternal (.TypedArray (exampleView .INT8_ELEMENTS))
        (.Smi (0 : Nat)) onesState).1 = .ok (.Smi x) ∧
      (MachineType.Int8.isSigned = true →
        x = (if 255 < 2 ^ (MachineType.Int8.bits - 1) then ((255 : Nat) : Int)
          else ((255 : Nat) : Int) - 2 ^ MachineType.Int8.bits) ∧
        -(2 : Int) ^ (MachineType.Int8.bits - 1) ≤ x ∧
        x < 2 ^ (MachineType.Int8.bits - 1)) ∧
      (MachineType.Int8.isSigned = false →
        x = ((255 : Nat) : Int) ∧ 0 ≤ x ∧ x < 2 ^ MachineType.Int8.bits) ∧
      x % 2 ^ MachineType.Int8.bits = ((255 : Nat) : Int) % 2 ^ MachineType.Int8.bits :=
  ⟨v8ElementsKinds_wellFormed, ⟨rfl, rfl, rfl, by decide, by decide⟩, by decide, by decide,
    rfl,
    (load_extends_pattern v8ElementsKinds v8ElementsKinds_wellFormed x64 noExternal
      (exampleView .INT8_ELEMENTS) MachineType.Int8 ⟨rfl, rfl, rfl, by decide, by decide⟩
      (by decide) 0 (by decide) onesState 255 rfl).2.2⟩

/-- C12: a `BigInt64` view and a `BigUint64` view over the same cell, which holds
the 64-bit pattern `b`, and an operation with wide-integer operands: both views
perform the same one atomic access, of the same address and size, and leave the
same memory; `Load`, `Exchange`, `CompareExchange` and `Fetch<op>` return `b`
itself, a value in `[0, 2^64)`, on the `BigUint64` view and `b` read as two's
complement, a value in `[-2^63, 2^63)`, on the `BigInt64` view, and both
results are congruent modulo `2^64`. -/
theorem wide_paths_differ_in_reinterpretation (c : ElementsKindEnum) (hc : c.WellFormed)
    (t : Target) (E : External) (arrayS arrayU : JSTypedArray)
    (hS : ValidView t arrayS ⟨.kWord64, true⟩) (hU : ValidView t arrayU ⟨.kWord64, false⟩)
    (hbuf : arrayU.buffer = arrayS.buffer) (hoff : arrayU.byte_offset = arrayS.byte_offset)
    (i : Nat) (hiS : i < arrayS.length) (hiU : i < arrayU.length) (op : Operation)
    (hops : ∀ o ∈ op.operands, ∃ v : Int, o = .BigInt v) (s : State) (b : Nat)
    (hb : elementBits t arrayS ⟨.kWord64, true⟩ i s.mem = b) :
    b < 2 ^ 64 ∧
    elementBits t arrayU ⟨.kWord64, false⟩ i s.mem = b ∧
    atomicAccesses (op.run c t E (.TypedArray arrayS) (.Smi i) s).2.trace =
      atomicAccesses s.trace ++ [(elementAddress t arrayS ⟨.kWord64, true⟩ i, 8)] ∧
    atomicAccesses (op.run c t E (.TypedArray arrayU) (.Smi i) s).2.trace =
      atomicAccesses (op.run c t E (.TypedArray arrayS) (.Smi i) s).2.trace ∧
    (op.run c t E (.TypedArray arrayU) (.Smi i) s).2.mem =
      (op.run c t E (.TypedArray arrayS) (.Smi i) s).2.mem ∧
    ((∀ value, op ≠ .Store value) →
      (op.run c t E (.TypedArray arrayU) (.Smi i) s).1 = .ok (.BigInt (b : Int)) ∧
      (op.run c t E (.TypedArray arrayS) (.Smi i) s).1 =
        .ok (.BigInt (if b < 2 ^ 63 then (b : Int) else (b : Int) - 2 ^ 64))) ∧
    (0 ≤ (b : Int) ∧ (b : Int) < 2 ^ 64) ∧
    (-(2 : Int) ^ 63 ≤ (if b < 2 ^ 63 then (b : Int) else (b : Int) - 2 ^ 64) ∧
      (if b < 2 ^ 63 then (b : Int) else (b : Int) - 2 ^ 64) < 2 ^ 63) ∧
    (if b < 2 ^ 63 then (b : Int) else (b : Int) - 2 ^ 64) % 2 ^ 64 = (b : Int) % 2 ^ 64 := by
  have hlt : b < 2 ^ 64 := by
    rw [← hb]
    exact elementBits_lt t arrayS ⟨.kWord64, true⟩ i s.mem
  have hA : elementAddress t arrayU ⟨.kWord64, false⟩ i =
      elementAddress t arrayS ⟨.kWord64, true⟩ i := by
    simp only [elementAddress, hbuf, hoff]
  have hB : ∀ m, elementBits t arrayU ⟨.kWord64, false⟩ i m =
      elementBits t arrayS ⟨.kWord64, true⟩ i m := by
    intro m
    simp only [elementBits, hA]
  have hxS := ToIndex_smi E i (lt_of_lt_of_le hiS hS.length_le) s
  have hrS := Operation.run_eq_execute hc t E hS hxS hiS op
  have hrU := Operation.run_eq_execute hc t E hU hxS hiU op
  have hiS' : (MachineType.mk .kWord64 true).interpret b =
      if b < 2 ^ 63 then (b : Int) else (b : Int) - 2 ^ 64 := by
    simp [MachineType.interpret, MachineType.bits, MachineRepresentation.size]
  have hiU' : (MachineType.mk .kWord64 false).interpret b = (b : Int) := by
    simp [MachineType.interpret]
  have hok : ∃ r, (op.run c t E (.TypedArray arrayS) (.Smi i) s).1 = .ok r ∧
      ∃ r', (op.run c t E (.TypedArray arrayU) (.Smi i) s).1 = .ok r' := by
    cases op with
    | Load =>
      exact ⟨_, (AtomicsLoad_exec hc t E hS hiS s).1, _, (AtomicsLoad_exec hc t E hU hiU s).1⟩
    | Store value =>
      obtain ⟨v, rfl⟩ := hops value (by simp [Operation.operands])
      exact ⟨_, (AtomicsStore_exec hc t E hS hiS v s).1, _,
        (AtomicsStore_exec hc t E hU hiU v s).1⟩
    | Exchange value =>
      obtain ⟨v, rfl⟩ := hops value (by simp [Operation.operands])
      exact ⟨_, (AtomicsExchange_exec hc t E hS hiS v s).1, _,
        (AtomicsExchange_exec hc t E hU hiU v s).1⟩
    | CompareExchange expected replacement =>
      obtain ⟨v, rfl⟩ := hops expected (by simp [Operation.operands])
      obtain ⟨w, rfl⟩ := hops replacement (by simp [Operation.operands])
      exact ⟨_, (AtomicsCompareExchange_exec hc t E hS hiS v w s).1, _,
        (AtomicsCompareExchange_exec hc t E hU hiU v w s).1⟩
    | Fetch bop value =>
      obtain ⟨v, rfl⟩ := hops value (by simp [Operation.operands])
      exact ⟨_, (AtomicsBinop_exec hc t E hS hiS bop v s).1, _,
        (AtomicsBinop_exec hc t E hU hiU bop v s).1⟩
  obtain ⟨r, hr, r', hr'⟩ := hok
  have haS : atomicAccesses (op.run c t E (.TypedArray arrayS) (.Smi i) s).2.trace =
      atomicAccesses s.trace ++ [(elementAddress t arrayS ⟨.kWord64, true⟩ i, 8)] := by
    have h := (execute_atomicAccesses t E arrayS ⟨.kWord64, true⟩ i op _).1 r
      (by rw [← hrS]; exact hr)
    rw [hrS, h]
    simp [State.log, atomicAccesses_append, atomicAccesses, MachineRepresentation.size]
  have haU : atomicAccesses (op.run c t E (.TypedArray arrayU) (.Smi i) s).2.trace =
      atomicAccesses s.trace ++ [(elementAddress t arrayS ⟨.kWord64, true⟩ i, 8)] := by
    have h := (execute_atomicAccesses t E arrayU ⟨.kWord64, false⟩ i op _).1 r'
      (by rw [← hrU]; exact hr')
    rw [hrU, h, hA]
    simp [State.log, atomicAccesses_append, atomicAccesses, MachineRepresentation.size]
  refine ⟨hlt, by rw [hB, hb], haS, by rw [haU, haS], ?_, ?_, ⟨by omega, by exact_mod_cast hlt⟩,
    ?_, ?_⟩
  · cases op with
    | Load =>
      exact ((AtomicsLoad_exec hc t E hU hiU s).2).trans (AtomicsLoad_exec hc t E hS hiS s).2.symm
    | Store value =>
      obtain ⟨v, rfl⟩ := hops value (by simp [Operation.operands])
      have h1 := (AtomicsStore_exec hc t E hS hiS v s).2
      have h2 := (AtomicsStore_exec hc t E hU hiU v s).2
      rw [hA] at h2
      exact h2.trans h1.symm
    | Exchange value =>
      obtain ⟨v, rfl⟩ := hops value (by simp [Operation.operands])
      have h1 := (AtomicsExchange_exec hc t E hS hiS v s).2
      have h2 := (AtomicsExchange_exec hc t E hU hiU v s).2
      rw [hA] at h2
      exact h2.trans h1.symm
    | CompareExchange expected replacement =>
      obtain ⟨v, rfl⟩ := hops expected (by simp [Operation.operands])
      obtain ⟨w, rfl⟩ := hops replacement (by simp [Operation.operands])
      have h1 := (AtomicsCompareExchange_exec hc t E hS hiS v w s).2
      have h2 := (AtomicsCompareExchange_exec hc t E hU hiU v w s).2
      rw [hA, hB] at h2
      exact h2.trans h1.symm
    | Fetch bop value =>
      obtain ⟨v, rfl⟩ := hops value (by simp [Operation.operands])
      have h1 := (AtomicsBinop_exec hc t E hS hiS bop v s).2
      have h2 := (AtomicsBinop_exec hc t E hU hiU bop v s).2
      rw [hA, hB] at h2
      exact h2.trans h1.symm
  · intro hns
    cases op with
    | Load =>
      have h1 := (AtomicsLoad_exec hc t E hS hiS s).1
      have h2 := (AtomicsLoad_exec hc t E hU hiU s).1
      rw [hB, hb, hiU'] at h2
      rw [hb, hiS'] at h1
      exact ⟨h2, h1⟩
    | Store value => exact absurd rfl (hns value)
    | Exchange value =>
      obtain ⟨v, rfl⟩ := hops value (by simp [Operation.operands])
      have h1 := (AtomicsExchange_exec hc t E hS hiS v s).1
      have h2 := (AtomicsExchange_exec hc t E hU hiU v s).1
      rw [hB, hb, hiU'] at h2
      rw [hb, hiS'] at h1
      exact ⟨h2, h1⟩
    | CompareExchange expected replacement =>
      obtain ⟨v, rfl⟩ := hops expected (by simp [Operation.operands])
      obtain ⟨w, rfl⟩ := hops replacement (by simp [Operation.operands])
      have h1 := (AtomicsCompareExchange_exec hc t E hS hiS v w s).1
      have h2 := (AtomicsCompareExchange_exec hc t E hU hiU v w s).1
      rw [hB, hb, hiU'] at h2
      rw [hb, hiS'] at h1
      exact ⟨h2, h1⟩
    | Fetch bop value =>
      obtain ⟨v, rfl⟩ := hops value (by simp [Operation.operands])
      have h1 := (AtomicsBinop_exec hc t E hS hiS bop v s).1
      have h2 := (AtomicsBinop_exec hc t E hU hiU bop v s).1
      rw [hB, hb, hiU'] at h2
      rw [hb, hiS'] at h1
      exact ⟨h2, h1⟩
  · split_ifs <;> constructor <;> omega
  · split_ifs <;> omega

/-- Witness of `wide_paths_differ_in_reinterpretation`: `FetchAdd(1)` on a cell
of all ones, on a 32-bit target. -/
theorem wide_paths_differ_in_reinterpretation_witness :
    v8ElementsKinds.WellFormed ∧
    ValidView ia32 (exampleView .BIGINT64_ELEMENTS) ⟨.kWord64, true⟩ ∧
    ValidView ia32 (exampleView .BIGUINT64_ELEMENTS) ⟨.kWord64, false⟩ ∧
    (exampleView .BIGUINT64_ELEMENTS).buffer = (exampleView .BIGINT64_ELEMENTS).buffer ∧
    (exampleView .BIGUINT64_ELEMENTS).byte_offset =
      (exampleView .BIGINT64_ELEMENTS).byte_offset ∧
    1 < (exampleView .BIGINT64_ELEMENTS).length ∧
    1 < (exampleView .BIGUINT64_ELEMENTS).length ∧
    (∀ o ∈ (Operation.Fetch .Add (.BigInt 1)).operands, ∃ v : Int, o = .BigInt v) ∧
    elementBits ia32 (exampleView .BIGINT64_ELEMENTS) ⟨.kWord64, true⟩ 1 onesState.mem =
      2 ^ 64 - 1 ∧
    ((Operation.Fetch .Add (.BigInt 1)).run v8ElementsKinds ia32 noExternal
        (.TypedArray (exampleView .BIGUINT64_ELEMENTS)) (.Smi 1) onesState).2.mem =
      ((Operation.Fetch .Add (.BigInt 1)).run v8ElementsKinds ia32 noExternal
        (.TypedArray (exampleView .BIGINT64_ELEMENTS)) (.Smi 1) onesState).2.mem :=
  ⟨v8ElementsKinds_wellFormed, ⟨rfl, rfl, rfl, by decide, by decide⟩,
    ⟨rfl, rfl, rfl, by decide, by decide⟩, rfl, rfl, by decide, by decide,
    fun o ho => ⟨1, by simpa [Operation.operands] using ho⟩, by decide,
    (wide_paths_differ_in_reinterpretation v8ElementsKinds v8ElementsKinds_wellFormed ia32
      noExternal (exampleView .BIGINT64_ELEMENTS) (exampleView .BIGUINT64_ELEMENTS)
      ⟨rfl, rfl, rfl, by decide, by decide⟩ ⟨rfl, rfl, rfl, by decide, by decide⟩ rfl rfl
      1 (by decide) (by decide) (.Fetch .Add (.BigInt 1))
      (fun o ho => ⟨1, by simpa [Operation.operands] using ho⟩) onesState (2 ^ 64 - 1)
      (by decide)).2.2.2.2.1⟩

/-- C13: on a valid view at an in-bounds index `i`, every operation that reaches
its atomic primitive performs exactly one access, of `2^k` bytes, at the byte
address `(backing store + byte offset) + (i << k)`, where `k` is 0 for
`Int8`/`Uint8`, 1 for `Int16`/`Uint16`, 2 for `Int32`/`Uint32` and 3 for
`BigInt64`/`BigUint64`, the same for all operations.  In machine words that
address is `((backing store + byte offset) mod 2^W + (i * 2^k) mod 2^W) mod 2^W`
for the word width `W`, and it is `backing store + byte offset + i * 2^k`
itself, the offset from the backing address of the view being
`i * elementSize`, whenever the view lies within the address space.  An
operation whose operand coercion fails performs no access. -/
theorem access_address (c : ElementsKindEnum) (hc : c.WellFormed) (t : Target)
    (E : External) (array : JSTypedArray) (type : MachineType)
    (hv : ValidView t array type) (index : Object) (i : Nat) (s s1 : State)
    (hx : ToIndex E index s = (some i, s1)) (hi : i < array.length) :
    ∃ k : Nat,
      (array.elements_kind = .INT8_ELEMENTS ∨ array.elements_kind = .UINT8_ELEMENTS →
        k = 0) ∧
      (array.elements_kind = .INT16_ELEMENTS ∨ array.elements_kind = .UINT16_ELEMENTS →
        k = 1) ∧
      (array.elements_kind = .INT32_ELEMENTS ∨ array.elements_kind = .UINT32_ELEMENTS →
        k = 2) ∧
      (array.elements_kind = .BIGINT64_ELEMENTS ∨ array.elements_kind = .BIGUINT64_ELEMENTS →
        k = 3) ∧
      k ≤ 3 ∧ type.representation.size = 2 ^ k ∧
      WordShl t i k = i * type.representation.size % 2 ^ t.wordBits ∧
      (array.length * type.representation.size ≤ 2 ^ t.wordBits →
        WordShl t i k = i * type.representation.size) ∧
      RawPtrAdd t (RawPtrAdd t array.buffer.backing_store array.byte_offset)
          (WordShl t i k) =
        ((array.buffer.backing_store + array.byte_offset) % 2 ^ t.wordBits +
          i * 2 ^ k % 2 ^ t.wordBits) % 2 ^ t.wordBits ∧
      (array.buffer.backing_store + array.byte_offset + array.length * 2 ^ k ≤
          2 ^ t.wordBits →
        RawPtrAdd t (RawPtrAdd t array.buffer.backing_store array.byte_offset)
            (WordShl t i k) =
          array.buffer.backing_store + array.byte_offset + i * 2 ^ k) ∧
      ∀ op : Operation,
        (∀ r, (op.run c t E (.TypedArray array) index s).1 = .ok r →
          atomicAccesses (op.run c t E (.TypedArray array) index s).2.trace =
            atomicAccesses s.trace ++
              [(RawPtrAdd t (RawPtrAdd t array.buffer.backing_store array.byte_offset)
                  (WordShl t i k), 2 ^ k)]) ∧
        (∀ r, (op.run c t E (.TypedArray array) index s).1 = .ok r →
          atomicAccesses (op.run c t E (.TypedArray array) index s).2.trace =
            atomicAccesses s.trace ++
              [(((array.buffer.backing_store + array.byte_offset) % 2 ^ t.wordBits +
                  i * 2 ^ k % 2 ^ t.wordBits) % 2 ^ t.wordBits, 2 ^ k)]) ∧
        (∀ r, array.buffer.backing_store + array.byte_offset + array.length * 2 ^ k ≤
            2 ^ t.wordBits →
          (op.run c t E (.TypedArray array) index s).1 = .ok r →
          atomicAccesses (op.run c t E (.TypedArray array) index s).2.trace =
            atomicAccesses s.trace ++
              [(array.buffer.backing_store + array.byte_offset + i * 2 ^ k, 2 ^ k)]) ∧
        (∀ e, (op.run c t E (.TypedArray array) index s).1 = .error e →
          atomicAccesses (op.run c t E (.TypedArray array) index s).2.trace =
            atomicAccesses s.trace) := by
  have hk := hv.kind
  have hsz : type.representation.size = 2 ^ type.representation.sizeLog2 := by
    obtain ⟨rep, sg⟩ := type
    cases rep <;> rfl
  have hs1 : atomicAccesses s1.trace = atomicAccesses s.trace := by
    have h := ToIndex_trace E index s
    rw [hx] at h
    simp only [] at h
    rw [h, atomicAccesses_append]
    simp [atomicAccesses]
  have hword : RawPtrAdd t (RawPtrAdd t array.buffer.backing_store array.byte_offset)
        (WordShl t i type.representation.sizeLog2) =
      ((array.buffer.backing_store + array.byte_offset) % 2 ^ t.wordBits +
        i * 2 ^ type.representation.sizeLog2 % 2 ^ t.wordBits) % 2 ^ t.wordBits := by
    simp only [RawPtrAdd, WordShl]
  have hexact : array.buffer.backing_store + array.byte_offset +
        array.length * 2 ^ type.representation.sizeLog2 ≤ 2 ^ t.wordBits →
      RawPtrAdd t (RawPtrAdd t array.buffer.backing_store array.byte_offset)
          (WordShl t i type.representation.sizeLog2) =
        array.buffer.backing_store + array.byte_offset +
          i * 2 ^ type.representation.sizeLog2 := by
    intro hfit
    have h := elementAddress_exact t array type i hi (by rw [hsz]; exact hfit)
    rw [hsz] at h
    exact h
  have hacc : ∀ op : Operation, ∀ r,
      (op.run c t E (.TypedArray array) index s).1 = .ok r →
      atomicAccesses (op.run c t E (.TypedArray array) index s).2.trace =
        atomicAccesses s.trace ++
          [(RawPtrAdd t (RawPtrAdd t array.buffer.backing_store array.byte_offset)
              (WordShl t i type.representation.sizeLog2),
            2 ^ type.representation.sizeLog2)] := by
    intro op r hr
    rw [Operation.run_eq_execute hc t E hv hx hi op] at hr ⊢
    rw [(execute_atomicAccesses t E array type i op s1).1 r hr, hs1, ← hsz]
    rfl
  refine ⟨type.representation.sizeLog2, ?_, ?_, ?_, ?_, ?_, hsz, ?_, ?_, hword, hexact, ?_⟩
  · rintro (h | h) <;> rw [h] at hk <;> cases hk <;> rfl
  · rintro (h | h) <;> rw [h] at hk <;> cases hk <;> rfl
  · rintro (h | h) <;> rw [h] at hk <;> cases hk <;> rfl
  · rintro (h | h) <;> rw [h] at hk <;> cases hk <;> rfl
  · obtain ⟨rep, sg⟩ := type
    cases rep <;> simp [MachineRepresentation.sizeLog2]
  · rw [WordShl, ← hsz]
  · intro hfit
    rw [WordShl, ← hsz]
    apply Nat.mod_eq_of_lt
    have hpos : 0 < type.representation.size := by rw [hsz]; positivity
    calc i * type.representation.size
        < array.length * type.representation.size := Nat.mul_lt_mul_of_pos_right hi hpos
      _ ≤ 2 ^ t.wordBits := hfit
  · intro op
    refine ⟨hacc op, fun r hr => ?_, fun r hfit hr => ?_, fun e he => ?_⟩
    · rw [hacc op r hr, hword]
    · rw [hacc op r hr, hexact hfit]
    · rw [Operation.run_eq_execute hc t E hv hx hi op] at he ⊢
      rw [(execute_atomicAccesses t E array type i op s1).2 e he, hs1]

/-- Witness of `access_address`: every successful operation on element 3 of a
`BigInt64` view at `4096 + 16` on a 32-bit target accesses the 8 bytes at
`4096 + 16 + 3 * 8 = 4136`. -/
theorem access_address_witness :
    v8ElementsKinds.WellFormed ∧
    ValidView ia32 (exampleView .BIGINT64_ELEMENTS) ⟨.kWord64, true⟩ ∧
    ToIndex noExternal (.Smi 3) zeroState = (some 3, zeroState.log (.ToIndex (.Smi 3))) ∧
    3 < (exampleView .BIGINT64_ELEMENTS).length ∧
    (exampleView .BIGINT64_ELEMENTS).buffer.backing_store +
        (exampleView .BIGINT64_ELEMENTS).byte_offset +
        (exampleView .BIGINT64_ELEMENTS).length * 2 ^ 3 ≤ 2 ^ ia32.wordBits ∧
    ∀ (op : Operation) (r : Object),
      (op.run v8ElementsKinds ia32 noExternal
        (.TypedArray (exampleView .BIGINT64_ELEMENTS)) (.Smi 3) zeroState).1 = .ok r →
      atomicAccesses (op.run v8ElementsKinds ia32 noExternal
        (.TypedArray (exampleView .BIGINT64_ELEMENTS)) (.Smi 3) zeroState).2.trace =
        [(4136, 8)] :=
  ⟨v8ElementsKinds_wellFormed, ⟨rfl, rfl, rfl, by decide, by decide⟩, rfl, by decide,
    by decide,
    (access_address v8ElementsKinds v8ElementsKinds_wellFormed ia32 noExternal
      (exampleView .BIGINT64_ELEMENTS) ⟨.kWord64, true⟩
      ⟨rfl, rfl, rfl, by decide, by decide⟩ (.Smi 3) 3 zeroState
      (zeroState.log (.ToIndex (.Smi 3))) rfl (by decide)).elim
      (fun k h op r hr => by
        have hk : k = 3 := h.2.2.2.1 (Or.inl rfl)
        subst hk
        exact (h.2.2.2.2.2.2.2.2.2.2 op).2.2.1 r (by decide) hr)⟩

/-- C14: for a kind `ValidateSharedTypedArray` accepts, the eight-way `Switch` of
`Load` never takes its `other` branch; the test `elements_kind > INT32_ELEMENTS`
holds exactly for the two 64-bit kinds, for which one of the two equality tests
before `Unreachable()` succeeds, and fails exactly for the six narrow kinds,
for which the six-way `Switch` never takes its `other` branch; and, the buffer
being attached and the length a machine word, no operation at an index that
validation accepts ends in `Unreachable`: it runs the path of the width and
signedness of the kind. -/
theorem dispatch_covers_accepted_kinds (c : ElementsKindEnum) (hc : c.WellFormed)
    (t : Target) (array : JSTypedArray) (k : Int) (bs : Nat)
    (hacc : ValidateSharedTypedArray c t (.TypedArray array) = .ok (k, bs)) :
    Switch k .other
        [c.INT8_ELEMENTS, c.UINT8_ELEMENTS, c.INT16_ELEMENTS, c.UINT16_ELEMENTS,
          c.INT32_ELEMENTS, c.UINT32_ELEMENTS, c.BIGINT64_ELEMENTS, c.BIGUINT64_ELEMENTS]
        [.i8, .u8, .i16, .u16, .i32, .u32, .i64, .u64] ≠ .other ∧
    (k > c.INT32_ELEMENTS ↔
      array.elements_kind = .BIGINT64_ELEMENTS ∨
        array.elements_kind = .BIGUINT64_ELEMENTS) ∧
    (k > c.INT32_ELEMENTS → k = c.BIGINT64_ELEMENTS ∨ k = c.BIGUINT64_ELEMENTS) ∧
    (¬ k > c.INT32_ELEMENTS ↔
      array.elements_kind = .INT8_ELEMENTS ∨ array.elements_kind = .UINT8_ELEMENTS ∨
        array.elements_kind = .INT16_ELEMENTS ∨ array.elements_kind = .UINT16_ELEMENTS ∨
        array.elements_kind = .INT32_ELEMENTS ∨ array.elements_kind = .UINT32_ELEMENTS) ∧
    (¬ k > c.INT32_ELEMENTS →
      Switch k .other
          [c.INT8_ELEMENTS, c.UINT8_ELEMENTS, c.INT16_ELEMENTS, c.UINT16_ELEMENTS,
            c.INT32_ELEMENTS, c.UINT32_ELEMENTS]
          [.i8, .u8, .i16, .u16, .i32, .u32] ≠ .other ∧
        Switch k .other
          [c.INT8_ELEMENTS, c.UINT8_ELEMENTS, c.INT16_ELEMENTS, c.UINT16_ELEMENTS,
            c.INT32_ELEMENTS, c.UINT32_ELEMENTS]
          [.u8, .u8, .u16, .u16, .u32, .u32] ≠ .other) ∧
    ∃ type, array.elements_kind.machineType = some type ∧
      ∀ (E : External) (index : Object) (i : Nat) (s s1 : State) (op : Operation),
        array.buffer.was_detached = false → array.length ≤ 2 ^ 53 →
        array.length < 2 ^ t.wordBits → ToIndex E index s = (some i, s1) →
        i < array.length →
        op.run c t E (.TypedArray array) index s = execute t E array type i op s1 ∧
        (op.run c t E (.TypedArray array) index s).1 ≠ .error .Unreachable := by
  obtain ⟨hshared, rfl, -, type, hk⟩ := ValidateSharedTypedArray_accepts hc t array k bs hacc
  have hc' := hc
  obtain ⟨⟨-, -, -, -, -, -, -, -, w1, w2⟩, hinj, -, -, n1, n2, n3, n4, n5⟩ := hc
  have e8 : [c.INT8_ELEMENTS, c.UINT8_ELEMENTS, c.INT16_ELEMENTS, c.UINT16_ELEMENTS,
        c.INT32_ELEMENTS, c.UINT32_ELEMENTS, c.BIGINT64_ELEMENTS, c.BIGUINT64_ELEMENTS] =
      List.map c.value [.INT8_ELEMENTS, .UINT8_ELEMENTS, .INT16_ELEMENTS, .UINT16_ELEMENTS,
        .INT32_ELEMENTS, .UINT32_ELEMENTS, .BIGINT64_ELEMENTS, .BIGUINT64_ELEMENTS] := rfl
  have e6 : [c.INT8_ELEMENTS, c.UINT8_ELEMENTS, c.INT16_ELEMENTS, c.UINT16_ELEMENTS,
        c.INT32_ELEMENTS, c.UINT32_ELEMENTS] =
      List.map c.value [.INT8_ELEMENTS, .UINT8_ELEMENTS, .INT16_ELEMENTS, .UINT16_ELEMENTS,
        .INT32_ELEMENTS, .UINT32_ELEMENTS] := rfl
  rw [e8, e6, Switch_value hinj, Switch_value hinj, Switch_value hinj]
  refine ⟨?_, ?_, ?_, ?_, ?_, type, hk, ?_⟩
  · cases hkind : array.elements_kind <;>
      simp [hkind, ElementsKind.machineType] at hk <;> simp [SwitchKind]
  · cases hkind : array.elements_kind <;>
      simp [hkind, ElementsKind.machineType] at hk <;>
      simp [ElementsKindEnum.value] <;> omega
  · cases hkind : array.elements_kind <;>
      simp [hkind, ElementsKind.machineType] at hk <;>
      simp [ElementsKindEnum.value] <;> omega
  · cases hkind : array.elements_kind <;>
      simp [hkind, ElementsKind.machineType] at hk <;>
      simp [ElementsKindEnum.value] <;> omega
  · cases hkind : array.elements_kind <;>
      simp [hkind, ElementsKind.machineType] at hk <;>
      simp [ElementsKindEnum.value, SwitchKind] <;> omega
  · intro E index i s s1 op hd hl1 hl2 hx hi
    have hv : ValidView t array type := ⟨hshared, hd, hk, hl1, hl2⟩
    have hrun := Operation.run_eq_execute hc' t E hv hx hi op
    refine ⟨hrun, fun h => ?_⟩
    rw [hrun] at h
    obtain ⟨n, hn⟩ := execute_error t E array type i op s1 _ h
    cases hn

/-- Witness of `dispatch_covers_accepted_kinds`: a `BigUint64` view under the
numbering of V8. -/
theorem dispatch_covers_accepted_kinds_witness :
    v8ElementsKinds.WellFormed ∧
    ValidateSharedTypedArray v8ElementsKinds x64 (.TypedArray (exampleView .BIGUINT64_ELEMENTS)) =
      .ok (26, 4112) ∧
    Switch 26 .other
        [v8ElementsKinds.INT8_ELEMENTS, v8ElementsKinds.UINT8_ELEMENTS,
          v8ElementsKinds.INT16_ELEMENTS, v8ElementsKinds.UINT16_ELEMENTS,
          v8ElementsKinds.INT32_ELEMENTS, v8ElementsKinds.UINT32_ELEMENTS,
          v8ElementsKinds.BIGINT64_ELEMENTS, v8ElementsKinds.BIGUINT64_ELEMENTS]
        [.i8, .u8, .i16, .u16, .i32, .u32, .i64, .u64] ≠ .other :=
  ⟨v8ElementsKinds_wellFormed, rfl,
    (dispatch_covers_accepted_kinds v8ElementsKinds v8ElementsKinds_wellFormed x64
      (exampleView .BIGUINT64_ELEMENTS) 26 4112 rfl).1⟩

/-- C15: for every operation and every input, the builtin compiled for a target
fails with `TypeError`, respectively `RangeError`, exactly when the builtin
compiled for any other target does, whichever of the two takes the call-out
path: a failed validation ends the builtin with the error of validation on
both, with no runtime call, and after a successful validation neither error
arises.  Where the builtin takes the call-out path it is the one call of its
runtime function with the view validation accepted, the index validation
normalized, which is less than the length of the view, and the operands as
they were passed. -/
theorem callout_after_validation (c : ElementsKindEnum) (hc : c.WellFormed)
    (t t' : Target) (E : External) (maybe_array index : Object) (op : Operation)
    (s : State) :
    ((op.run c t E maybe_array index s).1 = .error .TypeError ↔
      (op.run c t' E maybe_array index s).1 = .error .TypeError) ∧
    ((op.run c t E maybe_array index s).1 = .error .RangeError ↔
      (op.run c t' E maybe_array index s).1 = .error .RangeError) ∧
    (∀ e s1, ValidateArguments c t E maybe_array index s = (.error e, s1) →
      op.run c t E maybe_array index s = (.error e, s1) ∧
      op.run c t' E maybe_array index s = (.error e, s1) ∧
      runtimeCalls s1.trace = runtimeCalls s.trace) ∧
    (∀ array k bs iw s1 type,
      ValidateArguments c t E maybe_array index s = (.ok (array, k, bs, iw), s1) →
      array.elements_kind.machineType = some type → op.callsRuntime t type = true →
      op.run c t E maybe_array index s =
        CallRuntime t E op.runtimeFunction array iw op.operands s1 ∧
      maybe_array = .TypedArray array ∧
      ValidateSharedTypedArray c t maybe_array = .ok (k, bs) ∧
      ValidateAtomicAccess E array index s = (.ok iw, s1) ∧
      iw < array.length ∧
      runtimeCalls (op.run c t E maybe_array index s).2.trace =
        runtimeCalls s.trace ++ [(op.runtimeFunction, array, iw, op.operands)]) ∧
    (∀ array type i s1, maybe_array = .TypedArray array → ValidView t array type →
      ToIndex E index s = (some i, s1) → i < array.length →
      runtimeCalls (op.run c t E maybe_array index s).2.trace =
        runtimeCalls s.trace ++
          if op.callsRuntime t type then [(op.runtimeFunction, array, i, op.operands)]
          else []) := by
  have herr : ∀ e s1, ValidateArguments c t E maybe_array index s = (.error e, s1) →
      op.run c t E maybe_array index s = (.error e, s1) ∧
      op.run c t' E maybe_array index s = (.error e, s1) ∧
      runtimeCalls s1.trace = runtimeCalls s.trace := by
    intro e s1 h
    refine ⟨Operation.run_of_validation_error c t E _ _ op s s1 e h,
      Operation.run_of_validation_error c t' E _ _ op s s1 e
        ((ValidateArguments_target c t t' E maybe_array index s s1).1 e h), ?_⟩
    rcases ValidateArguments_error c t E _ _ s s1 e h with ⟨-, rfl⟩ | ⟨-, rfl⟩ | ⟨-, rfl⟩
    · rfl
    · exact ToIndex_runtimeCalls E index s
    · rfl
  have hiff : ∀ e : Error, e = .TypeError ∨ e = .RangeError →
      ((op.run c t E maybe_array index s).1 = .error e ↔
        (op.run c t' E maybe_array index s).1 = .error e) := by
    intro e he
    rcases hva : ValidateArguments c t E maybe_array index s with ⟨e1 | x, s1⟩
    · obtain ⟨h1, h2, -⟩ := herr e1 s1 hva
      rw [h1, h2]
    · obtain ⟨x', hva'⟩ := (ValidateArguments_target c t t' E maybe_array index s s1).2 x hva
      have n1 := Operation.run_error_of_validation_ok c t E _ _ op s s1 x hva e
      have n2 := Operation.run_error_of_validation_ok c t' E _ _ op s s1 x' hva' e
      constructor
      · intro h
        rcases he with rfl | rfl
        · exact absurd rfl (n1 h).1
        · exact absurd rfl (n1 h).2
      · intro h
        rcases he with rfl | rfl
        · exact absurd rfl (n2 h).1
        · exact absurd rfl (n2 h).2
  refine ⟨hiff _ (Or.inl rfl), hiff _ (Or.inr rfl), herr, ?_, ?_⟩
  · intro array k bs iw s1 type hva hk hop
    obtain ⟨ha, hvs, -, -, hacc⟩ := ValidateArguments_inv c t E _ _ s s1 array k bs iw hva
    obtain ⟨hx, hi⟩ := ValidateAtomicAccess_inv E array index s s1 iw hacc
    have hrun := Operation.run_calls_runtime hc t E _ _ op s s1 array k bs iw type hva hk hop
    refine ⟨hrun, ha, hvs, hacc, hi, ?_⟩
    have hs1 := ToIndex_runtimeCalls E index s
    rw [hx] at hs1
    simp only [] at hs1
    rw [hrun, CallRuntime_eq_execute t E hk iw op hop s1, execute_runtimeCalls, hop, hs1]
    rfl
  · intro array type i s1 ha hv hx hi
    subst ha
    have hs1 := ToIndex_runtimeCalls E index s
    rw [hx] at hs1
    simp only [] at hs1
    rw [Operation.run_eq_execute hc t E hv hx hi op, execute_runtimeCalls, hs1]

/-- Witness of `callout_after_validation`: `Exchange` on an `Int8` view, on the
target that calls the runtime and on one that does not. -/
theorem callout_after_validation_witness :
    v8ElementsKinds.WellFormed ∧
    ValidateArguments v8ElementsKinds mips noExternal
        (.TypedArray (exampleView .INT8_ELEMENTS)) (.Smi 2) zeroState =
      (.ok (exampleView .INT8_ELEMENTS, 18, 4112, 2), zeroState.log (.ToIndex (.Smi 2))) ∧
    (exampleView .INT8_ELEMENTS).elements_kind.machineType = some MachineType.Int8 ∧
    (Operation.Exchange (.Smi 5)).callsRuntime mips MachineType.Int8 = true ∧
    (Operation.Exchange (.Smi 5)).callsRuntime x64 MachineType.Int8 = false ∧
    ((Operation.Exchange (.Smi 5)).run v8ElementsKinds mips noExternal
        (.TypedArray (exampleView .INT8_ELEMENTS)) (.Smi 2) zeroState =
      CallRuntime mips noExternal .kAtomicsExchange (exampleView .INT8_ELEMENTS) 2
        [.Smi 5] (zeroState.log (.ToIndex (.Smi 2)))) ∧
    (((Operation.Exchange (.Smi 5)).run v8ElementsKinds mips noExternal
        (.TypedArray (exampleView .INT8_ELEMENTS)) (.Smi 9) zeroState).1 =
        .error .RangeError ↔
      ((Operation.Exchange (.Smi 5)).run v8ElementsKinds x64 noExternal
        (.TypedArray (exampleView .INT8_ELEMENTS)) (.Smi 9) zeroState).1 =
        .error .RangeError) :=
  ⟨v8ElementsKinds_wellFormed, rfl, rfl, rfl, rfl,
    ((callout_after_validation v8ElementsKinds v8ElementsKinds_wellFormed mips x64
      noExternal (.TypedArray (exampleView .INT8_ELEMENTS)) (.Smi 2)
      (.Exchange (.Smi 5)) zeroState).2.2.2.1 (exampleView .INT8_ELEMENTS) 18 4112 2
      (zeroState.log (.ToIndex (.Smi 2))) MachineType.Int8 rfl rfl rfl).1,
    (callout_after_validation v8ElementsKinds v8ElementsKinds_wellFormed mips x64
      noExternal (.TypedArray (exampleView .INT8_ELEMENTS)) (.Smi 9)
      (.Exchange (.Smi 5)) zeroState).2.1⟩

/-- C16: on a valid view of a kind of width `w ≤ 32` whose addressed cell holds
the pattern `b`, `CompareExchange` with integer operands `expected` and
`replacement` stores the low `w` bits of `replacement` if and only if
`expected` is congruent to `b` modulo `2^w`; otherwise the memory, and with it
the cell, is as before. -/
theorem compareExchange_compares_truncated (c : ElementsKindEnum) (hc : c.WellFormed)
    (t : Target) (E : External) (array : JSTypedArray) (type : MachineType)
    (hv : ValidView t array type) (hn : type.representation ≠ .kWord64) (i : Nat)
    (hi : i < array.length) (expected replacement : Int) (s : State) (b : Nat)
    (hb : elementBits t array type i s.mem = b) :
    (AtomicsCompareExchange c t E (.TypedArray array) (.Smi i) (.Smi expected)
        (.Smi replacement) s).2.mem =
      (if expected % 2 ^ type.bits = (b : Int) % 2 ^ type.bits then
        writeBytes s.mem (elementAddress t array type i) type.representation.size
          (replacement % 2 ^ type.bits).toNat
      else s.mem) ∧
    elementBits t array type i
        (AtomicsCompareExchange c t E (.TypedArray array) (.Smi i) (.Smi expected)
          (.Smi replacement) s).2.mem =
      (if expected % 2 ^ type.bits = (b : Int) % 2 ^ type.bits then
        (replacement % 2 ^ type.bits).toNat
      else b) := by
  have hx := (AtomicsCompareExchange_exec hc t E hv hi expected replacement s).2
  rw [MachineType.tagged_narrow type _ hn, MachineType.tagged_narrow type _ hn] at hx
  have hiff := MachineType.eq_pattern_iff type _ expected (elementBits_lt t array type i s.mem)
  rw [MachineType.interpret_mod, hb] at hiff
  rw [hb] at hx
  rw [hx]
  by_cases h : expected % 2 ^ type.bits = (b : Int) % 2 ^ type.bits
  · rw [if_pos (hiff.mpr h.symm), if_pos h, if_pos h, elementBits_writeBytes]
    exact ⟨rfl, Nat.mod_eq_of_lt (MachineType.pattern_lt type replacement)⟩
  · rw [if_neg (fun h' => h (hiff.mp h').symm), if_neg h, if_neg h]
    exact ⟨rfl, hb⟩

/-- Witness of `compareExchange_compares_truncated`: `expected = 255` matches an
`Int8` cell holding `0xFF`, which `Load` reports as `-1`, and the replacement
`0` is stored. -/
theorem compareExchange_compares_truncated_witness :
    v8ElementsKinds.WellFormed ∧
    ValidView x64 (exampleView .INT8_ELEMENTS) MachineType.Int8 ∧
    MachineType.Int8.representation ≠ .kWord64 ∧
    0 < (exampleView .INT8_ELEMENTS).length ∧
    elementBits x64 (exampleView .INT8_ELEMENTS) MachineType.Int8 0 onesState.mem = 255 ∧
    (AtomicsLoad v8ElementsKinds x64 noExternal (.TypedArray (exampleView .INT8_ELEMENTS))
      (.Smi (0 : Nat)) onesState).1 = .ok (.Smi (-1)) ∧
    elementBits x64 (exampleView .INT8_ELEMENTS) MachineType.Int8 0
        (AtomicsCompareExchange v8ElementsKinds x64 noExternal
          (.TypedArray (exampleView .INT8_ELEMENTS)) (.Smi (0 : Nat)) (.Smi 255) (.Smi 0)
          onesState).2.mem =
      (if (255 : Int) % 2 ^ MachineType.Int8.bits =
          ((255 : Nat) : Int) % 2 ^ MachineType.Int8.bits then
        ((0 : Int) % 2 ^ MachineType.Int8.bits).toNat
      else 255) :=
  ⟨v8ElementsKinds_wellFormed, ⟨rfl, rfl, rfl, by decide, by decide⟩, by decide, by decide,
    rfl, rfl,
    (compareExchange_compares_truncated v8ElementsKinds v8ElementsKinds_wellFormed x64
      noExternal (exampleView .INT8_ELEMENTS) MachineType.Int8
      ⟨rfl, rfl, rfl, by decide, by decide⟩ (by decide) 0 (by decide) 255 0 onesState 255
      rfl).2⟩

/-- C17: for every 64-bit pattern `b` with `low = b mod 2^32` and
`high = b div 2^32`, `BigIntFromSigned64` and `BigIntFromUnsigned64` build from
the pair `(low, high)` on a target with 32-bit words the wide integer they
build from `b` on a target with 64-bit words: `b` read as two's complement,
respectively `b` itself; and a wide integer in range, decomposed by
`BigIntToRawBytes` and recomposed, is unchanged, on both kinds of target. -/
theorem split_and_native_agree (t32 t64 : Target) (h32 : t32.Is64 = false)
    (h64 : t64.Is64 = true) (b : Nat) (hb : b < 2 ^ 64) :
    BigIntFromSigned64 t32 (.Pair (b % 2 ^ 32) (b / 2 ^ 32)) =
      BigIntFromSigned64 t64 (.Word b) ∧
    BigIntFromUnsigned64 t32 (.Pair (b % 2 ^ 32) (b / 2 ^ 32)) =
      BigIntFromUnsigned64 t64 (.Word b) ∧
    BigIntFromSigned64 t64 (.Word b) =
      .BigInt (if b < 2 ^ 63 then (b : Int) else (b : Int) - 2 ^ 64) ∧
    BigIntFromUnsigned64 t64 (.Word b) = .BigInt (b : Int) ∧
    resultNode t32 ⟨.kWord64, false⟩ b = .Pair (b % 2 ^ 32) (b / 2 ^ 32) ∧
    resultNode t64 ⟨.kWord64, false⟩ b = .Word b ∧
    (∀ v : Int, -(2 : Int) ^ 63 ≤ v → v < 2 ^ 63 →
      BigIntFromSigned64 t32
          (.Pair (BigIntToRawBytes t32 v).1 (BigIntToRawBytes t32 v).2) = .BigInt v ∧
        BigIntFromSigned64 t64 (.Word (BigIntToRawBytes t64 v).1) = .BigInt v) ∧
    (∀ v : Int, 0 ≤ v → v < 2 ^ 64 →
      BigIntFromUnsigned64 t32
          (.Pair (BigIntToRawBytes t32 v).1 (BigIntToRawBytes t32 v).2) = .BigInt v ∧
        BigIntFromUnsigned64 t64 (.Word (BigIntToRawBytes t64 v).1) = .BigInt v) := by
  have e : b % 2 ^ 32 % 2 ^ 32 + 2 ^ 32 * (b / 2 ^ 32 % 2 ^ 32) = b := by omega
  refine ⟨?_, ?_, ?_, ?_, ?_, ?_, ?_, ?_⟩
  · simp only [BigIntFromSigned64, h32, h64, Bool.false_eq_true, if_false, if_true,
      Projection, BigIntFromInt32Pair, BigIntFromInt64, Node.word, toInt64, one_ne_zero, e]
  · simp only [BigIntFromUnsigned64, h32, h64, Bool.false_eq_true, if_false, if_true,
      Projection, BigIntFromUint32Pair, BigIntFromUint64, Node.word, one_ne_zero, e,
      Nat.mod_eq_of_lt hb]
  · simp only [BigIntFromSigned64, h64, if_true, BigIntFromInt64, Node.word, toInt64,
      Object.BigInt.injEq, Nat.mod_eq_of_lt hb]
  · simp only [BigIntFromUnsigned64, h64, if_true, BigIntFromUint64, Node.word,
      Nat.mod_eq_of_lt hb]
  · simp [resultNode, h32]
  · simp [resultNode, h64]
  · intro v h1 h2
    constructor
    · simp only [BigIntFromSigned64, BigIntToRawBytes, h32, Bool.false_eq_true, if_false,
        Projection, BigIntFromInt32Pair, toInt64, Object.BigInt.injEq]
      norm_num
      split_ifs <;> omega
    · simp only [BigIntFromSigned64, BigIntToRawBytes, h64, if_true, BigIntFromInt64,
        Node.word, toInt64, Object.BigInt.injEq]
      norm_num
      split_ifs <;> omega
  · intro v h1 h2
    constructor
    · simp only [BigIntFromUnsigned64, BigIntToRawBytes, h32, Bool.false_eq_true, if_false,
        Projection, BigIntFromUint32Pair, Object.BigInt.injEq]
      norm_num
      omega
    · simp only [BigIntFromUnsigned64, BigIntToRawBytes, h64, if_true, BigIntFromUint64,
        Node.word, Object.BigInt.injEq]
      norm_num
      omega

/-- Witness of `split_and_native_agree`: the pattern `2^63 + 5`, whose halves
are both non-zero, on the 32-bit and the 64-bit example targets. -/
theorem split_and_native_agree_witness :
    ia32.Is64 = false ∧ x64.Is64 = true ∧ 2 ^ 63 + 5 < 2 ^ 64 ∧
    BigIntFromSigned64 ia32 (.Pair ((2 ^ 63 + 5) % 2 ^ 32) ((2 ^ 63 + 5) / 2 ^ 32)) =
      BigIntFromSigned64 x64 (.Word (2 ^ 63 + 5)) :=
  ⟨rfl, rfl, by decide,
    (split_and_native_agree ia32 x64 rfl rfl (2 ^ 63 + 5) (by decide)).1⟩

/-- C18 (as stated, refuted): `CompareExchange` on an `Int8` view whose
`expected` operand is an object whose conversion stores into the shared memory
and whose `replacement` operand is an object whose conversion fails: the error
of the failed coercion is propagated, and the memory is not the memory before
the call. -/
theorem compareExchange_coercion_fails_memory_changed :
    (AtomicsCompareExchange v8ElementsKinds x64 writingExternal
      (.TypedArray (exampleView .INT8_ELEMENTS)) (.Smi 0) (.JSReceiver 0) (.JSReceiver 1)
      zeroState).1 = .error (.Thrown 7) ∧
    (AtomicsCompareExchange v8ElementsKinds x64 writingExternal
      (.TypedArray (exampleView .INT8_ELEMENTS)) (.Smi 0) (.JSReceiver 0) (.JSReceiver 1)
      zeroState).2.mem 4112 = 7 ∧
    zeroState.mem 4112 = 0 ∧
    atomicAccesses (AtomicsCompareExchange v8ElementsKinds x64 writingExternal
      (.TypedArray (exampleView .INT8_ELEMENTS)) (.Smi 0) (.JSReceiver 0) (.JSReceiver 1)
      zeroState).2.trace = [] :=
  ⟨rfl, rfl, rfl, rfl⟩

/-- C18 (amended): on a valid view at an in-bounds index, every operation
coerces its value operands in the order of the parameters (`expected` before
`replacement`), each coercion starting from the state the previous one left,
before its atomic primitive executes.  If a coercion fails, the error is
propagated, no later operand is coerced, the primitive is not executed, and
the state, memory included, is the one the coercions left.  If all succeed,
the operation succeeds and the trace is the trace before the coercions, the
coercions of all operands in order, then the one atomic access. -/
theorem operands_coerced_before_primitive (c : ElementsKindEnum) (hc : c.WellFormed)
    (t : Target) (E : External) (array : JSTypedArray) (type : MachineType)
    (hv : ValidView t array type) (index : Object) (i : Nat) (s s1 : State)
    (hx : ToIndex E index s = (some i, s1)) (hi : i < array.length) (op : Operation) :
    (∀ e s2,
      coerceAll E type op.operands (stateBeforeCoercion t array type i op s1) =
        (.error e, s2) →
      op.run c t E (.TypedArray array) index s = (.error e, s2) ∧
      atomicAccesses s2.trace = atomicAccesses s.trace ∧
      ∃ n, n < op.operands.length ∧
        s2.trace = (stateBeforeCoercion t array type i op s1).trace ++
          (op.operands.take (n + 1)).map (fun v =>
            if type.representation = .kWord64 then Event.ToBigInt v
            else Event.ToInteger v)) ∧
    (∀ vs s2,
      coerceAll E type op.operands (stateBeforeCoercion t array type i op s1) =
        (.ok vs, s2) →
      ∃ r m, op.run c t E (.TypedArray array) index s =
          (.ok r,
            { mem := m
              trace := (stateBeforeCoercion t array type i op s1).trace ++
                op.operands.map (fun v =>
                  if type.representation = .kWord64 then Event.ToBigInt v
                  else Event.ToInteger v) ++
                [.Atomic (elementAddress t array type i) type.representation.size] })) ∧
    (∀ expected replacement, op = .CompareExchange expected replacement →
      coerceAll E type op.operands (stateBeforeCoercion t array type i op s1) =
        match coerceValue E type expected (stateBeforeCoercion t array type i op s1) with
        | (.error e, s2) => (.error e, s2)
        | (.ok v, s2) =>
          match coerceValue E type replacement s2 with
          | (.error e, s3) => (.error e, s3)
          | (.ok w, s3) => (.ok [v, w], s3)) := by
  have hs1 : atomicAccesses s1.trace = atomicAccesses s.trace := by
    have h := ToIndex_trace E index s
    rw [hx] at h
    simp only [] at h
    rw [h, atomicAccesses_append]
    simp [atomicAccesses]
  have htr := coerceAll_trace E type op.operands (stateBeforeCoercion t array type i op s1)
  have hall := coerceAll_atomicAccesses E type op.operands
    (stateBeforeCoercion t array type i op s1)
  rw [Operation.run_eq_execute hc t E hv hx hi op]
  refine ⟨fun e s2 h => ?_, fun vs s2 h => ?_, fun a b hop => ?_⟩
  · rw [h] at hall
    simp only [] at hall
    exact ⟨execute_coerceAll_error t E array type i op s1 s2 e h,
      by rw [hall, stateBeforeCoercion_atomicAccesses, hs1], htr.2 e s2 h⟩
  · obtain ⟨r, m, hex, -⟩ := execute_coerceAll_ok t E array type i op s1 s2 vs h
    rw [hex, htr.1 vs s2 h]
    exact ⟨r, m, rfl⟩
  · subst hop
    simp only [Operation.operands, coerceAll]
    rcases coerceValue E type a _ with ⟨e | v, s2⟩
    · rfl
    · simp only []
      rcases coerceValue E type b s2 with ⟨e | w, s3⟩ <;> rfl

/-- Witness of `operands_coerced_before_primitive`: the call of the
counterexample; the first coercion succeeds, the second fails. -/
theorem operands_coerced_before_primitive_witness :
    v8ElementsKinds.WellFormed ∧
    ValidView x64 (exampleView .INT8_ELEMENTS) MachineType.Int8 ∧
    ToIndex writingExternal (.Smi 0) zeroState =
      (some 0, zeroState.log (.ToIndex (.Smi 0))) ∧
    0 < (exampleView .INT8_ELEMENTS).length ∧
    (coerceAll writingExternal MachineType.Int8
        (Operation.CompareExchange (.JSReceiver 0) (.JSReceiver 1)).operands
        (stateBeforeCoercion x64 (exampleView .INT8_ELEMENTS) MachineType.Int8 0
          (.CompareExchange (.JSReceiver 0) (.JSReceiver 1))
          (zeroState.log (.ToIndex (.Smi 0))))).1 = .error (.Thrown 7) ∧
    (Operation.CompareExchange (.JSReceiver 0) (.JSReceiver 1)).run v8ElementsKinds x64
        writingExternal (.TypedArray (exampleView .INT8_ELEMENTS)) (.Smi 0) zeroState =
      (.error (.Thrown 7),
        (coerceAll writingExternal MachineType.Int8
          (Operation.CompareExchange (.JSReceiver 0) (.JSReceiver 1)).operands
          (stateBeforeCoercion x64 (exampleView .INT8_ELEMENTS) MachineType.Int8 0
            (.CompareExchange (.JSReceiver 0) (.JSReceiver 1))
            (zeroState.log (.ToIndex (.Smi 0))))).2) :=
  ⟨v8ElementsKinds_wellFormed, ⟨rfl, rfl, rfl, by decide, by decide⟩, rfl, by decide, rfl,
    ((operands_coerced_before_primitive v8ElementsKinds v8ElementsKinds_wellFormed x64
      writingExternal (exampleView .INT8_ELEMENTS) MachineType.Int8
      ⟨rfl, rfl, rfl, by decide, by decide⟩ (.Smi 0) 0 zeroState
      (zeroState.log (.ToIndex (.Smi 0))) rfl (by decide)
      (.CompareExchange (.JSReceiver 0) (.JSReceiver 1))).1 (.Thrown 7) _ rfl).1⟩

/-- C19: on a view over a shared buffer, which is never detached and whose
length never changes, at an index `ValidateAtomicAccess` has accepted, both
assertions of `DebugSanityCheckAtomicIndex` hold for that index wherever
`Store`, `Exchange`, `CompareExchange` and `Fetch<op>` execute them, on a
debug target too: the buffer is not detached and the index is less than the
length, so no operation ends in a failed assertion. -/
theorem debug_assertions_hold (c : ElementsKindEnum) (hc : c.WellFormed) (t : Target)
    (E : External) (array : JSTypedArray) (type : MachineType)
    (hv : ValidView t array type) (index : Object) (i : Nat) (s s1 : State)
    (hva : ValidateAtomicAccess E array index s = (.ok i, s1)) :
    array.buffer.was_detached = false ∧ i < array.length ∧
    DebugSanityCheckAtomicIndex t array i = .ok () ∧
    DebugSanityCheckAtomicIndex { t with debug := true } array i = .ok () ∧
    ∀ op : Operation,
      (op.run c t E (.TypedArray array) index s).1 ≠ .error .AssertionFailed := by
  obtain ⟨hx, hi⟩ := ValidateAtomicAccess_inv E array index s s1 i hva
  refine ⟨hv.attached, hi, ?_, ?_, fun op h => ?_⟩
  · simp [DebugSanityCheckAtomicIndex, hv.attached, hi]
  · simp [DebugSanityCheckAtomicIndex, hv.attached, hi]
  · rw [Operation.run_eq_execute hc t E hv hx hi op] at h
    obtain ⟨n, hn⟩ := execute_error t E array type i op s1 _ h
    cases hn

/-- Witness of `debug_assertions_hold`: an `Int16` view on the debug target. -/
theorem debug_assertions_hold_witness :
    v8ElementsKinds.WellFormed ∧
    ValidView ia32 (exampleView .INT16_ELEMENTS) MachineType.Int16 ∧
    ValidateAtomicAccess noExternal (exampleView .INT16_ELEMENTS) (.Smi 2) zeroState =
      (.ok 2, zeroState.log (.ToIndex (.Smi 2))) ∧
    ia32.debug = true ∧
    DebugSanityCheckAtomicIndex ia32 (exampleView .INT16_ELEMENTS) 2 = .ok () ∧
    ∀ op : Operation,
      (op.run v8ElementsKinds ia32 noExternal (.TypedArray (exampleView .INT16_ELEMENTS))
        (.Smi 2) zeroState).1 ≠ .error .AssertionFailed :=
  ⟨v8ElementsKinds_wellFormed, ⟨rfl, rfl, rfl, by decide, by decide⟩, rfl, rfl,
    (debug_assertions_hold v8ElementsKinds v8ElementsKinds_wellFormed ia32 noExternal
      (exampleView .INT16_ELEMENTS) MachineType.Int16 ⟨rfl, rfl, rfl, by decide, by decide⟩
      (.Smi 2) 2 zeroState (zeroState.log (.ToIndex (.Smi 2))) rfl).2.2.1,
    (debug_assertions_hold v8ElementsKinds v8ElementsKinds_wellFormed ia32 noExternal
      (exampleView .INT16_ELEMENTS) MachineType.Int16 ⟨rfl, rfl, rfl, by decide, by decide⟩
      (.Smi 2) 2 zeroState (zeroState.log (.ToIndex (.Smi 2))) rfl).2.2.2.2⟩

/-- C20: on a valid view at an in-bounds index `Store(value)` returns the
coerced operand itself: on a kind of width `≤ 32` bits the integer `v` that
`ToInteger_Inline` yields for the operand, as a number, not truncated; on a
64-bit kind the wide integer `v` that `ToBigInt` yields, not wrapped.  The
`Load` that follows returns `v` wrapped to the width of the kind, so both
values differ whenever `v` is outside the range of the kind. -/
theorem store_returns_coerced_operand (c : ElementsKindEnum) (hc : c.WellFormed)
    (t : Target) (E : External) (array : JSTypedArray) (type : MachineType)
    (hv : ValidView t array type) (index : Object) (i : Nat) (s s1 : State)
    (hx : ToIndex E index s = (some i, s1)) (hi : i < array.length) (value : Object) :
    (type.representation ≠ .kWord64 → ∀ v s2,
      ToInteger_Inline E value (stateBeforeCoercion t array type i (.Store value) s1) =
        (.ok v, s2) →
      (AtomicsStore c t E (.TypedArray array) index value s).1 = .ok (.Smi v)) ∧
    (type.representation = .kWord64 → ∀ v s2,
      ToBigInt E value (stateBeforeCoercion t array type i (.Store value) s1) =
        (.ok v, s2) →
      (AtomicsStore c t E (.TypedArray array) index value s).1 = .ok (.BigInt v)) ∧
    (∀ v s2,
      coerceValue E type value (stateBeforeCoercion t array type i (.Store value) s1) =
        (.ok v, s2) →
      (AtomicsStore c t E (.TypedArray array) index value s).1 = .ok (type.tagged v) ∧
      (AtomicsLoad c t E (.TypedArray array) (.Smi i)
          (AtomicsStore c t E (.TypedArray array) index value s).2).1 =
        .ok (type.tagged (type.interpret (type.pattern v))) ∧
      type.InRange (type.interpret (type.pattern v)) ∧
      (¬ type.InRange v →
        (AtomicsLoad c t E (.TypedArray array) (.Smi i)
          (AtomicsStore c t E (.TypedArray array) index value s).2).1 ≠
        (AtomicsStore c t E (.TypedArray array) index value s).1)) := by
  have hrun := AtomicsStore_eq_execute hc t E hv hx hi value
  have key : ∀ v s2,
      coerceValue E type value (stateBeforeCoercion t array type i (.Store value) s1) =
        (.ok v, s2) →
      AtomicsStore c t E (.TypedArray array) index value s =
        (.ok (type.tagged v), writeElement t array type i (type.pattern v) s2) := by
    intro v s2 hco
    unfold stateBeforeCoercion at hco
    rw [hrun]
    simp only [execute, hco]
  refine ⟨fun hn v s2 h => ?_, fun hw v s2 h => ?_, fun v s2 h => ?_⟩
  · have hco : coerceValue E type value
        (stateBeforeCoercion t array type i (.Store value) s1) = (.ok v, s2) := by
      rw [← h]
      obtain ⟨rep, sg⟩ := type
      cases rep <;> simp [coerceValue] at hn ⊢
    rw [key v s2 hco, MachineType.tagged_narrow type v hn]
  · have hco : coerceValue E type value
        (stateBeforeCoercion t array type i (.Store value) s1) = (.ok v, s2) := by
      rw [← h]
      obtain ⟨rep, sg⟩ := type
      cases rep <;> simp [coerceValue] at hw ⊢
    rw [key v s2 hco, MachineType.tagged_wide type v hw]
  · have hr := MachineType.interpret_inRange type _ (MachineType.pattern_lt type v)
    have hl : (AtomicsLoad c t E (.TypedArray array) (.Smi i)
          (AtomicsStore c t E (.TypedArray array) index value s).2).1 =
        .ok (type.tagged (type.interpret (type.pattern v))) := by
      rw [(AtomicsLoad_exec hc t E hv hi _).1, key v s2 h]
      simp only [writeElement]
      rw [elementBits_writeBytes, Nat.mod_eq_of_lt (MachineType.pattern_lt type v)]
    refine ⟨by rw [key v s2 h], hl, hr, fun hnr heq => hnr ?_⟩
    rw [hl, key v s2 h] at heq
    have := MachineType.tagged_injective type _ _ (Except.ok.inj heq)
    rw [← this]
    exact hr

/-- Witness of `store_returns_coerced_operand`: `Store(300)` on an `Int8` view
returns `300`, and the `Load` that follows returns `44`. -/
theorem store_returns_coerced_operand_witness :
    v8ElementsKinds.WellFormed ∧
    ValidView x64 (exampleView .INT8_ELEMENTS) MachineType.Int8 ∧
    ToIndex noExternal (.Smi 1) zeroState = (some 1, zeroState.log (.ToIndex (.Smi 1))) ∧
    1 < (exampleView .INT8_ELEMENTS).length ∧
    MachineType.Int8.representation ≠ .kWord64 ∧
    ToInteger_Inline noExternal (.Smi 300)
        (stateBeforeCoercion x64 (exampleView .INT8_ELEMENTS) MachineType.Int8 1
          (.Store (.Smi 300)) (zeroState.log (.ToIndex (.Smi 1)))) =
      (.ok 300, (zeroState.log (.ToIndex (.Smi 1))).log (.ToInteger (.Smi 300))) ∧
    (AtomicsStore v8ElementsKinds x64 noExternal (.TypedArray (exampleView .INT8_ELEMENTS))
      (.Smi 1) (.Smi 300) zeroState).1 = .ok (.Smi 300) ∧
    (AtomicsLoad v8ElementsKinds x64 noExternal (.TypedArray (exampleView .INT8_ELEMENTS))
      (.Smi 1)
      (AtomicsStore v8ElementsKinds x64 noExternal (.TypedArray (exampleView .INT8_ELEMENTS))
        (.Smi 1) (.Smi 300) zeroState).2).1 = .ok (.Smi 44) :=
  ⟨v8ElementsKinds_wellFormed, ⟨rfl, rfl, rfl, by decide, by decide⟩, rfl, by decide,
    by decide, rfl,
    (store_returns_coerced_operand v8ElementsKinds v8ElementsKinds_wellFormed x64 noExternal
      (exampleView .INT8_ELEMENTS) MachineType.Int8 ⟨rfl, rfl, rfl, by decide, by decide⟩
      (.Smi 1) 1 zeroState (zeroState.log (.ToIndex (.Smi 1))) rfl (by decide)
      (.Smi 300)).1 (by decide) 300 _ rfl,
    rfl⟩

/-- C21 (as stated, refuted): a successful `Store` at index 1 of an `Int8` view,
whose cell is the byte at address 4113, with an operand whose conversion to an
integer stores into the shared memory: the byte at address 4112, outside the
cell, is 0 before the call and 7 after it. -/
theorem store_changes_byte_outside_cell :
    (AtomicsStore v8ElementsKinds x64 writingExternal
      (.TypedArray (exampleView .INT8_ELEMENTS)) (.Smi 1) (.JSReceiver 0)
      zeroState).1 = .ok (.Smi 1) ∧
    elementAddress x64 (exampleView .INT8_ELEMENTS) MachineType.Int8 1 = 4113 ∧
    MachineType.Int8.representation.size = 1 ∧
    (exampleView .INT8_ELEMENTS).buffer.backing_store +
      (exampleView .INT8_ELEMENTS).byte_offset + 1 * 1 = 4113 ∧
    (AtomicsStore v8ElementsKinds x64 writingExternal
      (.TypedArray (exampleView .INT8_ELEMENTS)) (.Smi 1) (.JSReceiver 0)
      zeroState).2.mem 4112 = 7 ∧
    zeroState.mem 4112 = 0 :=
  ⟨rfl, rfl, rfl, rfl, rfl, rfl⟩

/-- C21 (amended): on a valid view at an in-bounds index `i`, the operation
itself writes only within the cell: every byte outside
`[address, address + size)`, where `address` is the address of element `i`, is
after the call as the coercions of the operands left it, and after a `Load`
the whole memory is as the index coercion left it.  When neither the index
coercion nor the operand coercions change the memory, every byte outside the
cell is unchanged by the call and `Load` changes no byte at all.  The address
is `backing store + byte offset + i * size` whenever the elements of the view
fit the address space. -/
theorem frame_outside_cell (c : ElementsKindEnum) (hc : c.WellFormed) (t : Target)
    (E : External) (array : JSTypedArray) (type : MachineType)
    (hv : ValidView t array type) (index : Object) (i : Nat) (s s1 : State)
    (hx : ToIndex E index s = (some i, s1)) (hi : i < array.length) (op : Operation) :
    (∀ a, a < elementAddress t array type i ∨
        elementAddress t array type i + type.representation.size ≤ a →
      (op.run c t E (.TypedArray array) index s).2.mem a =
        (coerceAll E type op.operands
          (stateBeforeCoercion t array type i op s1)).2.mem a) ∧
    (op = .Load → (op.run c t E (.TypedArray array) index s).2.mem = s1.mem) ∧
    (s1.mem = s.mem →
      (∀ o ∈ op.operands, ∀ s' : State, (coerceValue E type o s').2.mem = s'.mem) →
      (∀ a, a < elementAddress t array type i ∨
          elementAddress t array type i + type.representation.size ≤ a →
        (op.run c t E (.TypedArray array) index s).2.mem a = s.mem a) ∧
      (op = .Load → (op.run c t E (.TypedArray array) index s).2.mem = s.mem)) ∧
    (array.buffer.backing_store + array.byte_offset +
        array.length * type.representation.size ≤ 2 ^ t.wordBits →
      elementAddress t array type i =
        array.buffer.backing_store + array.byte_offset +
          i * type.representation.size) := by
  have hrun := Operation.run_eq_execute hc t E hv hx hi op
  have hload : op = .Load → (op.run c t E (.TypedArray array) index s).2.mem = s1.mem := by
    intro h
    subst h
    rw [hrun]
    exact execute_load_mem t E array type i s1
  refine ⟨fun a ha => ?_, hload, fun hm hpure => ⟨fun a ha => ?_, fun h => ?_⟩,
    elementAddress_exact t array type i hi⟩
  · rw [hrun]
    exact execute_mem_outside t E array type i op s1 a ha
  · rw [hrun, execute_mem_outside t E array type i op s1 a ha,
      coerceAll_mem E type op.operands hpure, stateBeforeCoercion_mem, hm]
  · rw [hload h, hm]

/-- Witness of `frame_outside_cell`: `Store(300)` at index 1 of an `Int8` view
leaves every byte other than the one at the address of the element as it
was. -/
theorem frame_outside_cell_witness :
    v8ElementsKinds.WellFormed ∧
    ValidView x64 (exampleView .INT8_ELEMENTS) MachineType.Int8 ∧
    ToIndex noExternal (.Smi 1) zeroState = (some 1, zeroState.log (.ToIndex (.Smi 1))) ∧
    1 < (exampleView .INT8_ELEMENTS).length ∧
    (zeroState.log (.ToIndex (.Smi 1))).mem = zeroState.mem ∧
    (∀ o ∈ (Operation.Store (.Smi 300)).operands, ∀ s' : State,
      (coerceValue noExternal MachineType.Int8 o s').2.mem = s'.mem) ∧
    ∀ a, a < elementAddress x64 (exampleView .INT8_ELEMENTS) MachineType.Int8 1 ∨
        elementAddress x64 (exampleView .INT8_ELEMENTS) MachineType.Int8 1 +
          MachineType.Int8.representation.size ≤ a →
      ((Operation.Store (.Smi 300)).run v8ElementsKinds x64 noExternal
        (.TypedArray (exampleView .INT8_ELEMENTS)) (.Smi 1) zeroState).2.mem a =
        zeroState.mem a :=
  ⟨v8ElementsKinds_wellFormed, ⟨rfl, rfl, rfl, by decide, by decide⟩, rfl, by decide, rfl,
    fun o ho s' => by
      simp only [Operation.operands, List.mem_singleton] at ho
      subst ho
      rfl,
    ((frame_outside_cell v8ElementsKinds v8ElementsKinds_wellFormed x64 noExternal
      (exampleView .INT8_ELEMENTS) MachineType.Int8 ⟨rfl, rfl, rfl, by decide, by decide⟩
      (.Smi 1) 1 zeroState (zeroState.log (.ToIndex (.Smi 1))) rfl (by decide)
      (.Store (.Smi 300))).2.2.1 rfl
      (fun o ho s' => by
        simp only [Operation.operands, List.mem_singleton] at ho
        subst ho
        rfl)).1⟩

/-- C22: two views whose kinds have the same width `w`, in particular the signed
and the unsigned kind of that width, over the same cell, with the same initial
state, raw index and operands: every operation leaves the same memory on both,
fails on one exactly when it fails on the other, and where it succeeds the two
results are integers congruent modulo `2^w`, each in the range of its kind for
`Load`, `Exchange`, `CompareExchange` and `Fetch<op>`, and the same integer for
`Store`. -/
theorem memory_independent_of_signedness (c : ElementsKindEnum) (hc : c.WellFormed)
    (t : Target) (E : External) (arrayS arrayU : JSTypedArray) (typeS typeU : MachineType)
    (hS : ValidView t arrayS typeS) (hU : ValidView t arrayU typeU)
    (hrep : typeS.representation = typeU.representation)
    (hbuf : arrayU.buffer = arrayS.buffer) (hoff : arrayU.byte_offset = arrayS.byte_offset)
    (index : Object) (i : Nat) (s s1 : State) (hx : ToIndex E index s = (some i, s1))
    (hiS : i < arrayS.length) (hiU : i < arrayU.length) (op : Operation) :
    elementAddress t arrayU typeU i = elementAddress t arrayS typeS i ∧
    (op.run c t E (.TypedArray arrayU) index s).2.mem =
      (op.run c t E (.TypedArray arrayS) index s).2.mem ∧
    (∀ e, (op.run c t E (.TypedArray arrayS) index s).1 = .error e ↔
      (op.run c t E (.TypedArray arrayU) index s).1 = .error e) ∧
    (∀ r, (op.run c t E (.TypedArray arrayS) index s).1 = .ok r →
      ∃ x y : Int, r = typeS.tagged x ∧
        (op.run c t E (.TypedArray arrayU) index s).1 = .ok (typeU.tagged y) ∧
        x % 2 ^ typeS.bits = y % 2 ^ typeS.bits ∧
        ((∀ value, op ≠ .Store value) → typeS.InRange x ∧ typeU.InRange y) ∧
        (∀ value, op = .Store value → x = y)) := by
  have hA : elementAddress t arrayU typeU i = elementAddress t arrayS typeS i := by
    simp only [elementAddress, hbuf, hoff, hrep]
  rw [Operation.run_eq_execute hc t E hS hx hiS op,
    Operation.run_eq_execute hc t E hU hx hiU op]
  exact ⟨hA, execute_congr t E arrayS arrayU typeS typeU hrep hbuf hoff i op s1⟩

/-- Witness of `memory_independent_of_signedness`: `FetchAdd(1)` on an `Int8`
and a `Uint8` view over a cell of all ones. -/
theorem memory_independent_of_signedness_witness :
    v8ElementsKinds.WellFormed ∧
    ValidView x64 (exampleView .INT8_ELEMENTS) MachineType.Int8 ∧
    ValidView x64 (exampleView .UINT8_ELEMENTS) MachineType.Uint8 ∧
    MachineType.Int8.isSigned = true ∧ MachineType.Uint8.isSigned = false ∧
    MachineType.Int8.representation = MachineType.Uint8.representation ∧
    (exampleView .UINT8_ELEMENTS).buffer = (exampleView .INT8_ELEMENTS).buffer ∧
    (exampleView .UINT8_ELEMENTS).byte_offset = (exampleView .INT8_ELEMENTS).byte_offset ∧
    ToIndex noExternal (.Smi 2) onesState = (some 2, onesState.log (.ToIndex (.Smi 2))) ∧
    2 < (exampleView .INT8_ELEMENTS).length ∧ 2 < (exampleView .UINT8_ELEMENTS).length ∧
    ((Operation.Fetch .Add (.Smi 1)).run v8ElementsKinds x64 noExternal
        (.TypedArray (exampleView .UINT8_ELEMENTS)) (.Smi 2) onesState).2.mem =
      ((Operation.Fetch .Add (.Smi 1)).run v8ElementsKinds x64 noExternal
        (.TypedArray (exampleView .INT8_ELEMENTS)) (.Smi 2) onesState).2.mem ∧
    ((Operation.Fetch .Add (.Smi 1)).run v8ElementsKinds x64 noExternal
        (.TypedArray (exampleView .INT8_ELEMENTS)) (.Smi 2) onesState).1 = .ok (.Smi (-1)) ∧
    ((Operation.Fetch .Add (.Smi 1)).run v8ElementsKinds x64 noExternal
        (.TypedArray (exampleView .UINT8_ELEMENTS)) (.Smi 2) onesState).1 = .ok (.Smi 255) :=
  ⟨v8ElementsKinds_wellFormed, ⟨rfl, rfl, rfl, by decide, by decide⟩,
    ⟨rfl, rfl, rfl, by decide, by decide⟩, rfl, rfl, rfl, rfl, rfl, rfl, by decide, by decide,
    (memory_independent_of_signedness v8ElementsKinds v8ElementsKinds_wellFormed x64
      noExternal (exampleView .INT8_ELEMENTS) (exampleView .UINT8_ELEMENTS)
      MachineType.Int8 MachineType.Uint8 ⟨rfl, rfl, rfl, by decide, by decide⟩
      ⟨rfl, rfl, rfl, by decide, by decide⟩ rfl rfl rfl (.Smi 2) 2 onesState
      (onesState.log (.ToIndex (.Smi 2))) rfl (by decide) (by decide)
      (.Fetch .Add (.Smi 1))).2.1,
    rfl, rfl⟩

/-- C23: in every operation `ValidateSharedTypedArray` runs first: when it
rejects the candidate, the call fails with `TypeError`, whatever the index and
the operands, and the state is untouched, so that no coercion has been invoked;
then `ValidateAtomicAccess` coerces and tests the index: when it rejects the
index, the call fails with `RangeError` in the state the index coercion left,
whose trace has gained the index coercion only; and on a valid view at an index
that validation accepts, the coercions the call has invoked are the index
coercion followed by the coercions of the value operands in order, all of them
when the call succeeds. -/
theorem validation_order (c : ElementsKindEnum) (t : Target) (E : External)
    (maybe_array index : Object) (op : Operation) (s : State) :
    (∀ e, ValidateSharedTypedArray c t maybe_array = .error e →
      op.run c t E maybe_array index s = (.error .TypeError, s)) ∧
    (∀ array k bs e s1, maybe_array = .TypedArray array →
      ValidateSharedTypedArray c t maybe_array = .ok (k, bs) →
      ValidateAtomicAccess E array index s = (.error e, s1) →
      op.run c t E maybe_array index s = (.error .RangeError, s1) ∧
      s1 = (ToIndex E index s).2 ∧
      s1.trace = s.trace ++ [.ToIndex index]) ∧
    (∀ array type i s1, c.WellFormed → maybe_array = .TypedArray array →
      ValidView t array type → ToIndex E index s = (some i, s1) → i < array.length →
      ∃ n, n ≤ op.operands.length ∧
        coercions (op.run c t E maybe_array index s).2.trace =
          coercions s.trace ++ .ToIndex index :: (op.operands.take n).map (fun v =>
            if type.representation = .kWord64 then Event.ToBigInt v
            else Event.ToInteger v) ∧
        (∀ r, (op.run c t E maybe_array index s).1 = .ok r → n = op.operands.length)) := by
  refine ⟨fun e h => ?_, fun array k bs e s1 ha hvs hva => ?_,
    fun array type i s1 hc ha hv hx hi => ?_⟩
  · have he := ValidateSharedTypedArray_error c t maybe_array e h
    subst he
    exact Operation.run_of_validation_error c t E maybe_array index op s s .TypeError
      (by simp only [ValidateArguments, h])
  · subst ha
    obtain ⟨he, hs1⟩ := ValidateAtomicAccess_error E array index s s1 e hva
    subst he
    refine ⟨Operation.run_of_validation_error c t E _ index op s s1 .RangeError
      (by simp only [ValidateArguments, hvs, hva]), hs1, ?_⟩
    rw [hs1, ToIndex_trace]
  · subst ha
    obtain ⟨n, hn, htr, hok⟩ := execute_coercions t E array type i op s1
    have hs1 := ToIndex_trace E index s
    rw [hx] at hs1
    simp only [] at hs1
    rw [Operation.run_eq_execute hc t E hv hx hi op]
    refine ⟨n, hn, ?_, hok⟩
    rw [htr, hs1, coercions_append]
    simp [coercions]

/-- Witness of `validation_order`: `CompareExchange` on a candidate that is not
a view, with operands whose coercion would run external logic, and on a view
at an index out of bounds. -/
theorem validation_order_witness :
    ValidateSharedTypedArray v8ElementsKinds x64 (.JSReceiver 5) = .error .TypeError ∧
    (Operation.CompareExchange (.JSReceiver 0) (.JSReceiver 1)).run v8ElementsKinds x64
        writingExternal (.JSReceiver 5) (.JSReceiver 2) zeroState =
      (.error .TypeError, zeroState) ∧
    ValidateSharedTypedArray v8ElementsKinds x64 (.TypedArray (exampleView .INT8_ELEMENTS)) =
      .ok (18, 4112) ∧
    ValidateAtomicAccess writingExternal (exampleView .INT8_ELEMENTS) (.Smi 4) zeroState =
      (.error .RangeError, zeroState.log (.ToIndex (.Smi 4))) ∧
    (Operation.CompareExchange (.JSReceiver 0) (.JSReceiver 1)).run v8ElementsKinds x64
        writingExternal (.TypedArray (exampleView .INT8_ELEMENTS)) (.Smi 4) zeroState =
      (.error .RangeError, zeroState.log (.ToIndex (.Smi 4))) :=
  ⟨rfl,
    (validation_order v8ElementsKinds x64 writingExternal (.JSReceiver 5) (.JSReceiver 2)
      (.CompareExchange (.JSReceiver 0) (.JSReceiver 1)) zeroState).1 .TypeError rfl,
    rfl, rfl,
    ((validation_order v8ElementsKinds x64 writingExternal
      (.TypedArray (exampleView .INT8_ELEMENTS)) (.Smi 4)
      (.CompareExchange (.JSReceiver 0) (.JSReceiver 1)) zeroState).2.1
      (exampleView .INT8_ELEMENTS) 18 4112 .RangeError (zeroState.log (.ToIndex (.Smi 4)))
      rfl rfl rfl).1⟩

/-- C24: for a view of an integer kind with elements of `2^k` bytes whose byte
length `length * 2^k` fits a machine word, and an index `i` that
`ValidateAtomicAccess` accepts: `i` is less than the length, the shift `i << k`
does not overflow (it is `i * 2^k`), the byte range `[i * 2^k, i * 2^k + 2^k)`
lies within `[0, length * 2^k)`, and the ranges of two distinct accepted
indices are disjoint; when the view lies within the address space the same
holds of the addresses of the elements, which are those every successful
operation accesses. -/
theorem accepted_index_in_bounds (t : Target) (E : External) (array : JSTypedArray)
    (type : MachineType) (hk : array.elements_kind.machineType = some type)
    (hfit : array.length * type.representation.size < 2 ^ t.wordBits)
    (index : Object) (s s1 : State) (i : Nat)
    (hva : ValidateAtomicAccess E array index s = (.ok i, s1)) :
    i < array.length ∧
    type.representation.size = 2 ^ type.representation.sizeLog2 ∧
    WordShl t i type.representation.sizeLog2 = i * type.representation.size ∧
    i * type.representation.size + type.representation.size ≤
      array.length * type.representation.size ∧
    (∀ (E' : External) (index' : Object) (s' s1' : State) (j : Nat),
      ValidateAtomicAccess E' array index' s' = (.ok j, s1') → i ≠ j →
      i * type.representation.size + type.representation.size ≤
          j * type.representation.size ∨
        j * type.representation.size + type.representation.size ≤
          i * type.representation.size) ∧
    (array.buffer.backing_store + array.byte_offset +
        array.length * type.representation.size ≤ 2 ^ t.wordBits →
      elementAddress t array type i =
        array.buffer.backing_store + array.byte_offset + i * type.representation.size ∧
      (∀ (E' : External) (index' : Object) (s' s1' : State) (j : Nat),
        ValidateAtomicAccess E' array index' s' = (.ok j, s1') → i ≠ j →
        elementAddress t array type i + type.representation.size ≤
            elementAddress t array type j ∨
          elementAddress t array type j + type.representation.size ≤
            elementAddress t array type i)) ∧
    (∀ (c : ElementsKindEnum) (op : Operation) (r : Object), c.WellFormed →
      ValidView t array type →
      (op.run c t E (.TypedArray array) index s).1 = .ok r →
      atomicAccesses (op.run c t E (.TypedArray array) index s).2.trace =
        atomicAccesses s.trace ++
          [(elementAddress t array type i, type.representation.size)]) := by
  obtain ⟨hx, hi⟩ := ValidateAtomicAccess_inv E array index s s1 i hva
  have hsz : type.representation.size = 2 ^ type.representation.sizeLog2 := by
    obtain ⟨rep, sg⟩ := type
    cases rep <;> rfl
  have hpos : 0 < type.representation.size := by rw [hsz]; positivity
  have hrange : ∀ j, j < array.length →
      j * type.representation.size + type.representation.size ≤
        array.length * type.representation.size := by
    intro j hj
    calc j * type.representation.size + type.representation.size
        = (j + 1) * type.representation.size := by ring
      _ ≤ array.length * type.representation.size := Nat.mul_le_mul_right _ hj
  have hdisj : ∀ j, i ≠ j →
      i * type.representation.size + type.representation.size ≤
          j * type.representation.size ∨
        j * type.representation.size + type.representation.size ≤
          i * type.representation.size := by
    intro j hij
    rcases Nat.lt_or_gt_of_ne hij with h | h
    · left
      calc i * type.representation.size + type.representation.size
          = (i + 1) * type.representation.size := by ring
        _ ≤ j * type.representation.size := Nat.mul_le_mul_right _ h
    · right
      calc j * type.representation.size + type.representation.size
          = (j + 1) * type.representation.size := by ring
        _ ≤ i * type.representation.size := Nat.mul_le_mul_right _ h
  refine ⟨hi, hsz, ?_, hrange i hi, fun E' index' s' s1' j _ hij => hdisj j hij, ?_, ?_⟩
  · rw [WordShl, ← hsz]
    exact Nat.mod_eq_of_lt (by have := hrange i hi; omega)
  · intro hspace
    refine ⟨elementAddress_exact t array type i hi hspace,
      fun E' index' s' s1' j hvj hij => ?_⟩
    obtain ⟨-, hj⟩ := ValidateAtomicAccess_inv E' array index' s' s1' j hvj
    rw [elementAddress_exact t array type i hi hspace,
      elementAddress_exact t array type j hj hspace]
    rcases hdisj j hij with h | h
    · left; omega
    · right; omega
  · intro c op r hc hv hok
    rw [Operation.run_eq_execute hc t E hv hx hi op] at hok ⊢
    have h := (execute_atomicAccesses t E array type i op s1).1 r hok
    have hs1 := ToIndex_atomicAccesses E index s
    rw [hx] at hs1
    simp only [] at hs1
    rw [h, hs1]

/-- Witness of `accepted_index_in_bounds`: the last element of a `BigInt64`
view of four elements on a 32-bit target. -/
theorem accepted_index_in_bounds_witness :
    (exampleView .BIGINT64_ELEMENTS).elements_kind.machineType = some ⟨.kWord64, true⟩ ∧
    (exampleView .BIGINT64_ELEMENTS).length *
      (MachineType.mk .kWord64 true).representation.size < 2 ^ ia32.wordBits ∧
    ValidateAtomicAccess noExternal (exampleView .BIGINT64_ELEMENTS) (.Smi 3) zeroState =
      (.ok 3, zeroState.log (.ToIndex (.Smi 3))) ∧
    WordShl ia32 3 (MachineType.mk .kWord64 true).representation.sizeLog2 =
      3 * (MachineType.mk .kWord64 true).representation.size ∧
    3 * (MachineType.mk .kWord64 true).representation.size +
        (MachineType.mk .kWord64 true).representation.size ≤
      (exampleView .BIGINT64_ELEMENTS).length *
        (MachineType.mk .kWord64 true).representation.size :=
  ⟨rfl, by decide, rfl,
    (accepted_index_in_bounds ia32 noExternal (exampleView .BIGINT64_ELEMENTS)
      ⟨.kWord64, true⟩ rfl (by decide) (.Smi 3) zeroState
      (zeroState.log (.ToIndex (.Smi 3))) 3 rfl).2.2.1,
    (accepted_index_in_bounds ia32 noExternal (exampleView .BIGINT64_ELEMENTS)
      ⟨.kWord64, true⟩ rfl (by decide) (.Smi 3) zeroState
      (zeroState.log (.ToIndex (.Smi 3))) 3 rfl).2.2.2.1⟩

end V8
